import Mathlib

/-! # ScaleIO framework: role selection, topology decoding and reconciliation

A shallow embedding of the scheduler side of the ScaleIO framework
(`scaleio-scheduler/scheduler/scaleio.go`, `selection.go`, `server/server.go`).

Conventions of the embedding:

* a Go `map[string]*V` is an association list `GoMap V` with at most one entry
  per key in well-formed data; a missing key and a nil map are the empty list;
  `m[k]` is `GoMap.get`, `m[k] = v` is `GoMap.put`;
* a Go slice that the code tests against `nil` is an `Option (List _)`;
* a pointer that the code mutates in place is a value that is written back;
* a `range` over a map visits the entries in list order (Go leaves the order
  open; the functions below treat every entry independently of the others);
* a `float64` quantity is a `Float64`: a finite value, an infinity or NaN; `+`
  and `*` round the exact result to the nearest binary64 value (ties to even,
  subnormal range and overflow to an infinity included), and `>=`, `>` are
  false as soon as an operand is NaN;
* logging is omitted.
-/

/-! ## Go maps -/

/-- A Go `map[string]*V`, as an association list. -/
abbrev GoMap (V : Type) := List (String × V)

namespace GoMap

/-- The value `m[k]`; `none` stands for the nil pointer of a missing key. -/
def get {V : Type} : GoMap V → String → Option V
  | [], _ => none
  | (k', v) :: rest, k => if k' = k then some v else get rest k

/-- The assignment `m[k] = v`: replaces the entry of `k`, or adds one. -/
def put {V : Type} : GoMap V → String → V → GoMap V
  | [], k, v => [(k, v)]
  | (k', v') :: rest, k, v => if k' = k then (k', v) :: rest else (k', v') :: put rest k v

/-- The keys of the map, in entry order. -/
def keys {V : Type} (m : GoMap V) : List String := m.map Prod.fst

/-- A `range` loop that mutates every value in place and may raise a flag:
`f key value` gives the value after the iteration and whether the iteration
raised the flag; the result carries whether any iteration did. -/
def rangeUpdate {V : Type} (f : String → V → V × Bool) : GoMap V → GoMap V × Bool
  | [] => ([], false)
  | (k, v) :: rest =>
    ((k, (f k v).1) :: (rangeUpdate f rest).1, (f k v).2 || (rangeUpdate f rest).2)

end GoMap

/-! ## Data model (`types` and `kvstore` packages) -/

namespace types

/-- Declared storage pool of a node: `types.StoragePool`. -/
structure StoragePool where
  Name : String
  Devices : Option (List String)
  KeyValue : GoMap String
  deriving DecidableEq, Repr

/-- Declared fault set of a node: `types.FaultSet`. -/
structure FaultSet where
  Name : String
  SdsIps : List String
  deriving DecidableEq, Repr

/-- Declared protection domain of a node: `types.ProtectionDomain`. -/
structure ProtectionDomain where
  Name : String
  KeyValue : GoMap String
  Pools : GoMap StoragePool
  FaultSets : GoMap FaultSet
  deriving DecidableEq, Repr

/-- One cluster machine: `types.ScaleIONode`. -/
structure ScaleIONode where
  AgentID : String
  TaskID : String
  ExecutorID : String
  OfferID : String
  IPAddress : String
  Hostname : String
  Persona : Int
  State : Int
  LastContact : Int
  Declarative : Bool
  Advertised : Bool
  KeyValue : GoMap String
  ProvidesDomains : GoMap ProtectionDomain
  ConsumesDomains : GoMap ProtectionDomain
  deriving DecidableEq, Repr

/-- The manager addresses given as static configuration: `types.ScaleIOPreConfig`. -/
structure ScaleIOPreConfig where
  PreConfigEnabled : Bool
  PrimaryMdmAddress : String
  SecondaryMdmAddress : String
  TieBreakerMdmAddress : String
  GatewayAddress : String
  deriving DecidableEq, Repr

/-- Package locations of one OS family: `types.Ubuntu14Packages`, `types.Rhel7Packages`. -/
structure Packages where
  Mdm : String
  Sds : String
  Sdc : String
  Lia : String
  Gw : String
  deriving DecidableEq, Repr

/-- Cluster-wide configuration and the registered nodes: `types.ScaleIOConfig`. -/
structure ScaleIOConfig where
  Configured : Bool
  ClusterID : String
  ClusterName : String
  LbGateway : String
  ProtectionDomain : String
  StoragePool : String
  AdminPassword : String
  APIVersion : String
  KeyValue : GoMap String
  Preconfig : ScaleIOPreConfig
  Ubuntu14 : Packages
  Rhel7 : Packages
  Nodes : List ScaleIONode
  deriving DecidableEq, Repr

/-- The process-wide cluster state: `types.ScaleIOFramework`. -/
structure ScaleIOFramework where
  SchedulerAddress : String
  LogLevel : String
  Debug : Bool
  Experimental : Bool
  KeyValue : GoMap String
  RexrayBranch : String
  RexrayVersion : String
  IsolatorBinary : String
  ScaleIO : ScaleIOConfig
  deriving DecidableEq, Repr

end types

namespace kvstore

/-- Shadow record of a device: `kvstore.Device`. -/
structure Device where
  Name : String
  Add : Bool
  Delete : Bool
  deriving DecidableEq, Repr

/-- Shadow record of a storage pool: `kvstore.StoragePool`. -/
structure StoragePool where
  Name : String
  Add : Bool
  Delete : Bool
  Devices : GoMap Device
  deriving DecidableEq, Repr

/-- Shadow record of a storage-serving entity: `kvstore.Sds`. -/
structure Sds where
  Name : String
  Add : Bool
  Delete : Bool
  Mode : String
  FaultSet : String
  deriving DecidableEq, Repr

/-- Shadow record of a protection domain: `kvstore.ProtectionDomain`. -/
structure ProtectionDomain where
  Name : String
  Add : Bool
  Delete : Bool
  Sdss : GoMap Sds
  Pools : GoMap StoragePool
  deriving DecidableEq, Repr

/-- Shadow metadata of one node: `kvstore.Metadata`. -/
structure Metadata where
  ProtectionDomains : GoMap ProtectionDomain
  deriving DecidableEq, Repr

end kvstore

/-! ## `server.go`: the reconciliation passes -/

/-- Go `len` of a slice that may be nil. -/
def sliceLen (s : Option (List String)) : Nat :=
  match s with
  | none => 0
  | some l => l.length

/-- Transcription of `doesNeedleExist` (server.go 293-306). -/
def doesNeedleExist (haystack : Option (List String)) (needle : String) : Bool :=
  match haystack with
  | none => false
  | some values => values.any (fun value => value == needle)

/-- Body of the device loop of `processDeletions` (server.go 364-376). -/
def deleteDevice (mDomainDelete mPoolDelete : Bool) (nDevices : Option (List String))
    (mDevice : kvstore.Device) : kvstore.Device × Bool :=
  match nDevices with
  | none => (mDevice, false)
  | some _ =>
    if mDomainDelete || mPoolDelete || !doesNeedleExist nDevices mDevice.Name then
      ({ mDevice with Delete := true }, true)
    else (mDevice, false)

/-- Body of the pool loop of `processDeletions` (server.go 349-377). -/
def deletePool (mDomainDelete : Bool) (nDomain : types.ProtectionDomain) (keyP : String)
    (mPool : kvstore.StoragePool) : kvstore.StoragePool × Bool :=
  match nDomain.Pools.get keyP with
  | none => ({ mPool with Delete := true }, true)
  | some nPool =>
    let flagged := mDomainDelete || sliceLen nPool.Devices == 0
    let mPool1 := if flagged then { mPool with Delete := true } else mPool
    let devices := GoMap.rangeUpdate
      (fun _ mDevice => deleteDevice mDomainDelete mPool1.Delete nPool.Devices mDevice)
      mPool1.Devices
    ({ mPool1 with Devices := devices.1 }, flagged || devices.2)

/-- Body of the Sds loop of `processDeletions` (server.go 339-346). -/
def deleteSds (mDomainDelete : Bool) (mSds : kvstore.Sds) : kvstore.Sds × Bool :=
  if mDomainDelete then ({ mSds with Delete := true }, true) else (mSds, false)

/-- Body of the domain loop of `processDeletions` (server.go 324-378). -/
def deleteDomain (node : types.ScaleIONode) (keyD : String)
    (mDomain : kvstore.ProtectionDomain) : kvstore.ProtectionDomain × Bool :=
  match node.ProvidesDomains.get keyD with
  | none => ({ mDomain with Delete := true }, true)
  | some nDomain =>
    let flagged := nDomain.Pools.length == 0
    let mDomain1 := if flagged then { mDomain with Delete := true } else mDomain
    let sdss := GoMap.rangeUpdate (fun _ mSds => deleteSds mDomain1.Delete mSds) mDomain1.Sdss
    let pools := GoMap.rangeUpdate
      (fun keyP mPool => deletePool mDomain1.Delete nDomain keyP mPool) mDomain1.Pools
    ({ mDomain1 with Sdss := sdss.1, Pools := pools.1 }, flagged || sdss.2 || pools.2)

/-- Transcription of `processDeletions` (server.go 308-384) for a non-nil node
and non-nil metadata: the metadata after the call and `bHasChange`. -/
def processDeletions (metaData : kvstore.Metadata) (node : types.ScaleIONode) :
    kvstore.Metadata × Bool :=
  let domains := GoMap.rangeUpdate (fun keyD mDomain => deleteDomain node keyD mDomain)
    metaData.ProtectionDomains
  ({ metaData with ProtectionDomains := domains.1 }, domains.2)

/-- The nil guards of `processDeletions` (server.go 311-320): a nil node or nil
metadata returns false and touches nothing. -/
def processDeletionsGuarded (metaData : Option kvstore.Metadata)
    (node : Option types.ScaleIONode) : Option kvstore.Metadata × Bool :=
  match node, metaData with
  | some n, some md => (some (processDeletions md n).1, (processDeletions md n).2)
  | _, _ => (metaData, false)

/-- Body of the device loop of `processAdditions` (server.go 461-475): the
pool and `bHasChange` before, the declared device, the pool and flag after. -/
def addDevice (st : kvstore.StoragePool × Bool) (device : String) :
    kvstore.StoragePool × Bool :=
  match st.1.Devices.get device with
  | none =>
    let mDevice : kvstore.Device := { Name := device, Add := true, Delete := false }
    ({ st.1 with Devices := st.1.Devices.put device mDevice }, true)
  | some _ => st

/-- Body of the pool loop of `processAdditions` (server.go 444-476). -/
def addPool (st : kvstore.ProtectionDomain × Bool) (entry : String × types.StoragePool) :
    kvstore.ProtectionDomain × Bool :=
  let created : kvstore.StoragePool × Bool :=
    match st.1.Pools.get entry.1 with
    | none => ({ Name := entry.1, Add := true, Delete := false, Devices := [] }, true)
    | some mPool => (mPool, st.2)
  let mPool := (entry.2.Devices.getD []).foldl addDevice created
  ({ st.1 with Pools := st.1.Pools.put entry.1 mPool.1 }, mPool.2)

/-- Body of the domain loop of `processAdditions` (server.go 402-477). -/
def addDomain (ipAddress : String) (st : kvstore.Metadata × Bool)
    (entry : String × types.ProtectionDomain) : kvstore.Metadata × Bool :=
  let created : kvstore.ProtectionDomain × Bool :=
    match st.1.ProtectionDomains.get entry.1 with
    | none => ({ Name := entry.1, Add := true, Delete := false, Sdss := [], Pools := [] }, true)
    | some mDomain => (mDomain, st.2)
  let sdsName := ipAddress
  let withSds : kvstore.ProtectionDomain × Bool :=
    match created.1.Sdss.get sdsName with
    | none =>
      let mSds : kvstore.Sds :=
        { Name := sdsName, Add := true, Delete := false, Mode := "all", FaultSet := "" }
      ({ created.1 with Sdss := created.1.Sdss.put sdsName mSds }, true)
    | some _ => created
  let mDomain := entry.2.Pools.foldl addPool withSds
  ({ st.1 with ProtectionDomains := st.1.ProtectionDomains.put entry.1 mDomain.1 }, mDomain.2)

/-- Transcription of `processAdditions` (server.go 386-483) for a non-nil node
and non-nil metadata: the metadata after the call and `bHasChange`. -/
def processAdditions (metaData : kvstore.Metadata) (node : types.ScaleIONode) :
    kvstore.Metadata × Bool :=
  node.ProvidesDomains.foldl (addDomain node.IPAddress) (metaData, false)

/-- The nil guards of `processAdditions` (server.go 389-398). -/
def processAdditionsGuarded (metaData : Option kvstore.Metadata)
    (node : Option types.ScaleIONode) : Option kvstore.Metadata × Bool :=
  match node, metaData with
  | some n, some md => (some (processAdditions md n).1, (processAdditions md n).2)
  | _, _ => (metaData, false)

/-- The registered nodes of a cluster state: `s.State.ScaleIO.Nodes`. -/
def registeredNodes (s : types.ScaleIOFramework) : List types.ScaleIONode := s.ScaleIO.Nodes

/-- Transcription of `updateNodeState` (server.go 711-722): every node whose
phase is not above `state` gets phase `state`. -/
def updateNodeState (s : types.ScaleIOFramework) (state : Int) : types.ScaleIOFramework :=
  { s with ScaleIO := { s.ScaleIO with
      Nodes := s.ScaleIO.Nodes.map (fun node =>
        if node.State > state then node else { node with State := state }) } }

/-! ## Go strings -/

/-- The pieces of a character list around each comma. -/
def splitChars : List Char → List (List Char)
  | [] => [[]]
  | c :: cs =>
    if c = ',' then [] :: splitChars cs
    else
      match splitChars cs with
      | [] => [[c]]
      | piece :: pieces => (c :: piece) :: pieces

/-- Go `strings.Split(s, ",")`: the empty string gives one empty piece. -/
def stringsSplit (s : String) : List String := (splitChars s.data).map String.mk

/-- Whether `sub` occurs in the character list. -/
def containsChars (sub : List Char) : List Char → Bool
  | [] => sub.isEmpty
  | c :: cs => sub.isPrefixOf (c :: cs) || containsChars sub cs

/-- Go `strings.Contains(s, substr)`. -/
def stringsContains (s substr : String) : Bool := containsChars substr.data s.data

/-- Go `strings.Join(names, ",")`. -/
def stringsJoin : List String → String
  | [] => ""
  | [name] => name
  | name :: next :: rest => name ++ "," ++ stringsJoin (next :: rest)

/-! ## Errors -/

/-- The calls of the storage control-plane client (`goscaleio`) that the
reconciliation issues. -/
inductive ExtCall where
  | Authenticate
  | FindSystem
  | FindProtectionDomain (name : String)
  | CreateProtectionDomain (name : String)
  | FindSds (domain name : String)
  | CreateSds (domain name : String) (ips modes : List String) (faultSet : String)
  | FindStoragePool (domain name : String)
  | CreateStoragePool (domain name : String)
  | AttachDevice (domain pool device sdsID : String)
  deriving DecidableEq, Repr

/-- The Go `error` values that the embedded functions return. -/
inductive GoError where
  | ErrAttributeNotFound
  | ErrNodeNotFound
  | ErrMdmSelectionFailed
  | ErrStore (hostname : String)
  | ErrExternal (call : ExtCall)
  deriving DecidableEq, Repr

/-! ## The persisted key-value model (`kvstore.KvStore`) -/

namespace kvstore

/-- Persisted role and phase of one hostname. -/
structure NodeInfo where
  Persona : Int
  State : Int
  deriving DecidableEq, Repr

/-- Modelled from the spec: the `kvstore` package is not among the sources.
The persisted key-value model of §6: role and phase by hostname, the shadow
metadata blob by hostname, and the hostnames for which a write fails. -/
structure KvStore where
  Nodes : GoMap NodeInfo
  Metadatas : GoMap Metadata
  Unwritable : List String
  deriving DecidableEq, Repr

/-- Modelled from the spec: `GetNodeInfo`, "get a node's role+phase by
hostname"; an error when the hostname has no record. -/
def KvStore.GetNodeInfo (store : KvStore) (hostname : String) : Except GoError NodeInfo :=
  match store.Nodes.get hostname with
  | none => .error (.ErrStore hostname)
  | some info => .ok info

/-- Modelled from the spec: `SetNodeInfo`, "set a node's role+phase by
hostname"; the store after the call and the error, if any. -/
def KvStore.SetNodeInfo (store : KvStore) (hostname : String) (persona state : Int) :
    KvStore × Option GoError :=
  if hostname ∈ store.Unwritable then (store, some (.ErrStore hostname))
  else ({ store with Nodes := store.Nodes.put hostname { Persona := persona, State := state } },
    none)

/-- The hostname recorded with the given role, or the empty string. -/
def KvStore.hostnameOf (store : KvStore) (persona : Int) : String :=
  match store.Nodes.find? (fun entry => entry.2.Persona == persona) with
  | none => ""
  | some entry => entry.1

/-- Modelled from the spec: `GetMetadata`, "get the shadow metadata blob for a
hostname"; nil when there is none. -/
def KvStore.GetMetadata (store : KvStore) (hostname : String) : Option Metadata :=
  store.Metadatas.get hostname

/-- Modelled from the spec: `SetMetadata`, "set the shadow metadata blob for a
hostname". -/
def KvStore.SetMetadata (store : KvStore) (hostname : String) (metaData : Metadata) :
    KvStore × Option GoError :=
  if hostname ∈ store.Unwritable then (store, some (.ErrStore hostname))
  else ({ store with Metadatas := store.Metadatas.put hostname metaData }, none)

end kvstore

/-! ## Constants of the `types` package -/

namespace types

/-- Role identifier of the primary manager (selection.go 57, 86-97). -/
def PersonaMdmPrimary : Int := 1

/-- Role identifier of the secondary manager. -/
def PersonaMdmSecondary : Int := 2

/-- Role identifier of the tiebreaker manager. -/
def PersonaTb : Int := 3

/-- Role identifier of a data node. -/
def PersonaNode : Int := 4

/-- Modelled from the spec: the `types` package is not among the sources.
First phase of the lifecycle of §4.4. -/
def StateUnknown : Int := 0

end types

/-- Modelled from the spec: `GetMdmNodes`, "get the three manager hostnames":
the hostnames recorded as primary, secondary and tiebreaker, each empty when
no hostname is. -/
def kvstore.KvStore.GetMdmNodes (store : kvstore.KvStore) : String × String × String :=
  (store.hostnameOf types.PersonaMdmPrimary, store.hostnameOf types.PersonaMdmSecondary,
    store.hostnameOf types.PersonaTb)

/-! ## The type `float64`: values, rounding, `+`, `*`, `>=` and `>` -/

/-- A float64 value as `+`, `*`, `>` and `>=` see it: a finite value (the sign
of a zero is not observable by these operations), an infinity, or NaN. The
binary64 values are the finite values that `round64` leaves as they are; every
result of `+` and `*` is one of them, an infinity or NaN. -/
inductive Float64 where
  | finite (value : ℚ)
  | inf (negative : Bool)
  | nan
  deriving DecidableEq, Repr

namespace Float64

/-- The power `2 ^ e` for an integer exponent. -/
def pow2 (e : Int) : ℚ :=
  if 0 ≤ e then ((2 ^ e.toNat : Nat) : ℚ) else 1 / ((2 ^ (-e).toNat : Nat) : ℚ)

/-- The number of halvings that bring `n` below 2, at most `fuel` of them. -/
def halvings : Nat → Nat → Nat
  | 0, _ => 0
  | fuel + 1, n => if n < 2 then 0 else halvings fuel (n / 2) + 1

/-- The exponent of the leading binary digit of a positive natural number. -/
def natLog2 (n : Nat) : Nat := halvings n n

/-- The exponent of the leading binary digit of a positive rational:
`2 ^ ilog2 a ≤ a < 2 ^ (ilog2 a + 1)`. -/
def ilog2 (a : ℚ) : Int :=
  if pow2 ((natLog2 a.num.natAbs : Int) - (natLog2 a.den : Int)) ≤ a then
    (natLog2 a.num.natAbs : Int) - (natLog2 a.den : Int)
  else (natLog2 a.num.natAbs : Int) - (natLog2 a.den : Int) - 1

/-- The exponent of the unit in the last place of the binary64 format at the
magnitude `a`: 53 significant bits, and no exponent below that of the
subnormal numbers. -/
def ulpExp (a : ℚ) : Int := max (ilog2 a - 52) (-1074)

/-- The integer nearest to `x`, a tie going to the even one. -/
def roundHalfEven (x : ℚ) : Int :=
  if x - ⌊x⌋ < 1 / 2 then ⌊x⌋
  else if 1 / 2 < x - ⌊x⌋ then ⌊x⌋ + 1
  else if ⌊x⌋ % 2 = 0 then ⌊x⌋ else ⌊x⌋ + 1

/-- The multiple of the unit in the last place nearest to the positive
rational `a`, a tie going to the even multiple. -/
def roundedValue (a : ℚ) : ℚ :=
  (roundHalfEven (a / pow2 (ulpExp a)) : ℚ) * pow2 (ulpExp a)

/-- Rounding of a positive rational to binary64, to nearest with ties to
even; a result of `2 ^ 1024` or more is the infinity. -/
def roundPos (a : ℚ) : Float64 :=
  if pow2 1024 ≤ roundedValue a then inf false else finite (roundedValue a)

/-- The opposite value. -/
def neg : Float64 → Float64
  | finite value => finite (-value)
  | inf negative => inf (!negative)
  | nan => nan

/-- Rounding of an exact result to binary64. -/
def round64 (q : ℚ) : Float64 :=
  if q = 0 then finite 0 else if 0 < q then roundPos q else (roundPos (-q)).neg

/-- The float64 sum `x + y`. -/
def add : Float64 → Float64 → Float64
  | finite a, finite b => round64 (a + b)
  | finite _, inf negative => inf negative
  | inf negative, finite _ => inf negative
  | inf n1, inf n2 => if n1 = n2 then inf n1 else nan
  | _, _ => nan

/-- The float64 product `x * y`. -/
def mul : Float64 → Float64 → Float64
  | finite a, finite b => round64 (a * b)
  | finite a, inf negative => if a = 0 then nan else inf (negative != decide (a < 0))
  | inf negative, finite b => if b = 0 then nan else inf (negative != decide (b < 0))
  | inf n1, inf n2 => inf (n1 != n2)
  | _, _ => nan

/-- The float64 comparison `x <= y`: false when an operand is NaN. -/
def le : Float64 → Float64 → Bool
  | finite a, finite b => decide (a ≤ b)
  | finite _, inf negative => !negative
  | inf negative, finite _ => negative
  | inf n1, inf n2 => n1 || !n2
  | _, _ => false

/-- The float64 comparison `x < y`: false when an operand is NaN. -/
def lt : Float64 → Float64 → Bool
  | finite a, finite b => decide (a < b)
  | finite _, inf negative => !negative
  | inf negative, finite _ => negative
  | inf n1, inf n2 => n1 && !n2
  | _, _ => false

instance : Add Float64 := ⟨add⟩
instance : Mul Float64 := ⟨mul⟩
instance : LE Float64 := ⟨fun x y => le x y = true⟩
instance : LT Float64 := ⟨fun x y => lt x y = true⟩
instance (x y : Float64) : Decidable (x ≤ y) := inferInstanceAs (Decidable (le x y = true))
instance (x y : Float64) : Decidable (x < y) := inferInstanceAs (Decidable (lt x y = true))

/-- The float64 value of a decimal or rational literal: the nearest one. -/
def ofRat (q : ℚ) : Float64 := round64 q

end Float64

/-- A float64 value that a sum of values without a negative one can be: NaN,
the positive infinity, zero, or a rounded positive value. -/
def Float64.NonNegRounded (x : Float64) : Prop :=
  x = Float64.nan ∨ x = Float64.inf false ∨ x = Float64.finite 0 ∨
    ∃ a : ℚ, 0 < a ∧ x = Float64.finite (Float64.roundedValue a)

/-! ## Resource offers (`mesos` package) -/

namespace mesos

/-- A text attribute of an offer. -/
structure Attribute where
  Name : String
  Text : String
  deriving DecidableEq, Repr

/-- A scalar resource of an offer. -/
structure Resource where
  Name : String
  Scalar : Float64
  deriving DecidableEq, Repr

/-- A resource offer: the fields the scheduler reads. -/
structure Offer where
  Id : String
  AgentId : String
  Hostname : String
  Ip : String
  Resources : List Resource
  Attributes : List Attribute
  deriving DecidableEq, Repr

end mesos

/-! ## `scaleio.go`: the topology attribute decoder -/

/-- Transcription of `appendClientPrefix` (scaleio.go 27-32). -/
def appendClientPrefix (key : String) : String :=
  if stringsContains key "scaleio-sdc-" then key else "scaleio-sdc-" ++ key

/-- Transcription of `appendServerPrefix` (scaleio.go 34-39). -/
def appendServerPrefix (key : String) : String :=
  if stringsContains key "scaleio-sds-" then key else "scaleio-sds-" ++ key

/-- Transcription of `getAttributeByKey` (scaleio.go 41-49); `none` is
`ErrAttributeNotFound`. -/
def getAttributeByKey : List mesos.Attribute → String → Option String
  | [], _ => none
  | attrib :: attribs, key =>
    if attrib.Name = key then some attrib.Text else getAttributeByKey attribs key

/-- Body of the fault-set loop of `prepareScaleIONode` (scaleio.go 115-137). -/
def decodeFaultSet (attribs : List mesos.Attribute) (fix : String → String)
    (fsDomain : String) (nDomain : types.ProtectionDomain) (fsFaultSet : String) :
    types.ProtectionDomain :=
  let nFaultSet : types.FaultSet :=
    match nDomain.FaultSets.get fsFaultSet with
    | none => { Name := fsFaultSet, SdsIps := [] }
    | some faultSet => faultSet
  let filled : types.FaultSet :=
    match getAttributeByKey attribs (fix (fsDomain ++ "-" ++ fsFaultSet)) with
    | none => nFaultSet
    | some sdsIpsStr => { nFaultSet with SdsIps := nFaultSet.SdsIps ++ stringsSplit sdsIpsStr }
  { nDomain with FaultSets := nDomain.FaultSets.put fsFaultSet filled }

/-- Body of the pool loop of `prepareScaleIONode` (scaleio.go 148-179). -/
def decodePool (attribs : List mesos.Attribute) (fix : String → String)
    (fsDomain : String) (nDomain : types.ProtectionDomain) (fsPool : String) :
    types.ProtectionDomain :=
  let nPool : types.StoragePool :=
    match nDomain.Pools.get fsPool with
    | none => { Name := fsPool, Devices := none, KeyValue := [] }
    | some pool => pool
  let deviceStr : Option String :=
    match getAttributeByKey attribs (fix (fsDomain ++ "-" ++ fsPool)) with
    | some found => some found
    | none => getAttributeByKey attribs (fix fsPool)
  let filled : types.StoragePool :=
    match deviceStr with
    | none => nPool
    | some devices =>
      { nPool with Devices := some (nPool.Devices.getD [] ++ stringsSplit devices) }
  { nDomain with Pools := nDomain.Pools.put fsPool filled }

/-- Body of the domain loop of `prepareScaleIONode` (scaleio.go 95-180). Both
rounds of the outer loop store the domain in `ProvidesDomains`. -/
def decodeDomain (attribs : List mesos.Attribute) (fix : String → String)
    (node : types.ScaleIONode) (fsDomain : String) : types.ScaleIONode :=
  let nDomain : types.ProtectionDomain :=
    match node.ProvidesDomains.get fsDomain with
    | none => { Name := fsDomain, KeyValue := [], Pools := [], FaultSets := [] }
    | some domain => domain
  let withFaultSets : types.ProtectionDomain :=
    match getAttributeByKey attribs (fix (fsDomain ++ "-faultsets")) with
    | none => nDomain
    | some fsStr => (stringsSplit fsStr).foldl (decodeFaultSet attribs fix fsDomain) nDomain
  let withPools : types.ProtectionDomain :=
    match getAttributeByKey attribs (fix fsDomain) with
    | none => withFaultSets
    | some poolsStr => (stringsSplit poolsStr).foldl (decodePool attribs fix fsDomain) withFaultSets
  { node with ProvidesDomains := node.ProvidesDomains.put fsDomain withPools }

/-- One round of the outer loop of `prepareScaleIONode` (scaleio.go 83-181). -/
def decodeRole (attribs : List mesos.Attribute) (key : String) (fix : String → String)
    (node : types.ScaleIONode) : types.ScaleIONode :=
  match getAttributeByKey attribs key with
  | none => node
  | some value =>
    (stringsSplit value).foldl (decodeDomain attribs fix) { node with Declarative := true }

/-- Transcription of `prepareScaleIONode` (scaleio.go 53-184). -/
def prepareScaleIONode (store : kvstore.KvStore) (offer : mesos.Offer) :
    Except GoError types.ScaleIONode :=
  match store.GetNodeInfo offer.Hostname with
  | .error err => .error err
  | .ok info =>
    let node : types.ScaleIONode :=
      { AgentID := offer.AgentId
        TaskID := "scaleio-" ++ offer.Hostname
        ExecutorID := "executor-scaleio-" ++ offer.Hostname
        OfferID := offer.Id
        IPAddress := offer.Ip
        Hostname := offer.Hostname
        Persona := info.Persona
        State := info.State
        LastContact := 0
        Declarative := false
        Advertised := false
        KeyValue := []
        ProvidesDomains := []
        ConsumesDomains := [] }
    .ok (decodeRole offer.Attributes "scaleio-sdc-domains" appendClientPrefix
      (decodeRole offer.Attributes "scaleio-sds-domains" appendServerPrefix node))

/-! ## `selection.go`: the role selection engine -/

/-- The configuration values that role selection reads (`config.Config`). -/
structure Config where
  PrimaryMdmAddress : String
  SecondaryMdmAddress : String
  TieBreakerMdmAddress : String
  ExecutorMdmCPU : Float64
  ExecutorCPUFactor : Float64
  ExecutorMdmMemory : Float64
  ExecutorMemoryFactor : Float64
  deriving DecidableEq, Repr

/-- The scheduler: its configuration, its store and the registered nodes
(`s.Server.State.ScaleIO.Nodes`). -/
structure ScaleIOScheduler where
  Config : Config
  Store : kvstore.KvStore
  Nodes : List types.ScaleIONode
  deriving DecidableEq, Repr

/-- Modelled from the spec: `common.FindScaleIONodeByHostname` is not among
the sources; the registered node with the given hostname, or nil. -/
def FindScaleIONodeByHostname (nodes : List types.ScaleIONode) (hostname : String) :
    Option types.ScaleIONode :=
  nodes.find? (fun node => node.Hostname == hostname)

/-- Transcription of `getManuallyConfigNode` (selection.go 105-116); the role
encoding `common.PersonaIDToString`, which is not among the sources, is the
parameter `personaIDToString`. -/
def getManuallyConfigNode (personaIDToString : Int → String) (offers : List mesos.Offer)
    (persona : Int) : Option mesos.Offer :=
  offers.find? (fun offer => offer.Attributes.any (fun attrib =>
    attrib.Name == "scaleio-persona" && attrib.Text == personaIDToString persona))

/-- The float64 sum of the scalar values of the resources named `name`,
accumulated from `0.0` in list order (`filterResources` and the summing loop,
selection.go 130-144). -/
def sumResources (name : String) (resources : List mesos.Resource) : Float64 :=
  ((resources.filter (fun res => res.Name == name)).map (fun res => res.Scalar)).foldl
    (fun total value => total + value) (Float64.finite 0)

/-- The running best of `obtainBestOfferForMdm`. -/
structure BestOffer where
  highestCPU : Float64
  highestMem : Float64
  higherOffer : Option mesos.Offer
  deriving DecidableEq, Repr

/-- The CPU an offer brings: the sum of its `cpus` resources (selection.go 130-136). -/
def offerCPU (offer : mesos.Offer) : Float64 := sumResources "cpus" offer.Resources

/-- The memory an offer brings: the sum of its `mem` resources (selection.go 138-144). -/
def offerMem (offer : mesos.Offer) : Float64 := sumResources "mem" offer.Resources

/-- The discard condition of `obtainBestOfferForMdm` (selection.go 146-147). -/
def belowMdmMinimum (cfg : Config) (offer : mesos.Offer) : Prop :=
  cfg.ExecutorMdmCPU ≥ offerCPU offer * cfg.ExecutorCPUFactor ∨
    cfg.ExecutorMdmMemory ≥ offerMem offer * cfg.ExecutorMemoryFactor

instance (cfg : Config) (offer : mesos.Offer) : Decidable (belowMdmMinimum cfg offer) :=
  inferInstanceAs (Decidable (_ ∨ _))

/-- Body of the loop of `obtainBestOfferForMdm` (selection.go 123-160). -/
def considerOffer (cfg : Config) (store : kvstore.KvStore) (best : BestOffer)
    (offer : mesos.Offer) : BestOffer :=
  match store.GetNodeInfo offer.Hostname with
  | .ok _ => best
  | .error _ =>
    let cpus := offerCPU offer
    let mems := offerMem offer
    if belowMdmMinimum cfg offer then best
    else if cpus > best.highestCPU * Float64.ofRat (3 / 4) ∧
        mems > best.highestMem * Float64.ofRat (5 / 4) then
      { highestCPU := cpus, highestMem := mems, higherOffer := some offer }
    else if cpus > best.highestCPU then
      { highestCPU := cpus, highestMem := mems, higherOffer := some offer }
    else best

/-- Transcription of `obtainBestOfferForMdm` (selection.go 118-163). -/
def obtainBestOfferForMdm (cfg : Config) (store : kvstore.KvStore)
    (offers : List mesos.Offer) : Option mesos.Offer :=
  (offers.foldl (considerOffer cfg store)
    { highestCPU := Float64.finite 0, highestMem := Float64.finite 0,
      higherOffer := none }).higherOffer

/-- Transcription of `addScaleIONode` (scaleio.go 186-199). -/
def addScaleIONode (s : ScaleIOScheduler) (offer : mesos.Offer) :
    ScaleIOScheduler × Option GoError :=
  match FindScaleIONodeByHostname s.Nodes offer.Hostname with
  | some _ => (s, some .ErrNodeNotFound)
  | none =>
    match prepareScaleIONode s.Store offer with
    | .error err => (s, some err)
    | .ok node => ({ s with Nodes := s.Nodes ++ [node] }, none)

/-- Persist the role of the chosen offer and register it
(selection.go 182-187 and 197-202). -/
def persistAndRegister (s : ScaleIOScheduler) (offer : mesos.Offer) (mdmType : Int) :
    ScaleIOScheduler × Option GoError :=
  let written := s.Store.SetNodeInfo offer.Hostname mdmType types.StateUnknown
  match written.2 with
  | some err => ({ s with Store := written.1 }, some err)
  | none => ((addScaleIONode { s with Store := written.1 } offer).1, none)

/-- Transcription of `selectAnMdmNode` (selection.go 165-206). -/
def selectAnMdmNode (personaIDToString : Int → String) (s : ScaleIOScheduler)
    (offers : List mesos.Offer) (nodeID : String) (mdmType : Int) :
    ScaleIOScheduler × Option GoError :=
  match FindScaleIONodeByHostname s.Nodes nodeID with
  | some _ => (s, none)
  | none =>
    match s.Store.GetNodeInfo nodeID with
    | .ok _ =>
      match offers.find? (fun offer => offer.Hostname == nodeID) with
      | some offer => ((addScaleIONode s offer).1, none)
      | none => (s, none)
    | .error _ =>
      match getManuallyConfigNode personaIDToString offers mdmType with
      | some offer => persistAndRegister s offer mdmType
      | none =>
        match obtainBestOfferForMdm s.Config s.Store offers with
        | none => (s, some .ErrMdmSelectionFailed)
        | some offer => persistAndRegister s offer mdmType

/-- Transcription of `selectDataNode` (selection.go 208-220). -/
def selectDataNode (s : ScaleIOScheduler) (offer : mesos.Offer) :
    ScaleIOScheduler × Option GoError :=
  match s.Store.GetNodeInfo offer.Hostname with
  | .ok _ => ((addScaleIONode s offer).1, none)
  | .error _ =>
    let written := s.Store.SetNodeInfo offer.Hostname types.PersonaNode types.StateUnknown
    match written.2 with
    | some err => ({ s with Store := written.1 }, some err)
    | none => ((addScaleIONode { s with Store := written.1 } offer).1, none)

/-- The data-node loop of `performNodeSelection` (selection.go 266-279). -/
def selectDataNodes : ScaleIOScheduler → List mesos.Offer → ScaleIOScheduler × Option GoError
  | s, [] => (s, none)
  | s, offer :: rest =>
    match FindScaleIONodeByHostname s.Nodes offer.Hostname with
    | some _ => selectDataNodes s rest
    | none =>
      match (selectDataNode s offer).2 with
      | some err => ((selectDataNode s offer).1, some err)
      | none => selectDataNodes (selectDataNode s offer).1 rest

/-- The manager part of `performNodeSelection` (selection.go 228-263). -/
def selectMdmNodes (personaIDToString : Int → String) (s : ScaleIOScheduler)
    (offers : List mesos.Offer) : ScaleIOScheduler × Option GoError :=
  let mdms := s.Store.GetMdmNodes
  let pri := selectAnMdmNode personaIDToString s offers mdms.1 types.PersonaMdmPrimary
  match pri.2 with
  | some err => (pri.1, some err)
  | none =>
    let sec := selectAnMdmNode personaIDToString pri.1 offers mdms.2.1 types.PersonaMdmSecondary
    match sec.2 with
    | some err => (sec.1, some err)
    | none => selectAnMdmNode personaIDToString sec.1 offers mdms.2.2 types.PersonaTb

/-- Transcription of `performNodeSelection` (selection.go 222-284). -/
def performNodeSelection (personaIDToString : Int → String) (s : ScaleIOScheduler)
    (offers : List mesos.Offer) : ScaleIOScheduler × Option GoError :=
  let mdm : ScaleIOScheduler × Option GoError :=
    if s.Config.PrimaryMdmAddress = "" ∧ s.Config.SecondaryMdmAddress = "" ∧
        s.Config.TieBreakerMdmAddress = "" then
      selectMdmNodes personaIDToString s offers
    else (s, none)
  match mdm.2 with
  | some err => (mdm.1, some err)
  | none => selectDataNodes mdm.1 offers

/-! ## The storage control-plane client -/

/-- A protection domain of the external storage system: the names of its
storage-serving entities and, for each pool, the attached devices with the
identifier of the entity each is attached under. -/
structure ExtDomain where
  Sdss : List String
  Pools : GoMap (List (String × String))
  deriving DecidableEq, Repr

/-- Modelled from the spec: the storage control-plane client of §6
(`goscaleio`, an external library). The object graph of the storage system,
the calls that fail whatever the graph holds, and the log of calls issued. -/
structure ExtClient where
  Domains : GoMap ExtDomain
  Fails : ExtCall → Bool
  Calls : List ExtCall

namespace ExtClient

/-- Record a call in the log. -/
def record (c : ExtClient) (call : ExtCall) : ExtClient :=
  { c with Calls := c.Calls ++ [call] }

/-- The call `FindSystem`: the client after it and whether it succeeded. -/
def FindSystem (c : ExtClient) : ExtClient × Bool :=
  (c.record .FindSystem, !c.Fails .FindSystem)

/-- The call `FindProtectionDomain`: succeeds when the domain exists. -/
def FindProtectionDomain (c : ExtClient) (name : String) : ExtClient × Bool :=
  (c.record (.FindProtectionDomain name),
    !c.Fails (.FindProtectionDomain name) && (c.Domains.get name).isSome)

/-- The call `CreateProtectionDomain`: adds an empty domain. -/
def CreateProtectionDomain (c : ExtClient) (name : String) : ExtClient × Bool :=
  if c.Fails (.CreateProtectionDomain name) || (c.Domains.get name).isSome then
    (c.record (.CreateProtectionDomain name), false)
  else
    ({ c.record (.CreateProtectionDomain name) with
        Domains := c.Domains.put name { Sdss := [], Pools := [] } }, true)

/-- The call `FindSds` on a domain: succeeds when the entity exists. -/
def FindSds (c : ExtClient) (domain name : String) : ExtClient × Bool :=
  (c.record (.FindSds domain name),
    !c.Fails (.FindSds domain name) &&
      (match c.Domains.get domain with
        | none => false
        | some d => decide (name ∈ d.Sdss)))

/-- The call `CreateSds` on a domain: adds the entity. -/
def CreateSds (c : ExtClient) (domain name : String) (ips modes : List String)
    (faultSet : String) : ExtClient × Bool :=
  match c.Domains.get domain with
  | none => (c.record (.CreateSds domain name ips modes faultSet), false)
  | some d =>
    if c.Fails (.CreateSds domain name ips modes faultSet) || decide (name ∈ d.Sdss) then
      (c.record (.CreateSds domain name ips modes faultSet), false)
    else
      ({ c.record (.CreateSds domain name ips modes faultSet) with
          Domains := c.Domains.put domain { d with Sdss := d.Sdss ++ [name] } }, true)

/-- The call `FindStoragePool` on a domain: succeeds when the pool exists. -/
def FindStoragePool (c : ExtClient) (domain name : String) : ExtClient × Bool :=
  (c.record (.FindStoragePool domain name),
    !c.Fails (.FindStoragePool domain name) &&
      (match c.Domains.get domain with
        | none => false
        | some d => (d.Pools.get name).isSome))

/-- The call `CreateStoragePool` on a domain: adds an empty pool. -/
def CreateStoragePool (c : ExtClient) (domain name : String) : ExtClient × Bool :=
  match c.Domains.get domain with
  | none => (c.record (.CreateStoragePool domain name), false)
  | some d =>
    if c.Fails (.CreateStoragePool domain name) || (d.Pools.get name).isSome then
      (c.record (.CreateStoragePool domain name), false)
    else
      ({ c.record (.CreateStoragePool domain name) with
          Domains := c.Domains.put domain { d with Pools := d.Pools.put name [] } }, true)

/-- The call `AttachDevice` on a pool: attaches the device under the entity. -/
def AttachDevice (c : ExtClient) (domain pool device sdsID : String) : ExtClient × Bool :=
  match c.Domains.get domain with
  | none => (c.record (.AttachDevice domain pool device sdsID), false)
  | some d =>
    match d.Pools.get pool with
    | none => (c.record (.AttachDevice domain pool device sdsID), false)
    | some devices =>
      if c.Fails (.AttachDevice domain pool device sdsID) then
        (c.record (.AttachDevice domain pool device sdsID), false)
      else
        ({ c.record (.AttachDevice domain pool device sdsID) with
            Domains := c.Domains.put domain
              { d with Pools := d.Pools.put pool (devices ++ [(device, sdsID)]) } }, true)

end ExtClient

/-! ## `server.go`: applying the shadow metadata -/

/-- How a call of `processMetadata` or `addResourcesToScaleIO` ends: it returns
nil, it returns an error, or it dereferences a nil pointer (a Go panic). -/
inductive PassResult where
  | ok
  | failed (err : GoError)
  | nilPointerDereference
  deriving DecidableEq, Repr

/-- The handle `*goscaleio.Sds`: the identifier read by `scaleioSds.Sds.ID`. -/
structure SdsHandle where
  ID : String
  deriving DecidableEq, Repr

/-- The device loop of `processMetadata` (server.go 582-595). The argument
`scaleioSds.Sds.ID` of `AttachDevice` is evaluated before the call. -/
def attachDevices (scaleioSds : Option SdsHandle) (domain pool : String) :
    GoMap kvstore.Device → ExtClient → ExtClient × PassResult
  | [], c => (c, .ok)
  | (_, device) :: rest, c =>
    if device.Delete then attachDevices scaleioSds domain pool rest c
    else if device.Add then
      match scaleioSds with
      | none => (c, .nilPointerDereference)
      | some handle =>
        if (c.AttachDevice domain pool device.Name handle.ID).2 then
          attachDevices scaleioSds domain pool rest
            (c.AttachDevice domain pool device.Name handle.ID).1
        else
          ((c.AttachDevice domain pool device.Name handle.ID).1,
            .failed (.ErrExternal (.AttachDevice domain pool device.Name handle.ID)))
    else attachDevices scaleioSds domain pool rest c

/-- Find, create and find again one pool (server.go 556-579). -/
def confirmPool (domain : String) (pool : kvstore.StoragePool) (c : ExtClient) :
    kvstore.StoragePool × ExtClient × Option GoError :=
  let found := c.FindStoragePool domain pool.Name
  if found.2 then (pool, found.1, none)
  else
    let created : kvstore.StoragePool × ExtClient × Option GoError :=
      if !pool.Delete && pool.Add then
        if (found.1.CreateStoragePool domain pool.Name).2 then
          ({ pool with Add := false }, (found.1.CreateStoragePool domain pool.Name).1, none)
        else
          (pool, (found.1.CreateStoragePool domain pool.Name).1,
            some (.ErrExternal (.CreateStoragePool domain pool.Name)))
      else (pool, found.1, none)
    match created.2.2 with
    | some err => (created.1, created.2.1, some err)
    | none =>
      let again := created.2.1.FindStoragePool domain pool.Name
      if again.2 then (created.1, again.1, none)
      else (created.1, again.1, some (.ErrExternal (.FindStoragePool domain pool.Name)))

/-- The pool loop of `processMetadata` (server.go 555-600): the pools after
the loop, the client and how the loop ended. -/
def processPools (scaleioSds : Option SdsHandle) (domain : String) :
    GoMap kvstore.StoragePool → ExtClient → GoMap kvstore.StoragePool × ExtClient × PassResult
  | [], c => ([], c, .ok)
  | (keyP, pool) :: rest, c =>
    match (confirmPool domain pool c).2.2 with
    | some err => ((keyP, (confirmPool domain pool c).1) :: rest, (confirmPool domain pool c).2.1,
        .failed err)
    | none =>
      match (attachDevices scaleioSds domain pool.Name pool.Devices
          (confirmPool domain pool c).2.1).2 with
      | .ok =>
        let later := processPools scaleioSds domain rest
          (attachDevices scaleioSds domain pool.Name pool.Devices (confirmPool domain pool c).2.1).1
        ((keyP, (confirmPool domain pool c).1) :: later.1, later.2.1, later.2.2)
      | ended =>
        ((keyP, (confirmPool domain pool c).1) :: rest,
          (attachDevices scaleioSds domain pool.Name pool.Devices
            (confirmPool domain pool c).2.1).1, ended)

/-- Find, create and find again one storage-serving entity (server.go 527-551). -/
def confirmSds (domain : String) (sds : kvstore.Sds) (c : ExtClient) :
    kvstore.Sds × ExtClient × Option GoError :=
  let found := c.FindSds domain sds.Name
  if found.2 then (sds, found.1, none)
  else
    let created : kvstore.Sds × ExtClient × Option GoError :=
      if !sds.Delete && sds.Add then
        if (found.1.CreateSds domain sds.Name [sds.Name] [sds.Mode] sds.FaultSet).2 then
          ({ sds with Add := false },
            (found.1.CreateSds domain sds.Name [sds.Name] [sds.Mode] sds.FaultSet).1, none)
        else
          (sds, (found.1.CreateSds domain sds.Name [sds.Name] [sds.Mode] sds.FaultSet).1,
            some (.ErrExternal (.CreateSds domain sds.Name [sds.Name] [sds.Mode] sds.FaultSet)))
      else (sds, found.1, none)
    match created.2.2 with
    | some err => (created.1, created.2.1, some err)
    | none =>
      let again := created.2.1.FindSds domain sds.Name
      if again.2 then (created.1, again.1, none)
      else (created.1, again.1, some (.ErrExternal (.FindSds domain sds.Name)))

/-- The Sds loop of `processMetadata` (server.go 526-552). -/
def processSdss (domain : String) :
    GoMap kvstore.Sds → ExtClient → GoMap kvstore.Sds × ExtClient × Option GoError
  | [], c => ([], c, none)
  | (keyS, sds) :: rest, c =>
    match (confirmSds domain sds c).2.2 with
    | some err => ((keyS, (confirmSds domain sds c).1) :: rest, (confirmSds domain sds c).2.1,
        some err)
    | none =>
      let later := processSdss domain rest (confirmSds domain sds c).2.1
      ((keyS, (confirmSds domain sds c).1) :: later.1, later.2.1, later.2.2)

/-- Find, create and find again one protection domain (server.go 498-520).
The `Add` flag of the domain is left as it is. -/
def confirmDomain (domain : kvstore.ProtectionDomain) (c : ExtClient) :
    ExtClient × Option GoError :=
  let found := c.FindProtectionDomain domain.Name
  if found.2 then (found.1, none)
  else
    let created : ExtClient × Option GoError :=
      if !domain.Delete && domain.Add then
        if (found.1.CreateProtectionDomain domain.Name).2 then
          ((found.1.CreateProtectionDomain domain.Name).1, none)
        else
          ((found.1.CreateProtectionDomain domain.Name).1,
            some (.ErrExternal (.CreateProtectionDomain domain.Name)))
      else (found.1, none)
    match created.2 with
    | some err => (created.1, some err)
    | none =>
      let again := created.1.FindProtectionDomain domain.Name
      if again.2 then (again.1, none)
      else (again.1, some (.ErrExternal (.FindProtectionDomain domain.Name)))

/-- One iteration of the domain loop of `processMetadata` (server.go 497-606).
The variable `scaleioSds` is declared nil (line 524) and never assigned. -/
def processDomain (domain : kvstore.ProtectionDomain) (c : ExtClient) :
    kvstore.ProtectionDomain × ExtClient × PassResult :=
  match (confirmDomain domain c).2 with
  | some err => (domain, (confirmDomain domain c).1, .failed err)
  | none =>
    let scaleioSds : Option SdsHandle := none
    let sdss := processSdss domain.Name domain.Sdss (confirmDomain domain c).1
    match sdss.2.2 with
    | some err => ({ domain with Sdss := sdss.1 }, sdss.2.1, .failed err)
    | none =>
      let pools := processPools scaleioSds domain.Name domain.Pools sdss.2.1
      ({ domain with Sdss := sdss.1, Pools := pools.1 }, pools.2.1, pools.2.2)

/-- The domain loop of `processMetadata` (server.go 497-606). -/
def processDomains :
    GoMap kvstore.ProtectionDomain → ExtClient →
      GoMap kvstore.ProtectionDomain × ExtClient × PassResult
  | [], c => ([], c, .ok)
  | (keyD, domain) :: rest, c =>
    match (processDomain domain c).2.2 with
    | .ok =>
      let later := processDomains rest (processDomain domain c).2.1
      ((keyD, (processDomain domain c).1) :: later.1, later.2.1, later.2.2)
    | ended => ((keyD, (processDomain domain c).1) :: rest, (processDomain domain c).2.1, ended)

/-- Transcription of `processMetadata` (server.go 485-609): the metadata as
the call leaves it, the client and how the call ended. -/
def processMetadata (client : ExtClient) (metaData : kvstore.Metadata) :
    kvstore.Metadata × ExtClient × PassResult :=
  if client.FindSystem.2 then
    let domains := processDomains metaData.ProtectionDomains client.FindSystem.1
    ({ metaData with ProtectionDomains := domains.1 }, domains.2.1, domains.2.2)
  else (metaData, client.FindSystem.1, .failed (.ErrExternal .FindSystem))

/-- What `addResourcesToScaleIO` works on: the store, the storage system
behind the client, and whether the client session exists (`client != nil`). -/
structure Reconciler where
  Store : kvstore.KvStore
  System : ExtClient
  Session : Bool

/-- How one iteration of the node loop of `addResourcesToScaleIO` ends. -/
inductive NodeResult where
  | skipped
  | processed
  | returned (err : GoError)
  | nilPointerDereference
  deriving DecidableEq, Repr

/-- Transcription of `createScaleioClient` (server.go 611-648): one
authenticated session, or the error. -/
def createScaleioClient (system : ExtClient) : ExtClient × Bool :=
  (system.record .Authenticate, !system.Fails .Authenticate)

/-- Body of the node loop of `addResourcesToScaleIO` (server.go 656-703). -/
def reconcileNode (r : Reconciler) (node : types.ScaleIONode) : Reconciler × NodeResult :=
  if !node.Declarative && !node.Advertised then (r, .skipped)
  else
    let metaData : kvstore.Metadata :=
      (r.Store.GetMetadata node.Hostname).getD { ProtectionDomains := [] }
    let deleted := processDeletions metaData node
    let added := processAdditions deleted.1 node
    if !deleted.2 && !added.2 then (r, .skipped)
    else
      let session : ExtClient × Bool :=
        if r.Session then (r.System, true) else createScaleioClient r.System
      if session.2 then
        let applied := processMetadata session.1 added.1
        match applied.2.2 with
        | .nilPointerDereference =>
          ({ r with System := applied.2.1, Session := true }, .nilPointerDereference)
        | _ =>
          ({ Store := (r.Store.SetMetadata node.Hostname applied.1).1,
             System := applied.2.1, Session := true }, .processed)
      else ({ r with System := session.1 }, .returned (.ErrExternal .Authenticate))

/-- Transcription of `addResourcesToScaleIO` (server.go 650-709). -/
def addResourcesToScaleIO : Reconciler → List types.ScaleIONode → Reconciler × PassResult
  | r, [] => (r, .ok)
  | r, node :: rest =>
    match (reconcileNode r node).2 with
    | .returned err => ((reconcileNode r node).1, .failed err)
    | .nilPointerDereference => ((reconcileNode r node).1, .nilPointerDereference)
    | _ => addResourcesToScaleIO (reconcileNode r node).1 rest

/-! ## Concrete inputs -/

/-- A store that holds a data-node record for `host-a` and nothing else. -/
def storeHostA : kvstore.KvStore :=
  { Nodes := [("host-a", { Persona := types.PersonaNode, State := types.StateUnknown })],
    Metadatas := [], Unwritable := [] }

/-- The offer of the scenario of §8: `host-a` declares domain `d1`, pool `p1`
and device `/dev/sdb`. -/
def offerHostA : mesos.Offer :=
  { Id := "offer-1", AgentId := "agent-1", Hostname := "host-a", Ip := "10.0.0.1",
    Resources := [],
    Attributes :=
      [{ Name := "scaleio-sds-domains", Text := "d1" },
       { Name := "scaleio-sds-d1", Text := "p1" },
       { Name := "scaleio-sds-d1-p1", Text := "/dev/sdb" }] }

/-- The declared domain `d1` with the pools given. -/
def declaredD1 (pools : GoMap types.StoragePool) : GoMap types.ProtectionDomain :=
  [("d1", { Name := "d1", KeyValue := [], Pools := pools, FaultSets := [] })]

/-- A declared pool with the devices given. -/
def declaredPool (name : String) (devices : List String) : String × types.StoragePool :=
  (name, { Name := name, Devices := some devices, KeyValue := [] })

/-- The node of `host-a`, at 10.0.0.1, with the provided topology given. -/
def nodeHostA (provides : GoMap types.ProtectionDomain) : types.ScaleIONode :=
  { AgentID := "agent-1", TaskID := "scaleio-host-a", ExecutorID := "executor-scaleio-host-a",
    OfferID := "offer-1", IPAddress := "10.0.0.1", Hostname := "host-a",
    Persona := types.PersonaNode, State := types.StateUnknown, LastContact := 0,
    Declarative := true, Advertised := false, KeyValue := [],
    ProvidesDomains := provides, ConsumesDomains := [] }

/-- A shadow device with the flags given. -/
def shadowDevice (name : String) (add delete : Bool) : String × kvstore.Device :=
  (name, { Name := name, Add := add, Delete := delete })

/-- A shadow pool with the flags and devices given. -/
def shadowPool (name : String) (add delete : Bool) (devices : GoMap kvstore.Device) :
    String × kvstore.StoragePool :=
  (name, { Name := name, Add := add, Delete := delete, Devices := devices })

/-- The shadow entity of 10.0.0.1 with the flags given. -/
def shadowSds (add delete : Bool) : String × kvstore.Sds :=
  ("10.0.0.1", { Name := "10.0.0.1", Add := add, Delete := delete, Mode := "all", FaultSet := "" })

/-- Shadow metadata holding the domain `d1` with the flags, entities and pools given. -/
def shadowD1 (add delete : Bool) (sdss : GoMap kvstore.Sds) (pools : GoMap kvstore.StoragePool) :
    kvstore.Metadata :=
  { ProtectionDomains :=
      [("d1", { Name := "d1", Add := add, Delete := delete, Sdss := sdss, Pools := pools })] }

/-- A storage system without objects in which no call fails for another
reason than a missing object. -/
def emptySystem : ExtClient := { Domains := [], Fails := fun _ => false, Calls := [] }

/-- A store without any record. -/
def emptyStore : kvstore.KvStore := { Nodes := [], Metadatas := [], Unwritable := [] }

/-- An offer of the host given, bringing the CPU and memory given and carrying
the attributes given. -/
def offerOf (hostname : String) (cpus mem : ℚ) (attribs : List mesos.Attribute) : mesos.Offer :=
  { Id := "offer-" ++ hostname, AgentId := "agent-" ++ hostname, Hostname := hostname,
    Ip := "10.0.0.1",
    Resources := [{ Name := "cpus", Scalar := Float64.ofRat cpus },
      { Name := "mem", Scalar := Float64.ofRat mem }],
    Attributes := attribs }

/-- A configuration without static manager addresses, with the minimums given
and scale factors 1. -/
def configOf (minCPU minMem : ℚ) : Config :=
  { PrimaryMdmAddress := "", SecondaryMdmAddress := "", TieBreakerMdmAddress := "",
    ExecutorMdmCPU := Float64.ofRat minCPU, ExecutorCPUFactor := Float64.ofRat 1,
    ExecutorMdmMemory := Float64.ofRat minMem, ExecutorMemoryFactor := Float64.ofRat 1 }

/-- An encoding of the roles for the concrete inputs (`common.PersonaIDToString`
is not among the sources). -/
def personaName (persona : Int) : String :=
  if persona = types.PersonaMdmPrimary then "primary"
  else if persona = types.PersonaMdmSecondary then "secondary"
  else if persona = types.PersonaTb then "tiebreaker"
  else "node"

/-- A scheduler with an empty store and no registered node, the minimums
being 1 CPU and 1 of memory. -/
def freshScheduler : ScaleIOScheduler :=
  { Config := configOf 1 1, Store := emptyStore, Nodes := [] }

/-! ## Predicates on the declared topology and the shadow metadata -/

/-- Every declared map of the node has one entry per key. -/
def DeclaredMapsWellFormed (node : types.ScaleIONode) : Prop :=
  (GoMap.keys node.ProvidesDomains).Nodup ∧
    ∀ entry ∈ node.ProvidesDomains, (GoMap.keys entry.2.Pools).Nodup

/-- The declared topology gives every domain at least one pool and every pool
at least one device. -/
def FullyDeclared (node : types.ScaleIONode) : Prop :=
  ∀ entry ∈ node.ProvidesDomains,
    entry.2.Pools ≠ [] ∧ ∀ pool ∈ entry.2.Pools, sliceLen pool.2.Devices ≠ 0

/-- A shadow device whose name is in the declared device list. -/
def DeviceSettled (nDevices : Option (List String)) (mDevice : kvstore.Device) : Prop :=
  doesNeedleExist nDevices mDevice.Name = true

/-- A shadow pool that is declared with at least one device, is not flagged
Delete, and holds settled devices only. -/
def PoolSettled (nDomain : types.ProtectionDomain) (keyP : String)
    (mPool : kvstore.StoragePool) : Prop :=
  ∃ nPool, nDomain.Pools.get keyP = some nPool ∧ sliceLen nPool.Devices ≠ 0 ∧
    mPool.Delete = false ∧ ∀ device ∈ mPool.Devices, DeviceSettled nPool.Devices device.2

/-- A shadow domain that is declared with at least one pool, is not flagged
Delete, and holds settled pools only. -/
def DomainSettled (node : types.ScaleIONode) (keyD : String)
    (mDomain : kvstore.ProtectionDomain) : Prop :=
  ∃ nDomain, node.ProvidesDomains.get keyD = some nDomain ∧ nDomain.Pools ≠ [] ∧
    mDomain.Delete = false ∧ ∀ pool ∈ mDomain.Pools, PoolSettled nDomain pool.1 pool.2

/-- Every domain, pool and device of the shadow metadata is still declared by
the node (devices by name) and no domain or pool is flagged Delete. -/
def Settled (metaData : kvstore.Metadata) (node : types.ScaleIONode) : Prop :=
  ∀ domain ∈ metaData.ProtectionDomains, DomainSettled node domain.1 domain.2

/-- The shadow pool has an entry for every declared device. -/
def PoolCovers (mPool : kvstore.StoragePool) (nPool : types.StoragePool) : Prop :=
  ∀ device ∈ nPool.Devices.getD [], (mPool.Devices.get device).isSome = true

/-- The shadow domain has the entity of the node and an entry for every
declared pool and device. -/
def DomainCovers (ipAddress : String) (mDomain : kvstore.ProtectionDomain)
    (nDomain : types.ProtectionDomain) : Prop :=
  (mDomain.Sdss.get ipAddress).isSome = true ∧
    ∀ pool ∈ nDomain.Pools, ∃ mPool, mDomain.Pools.get pool.1 = some mPool ∧ PoolCovers mPool pool.2

/-- The shadow metadata has an entry for everything the node declares. -/
def Covers (metaData : kvstore.Metadata) (node : types.ScaleIONode) : Prop :=
  ∀ domain ∈ node.ProvidesDomains, ∃ mDomain,
    metaData.ProtectionDomains.get domain.1 = some mDomain ∧
      DomainCovers node.IPAddress mDomain domain.2

/-- Two shadow pools with the same key, Delete flag and devices. -/
def PoolAlike (a b : String × kvstore.StoragePool) : Prop :=
  a.1 = b.1 ∧ a.2.Delete = b.2.Delete ∧ a.2.Devices = b.2.Devices

/-- Two shadow entities with the same key. -/
def SdsAlike (a b : String × kvstore.Sds) : Prop := a.1 = b.1

/-- Two shadow domains with the same key and Delete flag, alike entities and
alike pools. -/
def DomainAlike (a b : String × kvstore.ProtectionDomain) : Prop :=
  a.1 = b.1 ∧ a.2.Delete = b.2.Delete ∧ List.Forall₂ SdsAlike a.2.Sdss b.2.Sdss ∧
    List.Forall₂ PoolAlike a.2.Pools b.2.Pools

/-! ## The attribute key scheme, as an encoder of topology trees -/

/-- A pool of a topology tree: its name and device paths. -/
structure TopoPool where
  name : String
  devices : List String
  deriving DecidableEq, Repr

/-- A fault set of a topology tree: its name and member addresses. -/
structure TopoFaultSet where
  name : String
  sdsIps : List String
  deriving DecidableEq, Repr

/-- A domain of a topology tree: its name, pools and fault sets. -/
structure TopoDomain where
  name : String
  pools : List TopoPool
  faultSets : List TopoFaultSet
  deriving DecidableEq, Repr

/-- The attribute `scaleio-sds-<domain>-<pool>` of a pool with devices
(selection.go 35-36); a pool without devices has no attribute. -/
def encodePool (domain : String) (pool : TopoPool) : List mesos.Attribute :=
  if pool.devices = [] then []
  else [{ Name := "scaleio-sds-" ++ (domain ++ "-" ++ pool.name),
          Text := stringsJoin pool.devices }]

/-- The attribute `scaleio-sds-<domain>-<faultset>` of a fault set with
members (selection.go 33); a fault set without members has no attribute. -/
def encodeFaultSet (domain : String) (faultSet : TopoFaultSet) : List mesos.Attribute :=
  if faultSet.sdsIps = [] then []
  else [{ Name := "scaleio-sds-" ++ (domain ++ "-" ++ faultSet.name),
          Text := stringsJoin faultSet.sdsIps }]

/-- The attributes of a domain: `scaleio-sds-<domain>` with the pool names,
`scaleio-sds-<domain>-faultsets` with the fault-set names, then one attribute
for each fault set and each pool (selection.go 30-39). -/
def encodeDomain (domain : TopoDomain) : List mesos.Attribute :=
  (if domain.pools = [] then []
    else [{ Name := "scaleio-sds-" ++ domain.name,
            Text := stringsJoin (domain.pools.map TopoPool.name) }]) ++
  (if domain.faultSets = [] then []
    else [{ Name := "scaleio-sds-" ++ (domain.name ++ "-faultsets"),
            Text := stringsJoin (domain.faultSets.map TopoFaultSet.name) }]) ++
  domain.faultSets.flatMap (encodeFaultSet domain.name) ++
  domain.pools.flatMap (encodePool domain.name)

/-- The offer attributes of a topology tree in the key scheme of
selection.go 30-39: `scaleio-sds-domains` with the domain names, then the
attributes of each domain. -/
def encodeTopology (tree : List TopoDomain) : List mesos.Attribute :=
  (if tree = [] then []
    else [{ Name := "scaleio-sds-domains", Text := stringsJoin (tree.map TopoDomain.name) }]) ++
  tree.flatMap encodeDomain

/-- A pool of a topology tree as an entry of `types.ProtectionDomain.Pools`. -/
def TopoPool.declared (pool : TopoPool) : String × types.StoragePool :=
  (pool.name,
    { Name := pool.name, Devices := if pool.devices = [] then none else some pool.devices,
      KeyValue := [] })

/-- A fault set of a topology tree as an entry of `types.ProtectionDomain.FaultSets`. -/
def TopoFaultSet.declared (faultSet : TopoFaultSet) : String × types.FaultSet :=
  (faultSet.name, { Name := faultSet.name, SdsIps := faultSet.sdsIps })

/-- A domain of a topology tree as an entry of `types.ScaleIONode.ProvidesDomains`. -/
def TopoDomain.declared (domain : TopoDomain) : String × types.ProtectionDomain :=
  (domain.name,
    { Name := domain.name, KeyValue := [], Pools := domain.pools.map TopoPool.declared,
      FaultSets := domain.faultSets.map TopoFaultSet.declared })

/-- A topology tree as a provided topology. -/
def declaredTopology (tree : List TopoDomain) : GoMap types.ProtectionDomain :=
  tree.map TopoDomain.declared

/-- The string holds no comma. -/
def CommaFree (s : String) : Prop := ',' ∉ s.data

/-- All names, device paths and member addresses of the tree are free of commas. -/
def TreeCommaFree (tree : List TopoDomain) : Prop :=
  ∀ domain ∈ tree, CommaFree domain.name ∧
    (∀ pool ∈ domain.pools, CommaFree pool.name ∧ ∀ device ∈ pool.devices, CommaFree device) ∧
    (∀ faultSet ∈ domain.faultSets,
      CommaFree faultSet.name ∧ ∀ ip ∈ faultSet.sdsIps, CommaFree ip)

/-- Domain names are unique in the tree, pool names and fault-set names in
their domain. -/
def TreeNamesUnique (tree : List TopoDomain) : Prop :=
  (tree.map TopoDomain.name).Nodup ∧
    ∀ domain ∈ tree, (domain.pools.map TopoPool.name).Nodup ∧
      (domain.faultSets.map TopoFaultSet.name).Nodup

/-- The key suffixes that the decoder passes to `appendServerPrefix` for the
tree. -/
def lookupSuffixes (tree : List TopoDomain) : List String :=
  tree.flatMap (fun domain =>
    [domain.name ++ "-faultsets", domain.name] ++
    domain.faultSets.map (fun faultSet => domain.name ++ "-" ++ faultSet.name) ++
    domain.pools.flatMap (fun pool => [domain.name ++ "-" ++ pool.name, pool.name]))

/-- No key suffix of the tree contains the role prefix `scaleio-sds-`. -/
def TreePrefixFree (tree : List TopoDomain) : Prop :=
  ∀ suffix ∈ lookupSuffixes tree, stringsContains suffix "scaleio-sds-" = false

/-- The keys that the decoder looks up for the tree and for which the tree
holds no data: the pool list of a domain without pools, the fault-set list of a
domain without fault sets, the members of a fault set without members, and
the devices of a pool without devices under the domain key and the legacy key. -/
def vacantKeys (tree : List TopoDomain) : List String :=
  tree.flatMap (fun domain =>
    (if domain.pools = [] then ["scaleio-sds-" ++ domain.name] else []) ++
    (if domain.faultSets = [] then ["scaleio-sds-" ++ (domain.name ++ "-faultsets")] else []) ++
    domain.faultSets.flatMap (fun faultSet =>
      if faultSet.sdsIps = [] then ["scaleio-sds-" ++ (domain.name ++ "-" ++ faultSet.name)]
      else []) ++
    domain.pools.flatMap (fun pool =>
      if pool.devices = [] then
        ["scaleio-sds-" ++ (domain.name ++ "-" ++ pool.name), "scaleio-sds-" ++ pool.name]
      else []))

/-- The keys that the encoding writes. -/
def encodedKeys (tree : List TopoDomain) : List String :=
  (encodeTopology tree).map mesos.Attribute.Name

/-- The encoding writes no key twice and no key that the decoder looks up
for absent data. -/
def TreeKeysDistinct (tree : List TopoDomain) : Prop :=
  (encodedKeys tree).Nodup ∧ ∀ key ∈ vacantKeys tree, key ∉ encodedKeys tree

/-- A tree with the domain `d1`, whose pool `x` holds `/dev/sdb` and whose
fault set `x` holds 10.0.0.1. -/
def treeSharedName : List TopoDomain :=
  [{ name := "d1", pools := [{ name := "x", devices := ["/dev/sdb"] }],
     faultSets := [{ name := "x", sdsIps := ["10.0.0.1"] }] }]

/-- The tree of the comment of selection.go 30-39: `domain1` with pools
`pool1`, `pool2` and fault set `set1`, `domain2` with pool `pool3` and the
fault set `set2` without members. -/
def treeOfScheme : List TopoDomain :=
  [{ name := "domain1",
     pools := [{ name := "pool1", devices := ["/dev/vxdf", "/dev/vxdg"] },
               { name := "pool2", devices := ["/dev/vxdh"] }],
     faultSets := [{ name := "set1", sdsIps := ["10.0.0.10", "10.0.1.10"] }] },
   { name := "domain2", pools := [{ name := "pool3", devices := ["/dev/vxdi"] }],
     faultSets := [{ name := "set2", sdsIps := [] }] }]

/-- The attributes answer the decoder's lookups for the pool as the tree
says: the device list under the domain key, or nothing under the domain key
and the legacy key when the pool has no devices. -/
def PoolAnswers (attribs : List mesos.Attribute) (fix : String → String) (domain : String)
    (pool : TopoPool) : Prop :=
  if pool.devices = [] then
    getAttributeByKey attribs (fix (domain ++ "-" ++ pool.name)) = none ∧
      getAttributeByKey attribs (fix pool.name) = none
  else getAttributeByKey attribs (fix (domain ++ "-" ++ pool.name)) = some (stringsJoin pool.devices)

/-- The attributes answer the decoder's lookup for the fault set as the tree says. -/
def FaultSetAnswers (attribs : List mesos.Attribute) (fix : String → String) (domain : String)
    (faultSet : TopoFaultSet) : Prop :=
  getAttributeByKey attribs (fix (domain ++ "-" ++ faultSet.name)) =
    if faultSet.sdsIps = [] then none else some (stringsJoin faultSet.sdsIps)

/-- The attributes answer the decoder's lookups for the domain as the tree says. -/
def DomainAnswers (attribs : List mesos.Attribute) (fix : String → String)
    (domain : TopoDomain) : Prop :=
  (getAttributeByKey attribs (fix (domain.name ++ "-faultsets")) =
    if domain.faultSets = [] then none
    else some (stringsJoin (domain.faultSets.map TopoFaultSet.name))) ∧
  (getAttributeByKey attribs (fix domain.name) =
    if domain.pools = [] then none else some (stringsJoin (domain.pools.map TopoPool.name))) ∧
  (∀ faultSet ∈ domain.faultSets, FaultSetAnswers attribs fix domain.name faultSet) ∧
  (∀ pool ∈ domain.pools, PoolAnswers attribs fix domain.name pool)

instance (s : String) : Decidable (CommaFree s) :=
  inferInstanceAs (Decidable (',' ∉ s.data))

instance (tree : List TopoDomain) : Decidable (TreeCommaFree tree) :=
  inferInstanceAs (Decidable (∀ domain ∈ tree, CommaFree domain.name ∧
    (∀ pool ∈ domain.pools, CommaFree pool.name ∧ ∀ device ∈ pool.devices, CommaFree device) ∧
    (∀ faultSet ∈ domain.faultSets,
      CommaFree faultSet.name ∧ ∀ ip ∈ faultSet.sdsIps, CommaFree ip)))

instance (tree : List TopoDomain) : Decidable (TreeNamesUnique tree) :=
  inferInstanceAs (Decidable ((tree.map TopoDomain.name).Nodup ∧
    ∀ domain ∈ tree, (domain.pools.map TopoPool.name).Nodup ∧
      (domain.faultSets.map TopoFaultSet.name).Nodup))

instance (tree : List TopoDomain) : Decidable (TreePrefixFree tree) :=
  inferInstanceAs (Decidable (∀ suffix ∈ lookupSuffixes tree,
    stringsContains suffix "scaleio-sds-" = false))

instance (tree : List TopoDomain) : Decidable (TreeKeysDistinct tree) :=
  inferInstanceAs (Decidable ((encodedKeys tree).Nodup ∧
    ∀ key ∈ vacantKeys tree, key ∉ encodedKeys tree))

/-! ## Predicates on role selection -/

/-- The offer carries a `scaleio-persona` attribute equal to the encoding of
the role. -/
def CarriesPersona (personaIDToString : Int → String) (mdmType : Int) (offer : mesos.Offer) :
    Prop :=
  ∃ attrib ∈ offer.Attributes,
    attrib.Name = "scaleio-persona" ∧ attrib.Text = personaIDToString mdmType

/-- The hostname is neither registered in cluster state nor persisted. -/
def Unresolved (s : ScaleIOScheduler) (nodeID : String) : Prop :=
  FindScaleIONodeByHostname s.Nodes nodeID = none ∧ s.Store.Nodes.get nodeID = none

/-- The role's hostname is neither registered nor persisted, no offer carries
the role's `scaleio-persona` attribute, and best-fit selection finds no offer. -/
def SelectionFails (personaIDToString : Int → String) (s : ScaleIOScheduler)
    (offers : List mesos.Offer) (nodeID : String) (mdmType : Int) : Prop :=
  Unresolved s nodeID ∧
    (∀ offer ∈ offers, ¬ CarriesPersona personaIDToString mdmType offer) ∧
    obtainBestOfferForMdm s.Config s.Store offers = none

/-- No manager address is given as static configuration. -/
def NoStaticManagers (cfg : Config) : Prop :=
  cfg.PrimaryMdmAddress = "" ∧ cfg.SecondaryMdmAddress = "" ∧ cfg.TieBreakerMdmAddress = ""

/-- Four offers without attributes, each above the manager minimum of
`freshScheduler`. -/
def fourOffers : List mesos.Offer :=
  [offerOf "host-a" 4 8 [], offerOf "host-b" 4 8 [], offerOf "host-c" 4 8 [],
    offerOf "host-d" 4 8 []]

/-! ## The node loop of `addResourcesToScaleIO`: where a pass starts -/

/-- The shadow metadata the node loop starts from for a node: the stored one,
or a new empty one (server.go 664-672). -/
def shadowAtStart (r : Reconciler) (node : types.ScaleIONode) : kvstore.Metadata :=
  (r.Store.GetMetadata node.Hostname).getD { ProtectionDomains := [] }

/-- The shadow metadata after `processDeletions` and `processAdditions`
(server.go 675-678). -/
def shadowPending (r : Reconciler) (node : types.ScaleIONode) : kvstore.Metadata :=
  (processAdditions (processDeletions (shadowAtStart r node) node).1 node).1

/-- Whether `processDeletions` or `processAdditions` reports a change for the
node (server.go 680). -/
def ReportsChange (r : Reconciler) (node : types.ScaleIONode) : Prop :=
  (processDeletions (shadowAtStart r node) node).2 = true ∨
    (processAdditions (processDeletions (shadowAtStart r node) node).1 node).2 = true

/-- The client session of the pass: the one that exists, or the one that
`createScaleioClient` gives, and whether there is one (server.go 685-692). -/
def sessionOf (r : Reconciler) : ExtClient × Bool :=
  if r.Session then (r.System, true) else createScaleioClient r.System

/-- The call of `processMetadata` of the node loop (server.go 695). -/
def shadowApplied (r : Reconciler) (node : types.ScaleIONode) :
    kvstore.Metadata × ExtClient × PassResult :=
  processMetadata (sessionOf r).1 (shadowPending r node)

/-- A storage system without objects in which the creation of the pool `p1`
of `d1` fails. -/
def systemRefusingPool : ExtClient :=
  { Domains := [], Fails := fun call => decide (call = .CreateStoragePool "d1" "p1"),
    Calls := [] }

/-! ## `secondaryMdm.go`: the lifecycle functions of the secondary manager node -/

namespace scaleionodes

/-- The lifecycle phases that the functions signal (`types.State...`). -/
inductive Phase where
  | StateCleanPrereqsReboot
  | StatePrerequisitesInstalled
  | StateBasePackagedInstalled
  | StateInitializeCluster
  | StateAddResourcesToScaleIO
  | StateCleanInstallReboot
  | StateSystemReboot
  | StateFinishInstall
  | StateFatalInstall
  deriving DecidableEq, Repr

/-- The setup steps that the functions call: the methods of `PkgMgr` and
`UpdateDevices`. -/
inductive SetupStep where
  | EnvironmentSetup
  | ManagementSetup
  | NodeSetup
  | UpdateDevices
  | GatewaySetup
  | RexraySetup
  | SetupIsolator
  deriving DecidableEq, Repr

/-- The barriers of the `common` package that the functions wait at. -/
inductive Barrier where
  | WaitForCleanPrereqsReboot
  | WaitForPrereqsFinish
  | WaitForBaseFinish
  | WaitForClusterInstallFinish
  | WaitForCleanInstallReboot
  deriving DecidableEq, Repr

/-- What a lifecycle function does to the world, in the order of the calls:
a setup step, `UpdateNodeState` for a phase, a barrier, the sleep of
`DelayForRebootInSeconds`, the reboot command, the sleep of
`WaitForRebootInSeconds`, the sleep of `PollForChangesInSeconds`. -/
inductive Event where
  | setup (step : SetupStep)
  | signal (phase : Phase)
  | wait (barrier : Barrier)
  | delayForReboot
  | rebootCommand
  | waitForReboot
  | pollForChanges
  deriving DecidableEq, Repr

/-- The host the functions run on: for each setup step whether it returns an
error and the reboot result it returns, and whether the host runs the
scheduler (`err1 == nil && err2 == nil && ip1 == ip2`). -/
structure Host where
  fails : SetupStep → Bool
  reboot : SetupStep → Bool
  runsScheduler : Bool

/-- The fields of `ScaleioSecondaryMdmNode` that the functions read or write:
`RebootRequired`, `State.Debug`, and the flags of the node `GetSelfNode`
returns. -/
structure ScaleioSecondaryMdmNode where
  RebootRequired : Bool
  Debug : Bool
  Declarative : Bool
  Advertised : Bool
  deriving DecidableEq, Repr

/-- The reboot of the host (secondaryMdm.go 82-95 and 238-251). -/
def rebootHost (host : Host) : List Event :=
  (if host.runsScheduler then [Event.delayForReboot] else []) ++
    [Event.rebootCommand, Event.waitForReboot]

/-- Transcription of `RunStateUnknown` (secondaryMdm.go 46-100). -/
def RunStateUnknown (host : Host) (ssmn : ScaleioSecondaryMdmNode) :
    ScaleioSecondaryMdmNode × List Event :=
  if host.fails .EnvironmentSetup then
    (ssmn, [.setup .EnvironmentSetup, .signal .StateFatalInstall])
  else
    (ssmn,
      [.setup .EnvironmentSetup, .signal .StateCleanPrereqsReboot,
        .wait .WaitForCleanPrereqsReboot, .signal .StatePrerequisitesInstalled] ++
      (if host.reboot .EnvironmentSetup then
        (if ssmn.Debug then [] else rebootHost host)
      else []))

/-- Transcription of `RunStatePrerequisitesInstalled` (secondaryMdm.go 103-147). -/
def RunStatePrerequisitesInstalled (host : Host) (ssmn : ScaleioSecondaryMdmNode) :
    ScaleioSecondaryMdmNode × List Event :=
  if host.fails .ManagementSetup then
    (ssmn, [.wait .WaitForPrereqsFinish, .setup .ManagementSetup, .signal .StateFatalInstall])
  else if host.fails .NodeSetup then
    (ssmn, [.wait .WaitForPrereqsFinish, .setup .ManagementSetup, .setup .NodeSetup,
      .signal .StateFatalInstall])
  else if host.fails .UpdateDevices then
    (ssmn, [.wait .WaitForPrereqsFinish, .setup .ManagementSetup, .setup .NodeSetup,
      .setup .UpdateDevices, .signal .StateFatalInstall])
  else
    (ssmn, [.wait .WaitForPrereqsFinish, .setup .ManagementSetup, .setup .NodeSetup,
      .setup .UpdateDevices, .signal .StateBasePackagedInstalled])

/-- Transcription of `RunStateBasePackagedInstalled` (secondaryMdm.go 150-159). -/
def RunStateBasePackagedInstalled ( _host : Host) (ssmn : ScaleioSecondaryMdmNode) :
    ScaleioSecondaryMdmNode × List Event :=
  (ssmn, [.wait .WaitForBaseFinish, .signal .StateInitializeCluster])

/-- Transcription of `RunStateInitializeCluster` (secondaryMdm.go 162-183). -/
def RunStateInitializeCluster (host : Host) (ssmn : ScaleioSecondaryMdmNode) :
    ScaleioSecondaryMdmNode × List Event :=
  if host.fails .GatewaySetup then
    (ssmn, [.wait .WaitForClusterInstallFinish, .setup .GatewaySetup,
      .signal .StateFatalInstall])
  else
    ({ ssmn with RebootRequired := ssmn.RebootRequired || host.reboot .GatewaySetup },
      [.wait .WaitForClusterInstallFinish, .setup .GatewaySetup,
        .signal Phase.StateAddResourcesToScaleIO])

/-- Transcription of `RunStateInstallRexRay` (secondaryMdm.go 186-263). -/
def RunStateInstallRexRay (host : Host) (ssmn : ScaleioSecondaryMdmNode) :
    ScaleioSecondaryMdmNode × List Event :=
  if host.fails .RexraySetup then
    (ssmn, [.setup .RexraySetup, .signal .StateFatalInstall])
  else
    let rebootRequired := ssmn.RebootRequired || host.reboot .RexraySetup
    if host.fails .SetupIsolator then
      ({ ssmn with RebootRequired := rebootRequired },
        [.setup .RexraySetup, .setup .SetupIsolator, .signal .StateFatalInstall])
    else
      ({ ssmn with RebootRequired := rebootRequired },
        [.setup .RexraySetup, .setup .SetupIsolator, .signal .StateCleanInstallReboot,
          .wait .WaitForCleanInstallReboot] ++
        (if rebootRequired then
          [Event.signal .StateSystemReboot] ++ (if ssmn.Debug then [] else rebootHost host)
        else [Event.signal .StateFinishInstall]))

/-- Transcription of `RunStateSystemReboot` (secondaryMdm.go 266-273). -/
def RunStateSystemReboot ( _host : Host) (ssmn : ScaleioSecondaryMdmNode) :
    ScaleioSecondaryMdmNode × List Event :=
  (ssmn, [.signal .StateFinishInstall])

/-- Transcription of `RunStateFinishInstall` (secondaryMdm.go 276-299). -/
def RunStateFinishInstall ( _host : Host) (ssmn : ScaleioSecondaryMdmNode) :
    ScaleioSecondaryMdmNode × List Event :=
  (ssmn,
    (if !ssmn.Declarative && !ssmn.Advertised then [Event.setup .UpdateDevices] else []) ++
      [Event.pollForChanges])

/-- Transcription of `RunStateUpgradeCluster` (secondaryMdm.go 302-305). -/
def RunStateUpgradeCluster ( _host : Host) (ssmn : ScaleioSecondaryMdmNode) :
    ScaleioSecondaryMdmNode × List Event :=
  (ssmn, [])

/-- The setup steps of a trace, in order. -/
def stepsOf (trace : List Event) : List SetupStep :=
  trace.filterMap (fun event => match event with
    | .setup step => some step
    | _ => none)

/-- The phases signalled in a trace, in order. -/
def signalsOf (trace : List Event) : List Phase :=
  trace.filterMap (fun event => match event with
    | .signal phase => some phase
    | _ => none)

/-- The steps of a list up to and including the first one that returns an
error. -/
def untilFailure (fails : SetupStep → Bool) : List SetupStep → List SetupStep
  | [] => []
  | step :: rest => if fails step then [step] else step :: untilFailure fails rest

/-- A trace that stops at the first failing step of `steps`: its setup steps
are those of `steps` up to and including the first failing one; when a step
fails, the only phase signalled is `StateFatalInstall` and that signal is the
last event of the trace; when none fails, `StateFatalInstall` is not
signalled. -/
def StopsAtFailure (host : Host) (steps : List SetupStep) (trace : List Event) : Prop :=
  stepsOf trace = untilFailure host.fails steps ∧
    (if steps.any host.fails then
      signalsOf trace = [Phase.StateFatalInstall] ∧
        trace.getLast? = some (Event.signal Phase.StateFatalInstall)
    else Phase.StateFatalInstall ∉ signalsOf trace)

end scaleionodes

/-! ## `server.go`: `cloneState` -/

/-- The loop `for key, val := range src { dst[key] = f val }` into a new map. -/
def cloneMap {V W : Type} (f : V → W) (src : GoMap V) : GoMap W :=
  src.foldl (fun dst entry => dst.put entry.1 (f entry.2)) []

/-- The copy of a pool in `cloneState` (server.go 220-231 and 245-256): the
device list is a new slice that the devices are appended to. -/
def clonePool (pPool : types.StoragePool) : types.StoragePool :=
  { Name := pPool.Name
    Devices := some ((pPool.Devices.getD []).foldl (fun devices device => devices ++ [device]) [])
    KeyValue := cloneMap id pPool.KeyValue }

/-- The copy of a domain in `cloneState` (server.go 211-233 and 236-258):
`Name`, `KeyValue` and `Pools` are set, `FaultSets` is not. -/
def cloneDomain (pDomain : types.ProtectionDomain) : types.ProtectionDomain :=
  { Name := pDomain.Name
    KeyValue := cloneMap id pDomain.KeyValue
    Pools := cloneMap clonePool pDomain.Pools
    FaultSets := [] }

/-- The copy of a node in `cloneState` (server.go 191-259). -/
def cloneNode (node : types.ScaleIONode) : types.ScaleIONode :=
  { AgentID := node.AgentID
    TaskID := node.TaskID
    ExecutorID := node.ExecutorID
    OfferID := node.OfferID
    IPAddress := node.IPAddress
    Hostname := node.Hostname
    Persona := node.Persona
    State := node.State
    LastContact := node.LastContact
    Declarative := node.Declarative
    Advertised := node.Advertised
    KeyValue := cloneMap id node.KeyValue
    ProvidesDomains := cloneMap cloneDomain node.ProvidesDomains
    ConsumesDomains := cloneMap cloneDomain node.ConsumesDomains }

/-- Transcription of `cloneState` (server.go 145-265). -/
def cloneState (src : types.ScaleIOFramework) : types.ScaleIOFramework :=
  { SchedulerAddress := src.SchedulerAddress
    LogLevel := src.LogLevel
    Debug := src.Debug
    Experimental := src.Experimental
    KeyValue := cloneMap id src.KeyValue
    RexrayBranch := src.RexrayBranch
    RexrayVersion := src.RexrayVersion
    IsolatorBinary := src.IsolatorBinary
    ScaleIO :=
      { Configured := src.ScaleIO.Configured
        ClusterID := src.ScaleIO.ClusterID
        ClusterName := src.ScaleIO.ClusterName
        LbGateway := src.ScaleIO.LbGateway
        ProtectionDomain := src.ScaleIO.ProtectionDomain
        StoragePool := src.ScaleIO.StoragePool
        AdminPassword := src.ScaleIO.AdminPassword
        APIVersion := src.ScaleIO.APIVersion
        KeyValue := cloneMap id src.ScaleIO.KeyValue
        Preconfig := src.ScaleIO.Preconfig
        Ubuntu14 := src.ScaleIO.Ubuntu14
        Rhel7 := src.ScaleIO.Rhel7
        Nodes := src.ScaleIO.Nodes.foldl (fun nodes node => nodes ++ [cloneNode node]) [] } }

/-- The domain `d1` with the pool `p1` on `/dev/sdb` and the fault set `fs1`
of 10.0.0.1. -/
def domainWithFaultSet : types.ProtectionDomain :=
  { Name := "d1", KeyValue := [], Pools := [declaredPool "p1" ["/dev/sdb"]],
    FaultSets := [("fs1", { Name := "fs1", SdsIps := ["10.0.0.1"] })] }

/-- A cluster state whose only node, `host-a`, provides `domainWithFaultSet`. -/
def stateWithFaultSet : types.ScaleIOFramework :=
  { SchedulerAddress := "10.0.0.9", LogLevel := "info", Debug := false, Experimental := false,
    KeyValue := [], RexrayBranch := "stable", RexrayVersion := "latest", IsolatorBinary := "",
    ScaleIO :=
      { Configured := false, ClusterID := "", ClusterName := "scaleio", LbGateway := "",
        ProtectionDomain := "default", StoragePool := "default", AdminPassword := "",
        APIVersion := "2.0", KeyValue := [],
        Preconfig := ⟨false, "", "", "", ""⟩,
        Ubuntu14 := ⟨"", "", "", "", ""⟩, Rhel7 := ⟨"", "", "", "", ""⟩,
        Nodes := [nodeHostA [("d1", domainWithFaultSet)]] } }

/-- The offer of `host-a` declaring `d1`, `p1` and the device `/dev/sdb` twice. -/
def offerRepeatedDevice : mesos.Offer :=
  { offerHostA with
    Attributes :=
      [{ Name := "scaleio-sds-domains", Text := "d1" },
       { Name := "scaleio-sds-d1", Text := "p1" },
       { Name := "scaleio-sds-d1-p1", Text := "/dev/sdb,/dev/sdb" }] }

/-- Shadow metadata holding the domain `d-old`, flagged `Delete`, followed by
the domain `d1`, flagged `Add`; neither has entities or pools. -/
def shadowDeletedThenAdded : kvstore.Metadata :=
  { ProtectionDomains :=
      [("d-old", { Name := "d-old", Add := false, Delete := true, Sdss := [], Pools := [] }),
       ("d1", { Name := "d1", Add := true, Delete := false, Sdss := [], Pools := [] })] }

/-- The same two domains in the other order: `d1`, flagged `Add`, followed by
`d-old`, flagged `Delete`. -/
def shadowAddedThenDeleted : kvstore.Metadata :=
  { ProtectionDomains :=
      [("d1", { Name := "d1", Add := true, Delete := false, Sdss := [], Pools := [] }),
       ("d-old", { Name := "d-old", Add := false, Delete := true, Sdss := [], Pools := [] })] }

/-- Shadow metadata holding the domain `d1` with the entity of 10.0.0.1 and
the pool `p1` holding `/dev/sdb`, the domain with the Delete flag given and no
other flag set. -/
def shadowD1Whole (domainDelete : Bool) : kvstore.Metadata :=
  shadowD1 false domainDelete [shadowSds false false]
    [shadowPool "p1" false false [shadowDevice "/dev/sdb" false false]]

/-- The storage-serving entity that `processAdditions` creates for a node
(server.go 426-430): named by the address of the node, `Add` set, mode "all". -/
def implicitSds (ipAddress : String) : kvstore.Sds :=
  { Name := ipAddress, Add := true, Delete := false, Mode := "all", FaultSet := "" }

/-! ## What `processAdditions` may do to the shadow metadata -/

/-- The map `new` extends the map `old`: every entry of `old` is in `new`
under its key, related by `R` to what it was, and every entry of `new` under a
key that `old` lacks is `Created`. -/
def GoMap.Extends {V : Type} (R : V → V → Prop) (Created : String → V → Prop)
    (old new : GoMap V) : Prop :=
  ∀ k, (∀ v, old.get k = some v → ∃ v', new.get k = some v' ∧ R v v') ∧
    (old.get k = none → ∀ v', new.get k = some v' → Created k v')

/-- A device entry as `processAdditions` creates it (server.go 467-470). -/
def DeviceCreated (key : String) (device : kvstore.Device) : Prop :=
  device = { Name := key, Add := true, Delete := false }

/-- The pool `new` is the pool `old` with the same name and flags, its devices
unchanged, and possibly with created devices. -/
def PoolExtends (old new : kvstore.StoragePool) : Prop :=
  new.Name = old.Name ∧ new.Add = old.Add ∧ new.Delete = old.Delete ∧
    GoMap.Extends Eq DeviceCreated old.Devices new.Devices

/-- A pool entry as `processAdditions` creates it (server.go 450-453): named by
its key, `Add` set, `Delete` not set, holding created devices only. -/
def PoolCreated (key : String) (pool : kvstore.StoragePool) : Prop :=
  PoolExtends { Name := key, Add := true, Delete := false, Devices := [] } pool

/-- An entity entry as `processAdditions` creates it (server.go 426-430). -/
def SdsCreated (ipAddress key : String) (sds : kvstore.Sds) : Prop :=
  key = ipAddress ∧ sds = implicitSds ipAddress

/-- The domain `new` is the domain `old` with the same name and flags, its
entities unchanged, its pools extended, and possibly with a created entity and
created pools. -/
def DomainExtends (ipAddress : String) (old new : kvstore.ProtectionDomain) : Prop :=
  new.Name = old.Name ∧ new.Add = old.Add ∧ new.Delete = old.Delete ∧
    GoMap.Extends Eq (SdsCreated ipAddress) old.Sdss new.Sdss ∧
    GoMap.Extends PoolExtends PoolCreated old.Pools new.Pools

/-- A domain entry as `processAdditions` creates it (server.go 408-411): named
by its key, `Add` set, `Delete` not set, holding created entries only. -/
def DomainCreated (ipAddress key : String) (domain : kvstore.ProtectionDomain) : Prop :=
  DomainExtends ipAddress
    { Name := key, Add := true, Delete := false, Sdss := [], Pools := [] } domain

/-- The metadata `new` is the metadata `old` with every entry that `old` holds
unchanged in name and flags, and possibly with created entries. -/
def MetadataExtends (ipAddress : String) (old new : kvstore.Metadata) : Prop :=
  GoMap.Extends (DomainExtends ipAddress) (DomainCreated ipAddress)
    old.ProtectionDomains new.ProtectionDomains

/-- The number of entries of a shadow pool: the pool and its devices. -/
def poolEntries (pool : kvstore.StoragePool) : Nat := 1 + pool.Devices.length

/-- The number of entries of a shadow domain: the domain, its entities, its
pools and their devices. -/
def domainEntries (domain : kvstore.ProtectionDomain) : Nat :=
  1 + domain.Sdss.length + (domain.Pools.map (fun pool => poolEntries pool.2)).sum

/-- The number of entries of the shadow metadata: domains, entities, pools and
devices. -/
def entryCount (metaData : kvstore.Metadata) : Nat :=
  (metaData.ProtectionDomains.map (fun domain => domainEntries domain.2)).sum

/-- From the state `a` of a loop to the state `b`, the size does not shrink,
a raised flag stays raised, and the size grows when the flag is raised. -/
def Grows {S : Type} (size : S → Nat) (a b : S × Bool) : Prop :=
  size a.1 ≤ size b.1 ∧ (a.2 = true → b.2 = true) ∧
    (a.2 = false → b.2 = true → size a.1 < size b.1)

/-- A store that holds, for `host-a`, a data-node record and the shadow
metadata of the domain `d1` flagged Delete, without entities or pools. -/
def storeDeletedD1 : kvstore.KvStore :=
  { Nodes := [("host-a", { Persona := types.PersonaNode, State := types.StateUnknown })],
    Metadatas := [("host-a", shadowD1 false true [] [])], Unwritable := [] }

/-- A storage system that holds the domain `d1` with the entity 10.0.0.1 and
the empty pool `p1`, in which no call fails for another reason than a missing
object. -/
def systemWithEntity : ExtClient :=
  { Domains := [("d1", { Sdss := ["10.0.0.1"], Pools := [("p1", [])] })],
    Fails := fun _ => false, Calls := [] }

/-- The device list that the key scheme gives the pool `fsPool` of the domain
`fsDomain`, following the words of the specification: the comma-split value of
the attribute `<prefix>-<domain>-<pool>` when it is present, otherwise the
comma-split value of the legacy attribute `<prefix>-<pool>` when that is
present, otherwise no device list. -/
def devicesByKeyScheme (attribs : List mesos.Attribute) (fix : String → String)
    (fsDomain fsPool : String) : Option (List String) :=
  match getAttributeByKey attribs (fix (fsDomain ++ "-" ++ fsPool)) with
  | some value => some (stringsSplit value)
  | none =>
    match getAttributeByKey attribs (fix fsPool) with
    | some value => some (stringsSplit value)
    | none => none

/-- The offer of `host-a` declaring `d1` and naming the pool `p1` twice in the
pool list of `d1`, with `/dev/sdb` as the device of `p1`. -/
def offerRepeatedPool : mesos.Offer :=
  { offerHostA with
    Attributes :=
      [{ Name := "scaleio-sds-domains", Text := "d1" },
       { Name := "scaleio-sds-d1", Text := "p1,p1" },
       { Name := "scaleio-sds-d1-p1", Text := "/dev/sdb" }] }

/-- A scheduler whose cluster state holds the node of `host-a` with the
primary manager role, over an empty store. -/
def schedulerWithPrimary : ScaleIOScheduler :=
  { Config := configOf 1 1, Store := emptyStore,
    Nodes := [{ nodeHostA [] with Persona := types.PersonaMdmPrimary }] }

/-- A host on which no setup step fails, environment setup asks for a reboot,
and which does not run the scheduler. -/
def hostAskingReboot : scaleionodes.Host :=
  { fails := fun _ => false
    reboot := fun step => decide (step = scaleionodes.SetupStep.EnvironmentSetup)
    runsScheduler := false }

/-- Go `strings.HasPrefix(s, prefix)`: whether `s` begins with `pre`. -/
def stringsHasPrefix (s pre : String) : Bool := pre.data.isPrefixOf s.data

/-- An offer that `obtainBestOfferForMdm` considers: its hostname has no
persisted metadata and the filter does not discard it. -/
def Candidate (cfg : Config) (store : kvstore.KvStore) (offer : mesos.Offer) : Prop :=
  store.Nodes.get offer.Hostname = none ∧ ¬ belowMdmMinimum cfg offer

/-- The running best of `obtainBestOfferForMdm` after the offers `seen`: while
no offer is held the best CPU and memory are zero and no offer seen is a
candidate; an offer held is a candidate that was seen. -/
def BestTracks (cfg : Config) (store : kvstore.KvStore) (seen : List mesos.Offer)
    (best : BestOffer) : Prop :=
  (best.higherOffer = none →
    best.highestCPU = Float64.finite 0 ∧ best.highestMem = Float64.finite 0 ∧
      ∀ offer ∈ seen, ¬ Candidate cfg store offer) ∧
  (∀ offer, best.higherOffer = some offer → offer ∈ seen ∧ Candidate cfg store offer)

/-! ## What no reconciliation step may undo -/

/-- Every entry of the map `old` is in `new` under its key, related by `R` to
what it was. -/
def GoMap.Keeps {V : Type} (R : V → V → Prop) (old new : GoMap V) : Prop :=
  ∀ k v, old.get k = some v → ∃ v', new.get k = some v' ∧ R v v'

/-- A device flagged Delete is still flagged. -/
def DeviceHolds (old new : kvstore.Device) : Prop := old.Delete = true → new.Delete = true

/-- An entity flagged Delete is still flagged. -/
def SdsHolds (old new : kvstore.Sds) : Prop := old.Delete = true → new.Delete = true

/-- A pool flagged Delete is still flagged, and each of its devices is still
there, holding its Delete flag. -/
def PoolHolds (old new : kvstore.StoragePool) : Prop :=
  (old.Delete = true → new.Delete = true) ∧ GoMap.Keeps DeviceHolds old.Devices new.Devices

/-- A domain flagged Delete is still flagged, and each of its entities and
pools is still there, holding its Delete flags. -/
def DomainHolds (old new : kvstore.ProtectionDomain) : Prop :=
  (old.Delete = true → new.Delete = true) ∧ GoMap.Keeps SdsHolds old.Sdss new.Sdss ∧
    GoMap.Keeps PoolHolds old.Pools new.Pools

/-- Every domain, entity, pool and device of the metadata `old` is still in
`new` under its key, and is flagged Delete there when it was in `old`. -/
def MetadataHolds (old new : kvstore.Metadata) : Prop :=
  GoMap.Keeps DomainHolds old.ProtectionDomains new.ProtectionDomains

/-- An offer of `host-a` whose `cpus` resource carries NaN, with 8 of memory. -/
def offerNotANumber : mesos.Offer :=
  { Id := "offer-host-a", AgentId := "agent-host-a", Hostname := "host-a", Ip := "10.0.0.1",
    Resources := [{ Name := "cpus", Scalar := Float64.nan },
      { Name := "mem", Scalar := Float64.ofRat 8 }],
    Attributes := [] }

/-- A configuration with minimums 0, the CPU scale factor being the positive
infinity and the memory scale factor 1. -/
def configInfiniteFactor : Config :=
  { PrimaryMdmAddress := "", SecondaryMdmAddress := "", TieBreakerMdmAddress := "",
    ExecutorMdmCPU := Float64.ofRat 0, ExecutorCPUFactor := Float64.inf false,
    ExecutorMdmMemory := Float64.ofRat 0, ExecutorMemoryFactor := Float64.ofRat 1 }

/-- The node of `host-b`, at 10.0.0.2, with the provided topology given. -/
def nodeHostB (provides : GoMap types.ProtectionDomain) : types.ScaleIONode :=
  { AgentID := "agent-2", TaskID := "scaleio-host-b", ExecutorID := "executor-scaleio-host-b",
    OfferID := "offer-2", IPAddress := "10.0.0.2", Hostname := "host-b",
    Persona := types.PersonaNode, State := types.StateUnknown, LastContact := 0,
    Declarative := true, Advertised := false, KeyValue := [],
    ProvidesDomains := provides, ConsumesDomains := [] }

/-- What a run of `addResourcesToScaleIO` or of its loop body leaves to see:
the calls made to the storage system and the shadow metadata stored for
`host-a` and for `host-b`. -/
def observed (r : Reconciler) :
    List ExtCall × Option kvstore.Metadata × Option kvstore.Metadata :=
  (r.System.Calls, r.Store.GetMetadata "host-a", r.Store.GetMetadata "host-b")

/-! # Theorems -/

/-! ## float64 rounding -/

namespace Float64

theorem pow2_eq_zpow (e : Int) : pow2 e = (2 : ℚ) ^ e := by
  unfold pow2
  by_cases h : 0 ≤ e
  · rw [if_pos h]
    obtain ⟨n, rfl⟩ := Int.eq_ofNat_of_zero_le h
    simp
  · rw [if_neg h]
    obtain ⟨n, rfl⟩ := Int.exists_eq_neg_ofNat (le_of_lt (not_le.mp h))
    simp

theorem pow2_pos (e : Int) : 0 < pow2 e := by
  rw [pow2_eq_zpow]
  positivity

theorem pow2_add (a b : Int) : pow2 (a + b) = pow2 a * pow2 b := by
  simp only [pow2_eq_zpow]
  exact zpow_add₀ (by norm_num) a b

theorem pow2_zero : pow2 0 = 1 := by
  rw [pow2_eq_zpow]
  simp

theorem pow2_mul_neg (a : Int) : pow2 a * pow2 (-a) = 1 := by
  rw [← pow2_add, add_neg_cancel, pow2_zero]

theorem pow2_le_pow2 {a b : Int} (h : a ≤ b) : pow2 a ≤ pow2 b := by
  simp only [pow2_eq_zpow]
  exact zpow_le_zpow_right₀ (by norm_num) h

theorem pow2_natCast (n : Nat) : pow2 (n : Int) = ((2 ^ n : Nat) : ℚ) := by
  rw [pow2_eq_zpow]
  simp

theorem halvings_spec (fuel : Nat) : ∀ n : Nat, 0 < n → n ≤ fuel →
    2 ^ halvings fuel n ≤ n ∧ n < 2 ^ (halvings fuel n + 1) := by
  induction fuel with
  | zero => intro n h0 h1; omega
  | succ fuel ih =>
    intro n h0 h1
    unfold halvings
    by_cases h2 : n < 2
    · rw [if_pos h2]
      simp
      omega
    · rw [if_neg h2]
      obtain ⟨g1, g2⟩ := ih (n / 2) (by omega) (by omega)
      rw [pow_succ, pow_succ]
      rw [pow_succ] at g2
      constructor <;> omega

theorem natLog2_spec (n : Nat) (h : 0 < n) :
    2 ^ natLog2 n ≤ n ∧ n < 2 ^ (natLog2 n + 1) :=
  halvings_spec n n h (le_refl n)

end Float64

namespace Float64

theorem ilog2_spec (a : ℚ) (ha : 0 < a) : pow2 (ilog2 a) ≤ a ∧ a < pow2 (ilog2 a + 1) := by
  have hnum : 0 < a.num := Rat.num_pos.mpr ha
  have hn0 : 0 < a.num.natAbs := Int.natAbs_pos.mpr (ne_of_gt hnum)
  obtain ⟨n1, n2⟩ := natLog2_spec a.num.natAbs hn0
  obtain ⟨d1, d2⟩ := natLog2_spec a.den a.den_pos
  have hcast : ((a.num.natAbs : Nat) : ℚ) = (a.num : ℚ) := by
    have h : ((a.num.natAbs : Nat) : Int) = a.num := Int.natAbs_of_nonneg (le_of_lt hnum)
    calc ((a.num.natAbs : Nat) : ℚ) = (((a.num.natAbs : Nat) : Int) : ℚ) :=
          (Int.cast_natCast _).symm
      _ = (a.num : ℚ) := by rw [h]
  have ha_eq : a = (a.num.natAbs : ℚ) / (a.den : ℚ) := by
    rw [hcast]
    exact (Rat.num_div_den a).symm
  have hdpos : (0 : ℚ) < (a.den : ℚ) := by exact_mod_cast a.den_pos
  have N1 : pow2 (natLog2 a.num.natAbs : Int) ≤ (a.num.natAbs : ℚ) := by
    rw [pow2_natCast]; exact_mod_cast n1
  have N2 : (a.num.natAbs : ℚ) < pow2 ((natLog2 a.num.natAbs : Int) + 1) := by
    have : ((natLog2 a.num.natAbs : Int) + 1) = ((natLog2 a.num.natAbs + 1 : Nat) : Int) := by
      push_cast; rfl
    rw [this, pow2_natCast]; exact_mod_cast n2
  have D1 : pow2 (natLog2 a.den : Int) ≤ (a.den : ℚ) := by
    rw [pow2_natCast]; exact_mod_cast d1
  have D2 : (a.den : ℚ) < pow2 ((natLog2 a.den : Int) + 1) := by
    have : ((natLog2 a.den : Int) + 1) = ((natLog2 a.den + 1 : Nat) : Int) := by
      push_cast; rfl
    rw [this, pow2_natCast]; exact_mod_cast d2
  -- a < pow2 (ln - ld + 1)
  have U : a < pow2 ((natLog2 a.num.natAbs : Int) - (natLog2 a.den : Int) + 1) := by
    have e1 : (natLog2 a.num.natAbs : Int) - (natLog2 a.den : Int) + 1 =
        ((natLog2 a.num.natAbs : Int) + 1) + (-(natLog2 a.den : Int)) := by ring
    have e2 : pow2 (natLog2 a.den : Int) * pow2 (-(natLog2 a.den : Int)) = 1 := by
      exact pow2_mul_neg _
    have hp := pow2_pos (natLog2 a.den : Int)
    have hq := pow2_pos (-(natLog2 a.den : Int))
    rw [e1, pow2_add]
    have h3 : a * (a.den : ℚ) = (a.num.natAbs : ℚ) := by
      rw [hcast]; exact Rat.mul_den_eq_num a
    have h4 : a * pow2 (natLog2 a.den : Int) ≤ a * (a.den : ℚ) :=
      mul_le_mul_of_nonneg_left D1 (le_of_lt ha)
    have h5 : a * pow2 (natLog2 a.den : Int) < pow2 ((natLog2 a.num.natAbs : Int) + 1) := by
      linarith
    have h6 := mul_lt_mul_of_pos_right h5 hq
    rw [mul_assoc, e2, mul_one] at h6
    exact h6
  -- pow2 (ln - ld - 1) ≤ a
  have L : pow2 ((natLog2 a.num.natAbs : Int) - (natLog2 a.den : Int) - 1) ≤ a := by
    have e1 : (natLog2 a.num.natAbs : Int) - (natLog2 a.den : Int) - 1 =
        (natLog2 a.num.natAbs : Int) + (-((natLog2 a.den : Int) + 1)) := by ring
    have e2 : pow2 ((natLog2 a.den : Int) + 1) * pow2 (-((natLog2 a.den : Int) + 1)) = 1 := by
      exact pow2_mul_neg _
    have hq := pow2_pos (-((natLog2 a.den : Int) + 1))
    rw [e1, pow2_add]
    have h3 : a * (a.den : ℚ) = (a.num.natAbs : ℚ) := by
      rw [hcast]; exact Rat.mul_den_eq_num a
    have h4 : a * (a.den : ℚ) ≤ a * pow2 ((natLog2 a.den : Int) + 1) :=
      mul_le_mul_of_nonneg_left (le_of_lt D2) (le_of_lt ha)
    have h5 : pow2 (natLog2 a.num.natAbs : Int) ≤ a * pow2 ((natLog2 a.den : Int) + 1) := by
      linarith
    have h6 := mul_le_mul_of_nonneg_right h5 (le_of_lt hq)
    rw [mul_assoc, e2, mul_one] at h6
    exact h6
  unfold ilog2
  by_cases h : pow2 ((natLog2 a.num.natAbs : Int) - (natLog2 a.den : Int)) ≤ a
  · rw [if_pos h]
    exact ⟨h, U⟩
  · rw [if_neg h]
    refine ⟨L, ?_⟩
    rw [sub_add_cancel]
    exact not_le.mp h

theorem ulpExp_ge (a : ℚ) : -1074 ≤ ulpExp a := le_max_right _ _

theorem ilog2_le_ulpExp (a : ℚ) : ilog2 a - 52 ≤ ulpExp a := le_max_left _ _

theorem ulpExp_cases (a : ℚ) :
    ulpExp a = ilog2 a - 52 ∨ (ulpExp a = -1074 ∧ ilog2 a - 52 ≤ -1074) := by
  unfold ulpExp
  rcases le_total (ilog2 a - 52) (-1074) with h | h
  · right; exact ⟨max_eq_right h, h⟩
  · left; exact max_eq_left h

theorem roundHalfEven_cases (x : ℚ) :
    roundHalfEven x = ⌊x⌋ ∨ (roundHalfEven x = ⌊x⌋ + 1 ∧ 1 / 2 ≤ x - ⌊x⌋) := by
  unfold roundHalfEven
  by_cases h1 : x - ⌊x⌋ < 1 / 2
  · rw [if_pos h1]; left; rfl
  · rw [if_neg h1]
    by_cases h2 : 1 / 2 < x - ⌊x⌋
    · rw [if_pos h2]; right; exact ⟨rfl, not_lt.mp h1⟩
    · rw [if_neg h2]
      by_cases h3 : ⌊x⌋ % 2 = 0
      · rw [if_pos h3]; left; rfl
      · rw [if_neg h3]; right; exact ⟨rfl, not_lt.mp h1⟩

theorem int_le_roundHalfEven (x : ℚ) (n : Int) (h : (n : ℚ) ≤ x) : n ≤ roundHalfEven x := by
  have hf : n ≤ ⌊x⌋ := Int.le_floor.mpr h
  rcases roundHalfEven_cases x with h1 | ⟨h1, -⟩ <;> rw [h1] <;> omega

theorem roundHalfEven_le_int (x : ℚ) (n : Int) (h : x ≤ (n : ℚ)) : roundHalfEven x ≤ n := by
  rcases roundHalfEven_cases x with h1 | ⟨h1, h2⟩
  · rw [h1]
    have : (⌊x⌋ : ℚ) ≤ x := Int.floor_le x
    exact_mod_cast le_trans this h
  · rw [h1]
    have : (⌊x⌋ : ℚ) < (n : ℚ) := by linarith
    have : ⌊x⌋ < n := by exact_mod_cast this
    omega

theorem roundHalfEven_le_add_half (x : ℚ) : (roundHalfEven x : ℚ) ≤ x + 1 / 2 := by
  unfold roundHalfEven
  have hfl : (⌊x⌋ : ℚ) ≤ x := Int.floor_le x
  by_cases h1 : x - ⌊x⌋ < 1 / 2
  · rw [if_pos h1]; linarith
  · rw [if_neg h1]
    by_cases h2 : 1 / 2 < x - ⌊x⌋
    · rw [if_pos h2]; push_cast; linarith
    · rw [if_neg h2]
      by_cases h3 : ⌊x⌋ % 2 = 0
      · rw [if_pos h3]; linarith
      · rw [if_neg h3]; push_cast; linarith

end Float64

namespace Float64

theorem div_ulp_nonneg (a : ℚ) (ha : 0 < a) : 0 ≤ a / pow2 (ulpExp a) :=
  div_nonneg (le_of_lt ha) (le_of_lt (pow2_pos _))

theorem roundedValue_nonneg (a : ℚ) (ha : 0 < a) : 0 ≤ roundedValue a := by
  unfold roundedValue
  have h : (0 : Int) ≤ roundHalfEven (a / pow2 (ulpExp a)) :=
    int_le_roundHalfEven _ 0 (by simpa using div_ulp_nonneg a ha)
  have h' : (0 : ℚ) ≤ (roundHalfEven (a / pow2 (ulpExp a)) : ℚ) := by exact_mod_cast h
  exact mul_nonneg h' (le_of_lt (pow2_pos _))

theorem roundedValue_le (a : ℚ) : roundedValue a ≤ a + pow2 (ulpExp a) / 2 := by
  unfold roundedValue
  have hp := pow2_pos (ulpExp a)
  have h := roundHalfEven_le_add_half (a / pow2 (ulpExp a))
  have h2 := mul_le_mul_of_nonneg_right h (le_of_lt hp)
  have h3 : (a / pow2 (ulpExp a) + 1 / 2) * pow2 (ulpExp a) = a + pow2 (ulpExp a) / 2 := by
    field_simp
    ring
  linarith

theorem pow2_53 : pow2 53 = 2 ^ 53 := by
  rw [pow2_eq_zpow]
  norm_cast

theorem pow2_52 : pow2 52 = 2 ^ 52 := by
  rw [pow2_eq_zpow]
  norm_cast

theorem roundedValue_grid (a : ℚ) (ha : 0 < a) :
    ∃ k : Int, 0 ≤ k ∧ k ≤ 2 ^ 53 ∧ roundedValue a = (k : ℚ) * pow2 (ulpExp a) := by
  refine ⟨roundHalfEven (a / pow2 (ulpExp a)), ?_, ?_, rfl⟩
  · exact int_le_roundHalfEven _ 0 (by simpa using div_ulp_nonneg a ha)
  · apply roundHalfEven_le_int
    have hp := pow2_pos (ulpExp a)
    have h1 := (ilog2_spec a ha).2
    have h2 : pow2 (ilog2 a + 1) ≤ pow2 (ulpExp a + 53) :=
      pow2_le_pow2 (by have := ilog2_le_ulpExp a; omega)
    rw [pow2_add (ulpExp a) 53, pow2_53] at h2
    rw [div_le_iff₀ hp]
    push_cast
    linarith

theorem grid_le_roundedValue (a : ℚ) (ha : 0 < a) (k e : Int) (hk : k ≤ 2 ^ 53)
    (he : -1074 ≤ e) (h : (k : ℚ) * pow2 e ≤ a) : (k : ℚ) * pow2 e ≤ roundedValue a := by
  have hp := pow2_pos (ulpExp a)
  by_cases hex : ulpExp a ≤ e
  · have e1 : e = (e - ulpExp a) + ulpExp a := by ring
    have e2 : e - ulpExp a = (((e - ulpExp a).toNat : Nat) : Int) :=
      (Int.toNat_of_nonneg (by omega)).symm
    have e3 : (k : ℚ) * pow2 e =
        ((k * ((2 ^ (e - ulpExp a).toNat : Nat) : Int) : Int) : ℚ) * pow2 (ulpExp a) := by
      conv_lhs => rw [e1, pow2_add, e2, pow2_natCast]
      push_cast
      ring
    rw [e3] at h ⊢
    unfold roundedValue
    apply mul_le_mul_of_nonneg_right _ (le_of_lt hp)
    have h4 : (k * ((2 ^ (e - ulpExp a).toNat : Nat) : Int) : Int) ≤
        roundHalfEven (a / pow2 (ulpExp a)) := by
      apply int_le_roundHalfEven
      rw [le_div_iff₀ hp]
      exact h
    exact_mod_cast h4
  · have hex' : ulpExp a = ilog2 a - 52 := by
      rcases ulpExp_cases a with h1 | ⟨h1, -⟩
      · exact h1
      · omega
    have h1 := (ilog2_spec a ha).1
    have e1 : ilog2 a = 52 + ulpExp a := by omega
    rw [e1, pow2_add, pow2_52] at h1
    have h4 : ((2 ^ 52 : Int)) ≤ roundHalfEven (a / pow2 (ulpExp a)) := by
      apply int_le_roundHalfEven
      rw [le_div_iff₀ hp]
      push_cast
      exact h1
    have h5 : ((2 ^ 52 : Int) : ℚ) * pow2 (ulpExp a) ≤ roundedValue a := by
      unfold roundedValue
      apply mul_le_mul_of_nonneg_right _ (le_of_lt hp)
      exact_mod_cast h4
    have h6 : pow2 (e + 1) ≤ pow2 (ulpExp a) := pow2_le_pow2 (by omega)
    have h7 : pow2 (e + 1) = pow2 e * 2 := by
      rw [pow2_add]
      congr 1
    have h8 : (k : ℚ) ≤ 2 ^ 53 := by exact_mod_cast hk
    have hpe := pow2_pos e
    have h9 : (k : ℚ) * pow2 e ≤ 2 ^ 53 * pow2 e :=
      mul_le_mul_of_nonneg_right h8 (le_of_lt hpe)
    push_cast at h5
    have h10 : (2 : ℚ) ^ 53 * pow2 e = 2 ^ 52 * (pow2 e * 2) := by ring
    have h11 : (2 : ℚ) ^ 52 * (pow2 e * 2) ≤ 2 ^ 52 * pow2 (ulpExp a) := by
      rw [← h7]
      exact mul_le_mul_of_nonneg_left h6 (by positivity)
    linarith

end Float64

namespace Float64

theorem pow2_neg_five : pow2 (-5) = 1 / 32 := by decide!

theorem pow2_one : pow2 1 = 2 := by decide!

theorem pow2_ulpExp_le (x : ℚ) (hx : 0 < x) :
    pow2 (ulpExp x) ≤ x * (1 / 32) ∨ ulpExp x = -1074 := by
  rcases ulpExp_cases x with h | ⟨h, -⟩
  · left
    rw [h, sub_eq_add_neg, pow2_add]
    have h1 := (ilog2_spec x hx).1
    have h2 : pow2 (-52) ≤ 1 / 32 := by
      rw [← pow2_neg_five]
      exact pow2_le_pow2 (by norm_num)
    have h3 := pow2_pos (-52)
    calc pow2 (ilog2 x) * pow2 (-52) ≤ x * pow2 (-52) :=
          mul_le_mul_of_nonneg_right h1 (le_of_lt h3)
      _ ≤ x * (1 / 32) := mul_le_mul_of_nonneg_left h2 (le_of_lt hx)
  · right
    exact h

theorem roundedValue_three_quarters_lt (c : ℚ) (hc : pow2 (-1073) < c) :
    roundedValue (c * (3 / 4)) < c := by
  have hp : 0 < pow2 (-1073) := pow2_pos _
  have hc0 : 0 < c := lt_trans hp hc
  have hx : 0 < c * (3 / 4) := by linarith
  have h1 := roundedValue_le (c * (3 / 4))
  rcases pow2_ulpExp_le (c * (3 / 4)) hx with h | h
  · linarith
  · rw [h] at h1
    have e : pow2 (-1073) = pow2 (-1074) * 2 := by
      have : (-1073 : Int) = -1074 + 1 := by norm_num
      rw [this, pow2_add, pow2_one]
    rw [e] at hc
    linarith

theorem roundHalfEven_tie : roundHalfEven (25 / 2) = 12 := by decide!

theorem roundedValue_five_quarters_lt (m b : ℚ) (hm : 0 < m) (hb : b = 13 / 10 * m)
    (gm : ∃ j : Int, m = (j : ℚ) * pow2 (-1074)) (gb : ∃ j : Int, b = (j : ℚ) * pow2 (-1074)) :
    roundedValue (m * (5 / 4)) < b := by
  have hx : 0 < m * (5 / 4) := by linarith
  have h1 := roundedValue_le (m * (5 / 4))
  rcases pow2_ulpExp_le (m * (5 / 4)) hx with h | h
  · rw [hb]
    linarith
  · obtain ⟨k, hk⟩ := gm
    obtain ⟨j, hj⟩ := gb
    have hu := pow2_pos (-1074)
    have hkpos : (0 : ℚ) < (k : ℚ) := by
      by_contra hneg
      have : (k : ℚ) * pow2 (-1074) ≤ 0 :=
        mul_nonpos_of_nonpos_of_nonneg (not_lt.mp hneg) (le_of_lt hu)
      linarith
    have hk0 : 0 < k := by exact_mod_cast hkpos
    have hjk : 13 * k = 10 * j := by
      have h2 : (13 : ℚ) * k * pow2 (-1074) = 10 * j * pow2 (-1074) := by
        have : (j : ℚ) * pow2 (-1074) = 13 / 10 * ((k : ℚ) * pow2 (-1074)) := by
          rw [← hj, ← hk, hb]
        linarith
      have h3 : (13 : ℚ) * k = 10 * j := by
        have := mul_right_cancel₀ (ne_of_gt hu) h2
        exact this
      exact_mod_cast h3
    by_cases hbig : 10 < k
    · rw [h] at h1
      have hk' : (10 : ℚ) < (k : ℚ) := by exact_mod_cast hbig
      have : (k : ℚ) * pow2 (-1074) * (5 / 4) + pow2 (-1074) / 2 <
          13 / 10 * ((k : ℚ) * pow2 (-1074)) := by
        nlinarith
      rw [hb, hk]
      rw [hk] at h1
      linarith
    · have hk10 : k = 10 := by omega
      have hj13 : j = 13 := by omega
      unfold roundedValue
      rw [h, hj, hj13, hk, hk10]
      have e : ((10 : Int) : ℚ) * pow2 (-1074) * (5 / 4) / pow2 (-1074) = 25 / 2 := by
        field_simp
        ring
      rw [e, roundHalfEven_tie]
      have : ((12 : Int) : ℚ) < ((13 : Int) : ℚ) := by norm_num
      exact mul_lt_mul_of_pos_right this hu

end Float64

namespace Float64

theorem finite_mul_finite (a b : ℚ) : finite a * finite b = round64 (a * b) := rfl

theorem finite_add_finite (a b : ℚ) : finite a + finite b = round64 (a + b) := rfl

theorem lt_iff (x y : Float64) : x < y ↔ lt x y = true := Iff.rfl

theorem le_iff (x y : Float64) : x ≤ y ↔ le x y = true := Iff.rfl

theorem finite_lt_finite (a b : ℚ) : finite a < finite b ↔ a < b := by
  rw [lt_iff]
  simp [lt]

theorem finite_le_finite (a b : ℚ) : finite a ≤ finite b ↔ a ≤ b := by
  rw [le_iff]
  simp [le]

theorem ofRat_three_quarters : ofRat (3 / 4) = finite (3 / 4) := by decide!

theorem ofRat_five_quarters : ofRat (5 / 4) = finite (5 / 4) := by decide!

theorem round64_zero : round64 0 = finite 0 := by
  simp [round64]

theorem round64_of_pos (q : ℚ) (h : 0 < q) : round64 q = roundPos q := by
  unfold round64
  rw [if_neg (ne_of_gt h), if_pos h]

theorem round64_of_neg (q : ℚ) (h : q < 0) : round64 q = (roundPos (-q)).neg := by
  unfold round64
  rw [if_neg (ne_of_lt h), if_neg (not_lt.mpr (le_of_lt h))]

theorem roundPos_cases (a : ℚ) :
    roundPos a = inf false ∨
      (roundPos a = finite (roundedValue a) ∧ roundedValue a < pow2 1024) := by
  unfold roundPos
  by_cases h : pow2 1024 ≤ roundedValue a
  · left; rw [if_pos h]
  · right; rw [if_neg h]; exact ⟨rfl, not_le.mp h⟩

theorem round64_ne_nan (q : ℚ) : round64 q ≠ nan := by
  unfold round64
  by_cases h0 : q = 0
  · rw [if_pos h0]; simp
  · rw [if_neg h0]
    by_cases h1 : 0 < q
    · rw [if_pos h1]
      rcases roundPos_cases q with h | ⟨h, -⟩ <;> rw [h] <;> simp
    · rw [if_neg h1]
      rcases roundPos_cases (-q) with h | ⟨h, -⟩ <;> rw [h] <;> simp [neg]

theorem round64_nonneg (q : ℚ) (h : 0 ≤ q) : NonNegRounded (round64 q) := by
  rcases eq_or_lt_of_le h with h0 | h0
  · rw [← h0, round64_zero]
    exact Or.inr (Or.inr (Or.inl rfl))
  · rw [round64_of_pos q h0]
    rcases roundPos_cases q with h1 | ⟨h1, -⟩
    · exact Or.inr (Or.inl h1)
    · exact Or.inr (Or.inr (Or.inr ⟨q, h0, h1⟩))

theorem round64_nonpos (q : ℚ) (h : q ≤ 0) :
    round64 q = inf true ∨ ∃ w : ℚ, w ≤ 0 ∧ round64 q = finite w := by
  rcases eq_or_lt_of_le h with h0 | h0
  · rw [h0, round64_zero]
    exact Or.inr ⟨0, le_refl 0, rfl⟩
  · rw [round64_of_neg q h0]
    rcases roundPos_cases (-q) with h1 | ⟨h1, -⟩
    · left; rw [h1]; rfl
    · right
      refine ⟨-roundedValue (-q), ?_, ?_⟩
      · have := roundedValue_nonneg (-q) (by linarith)
        linarith
      · rw [h1]; rfl

theorem round64_finite_lt (q c : ℚ) (h : round64 q = finite c) : c < pow2 1024 := by
  have hp := pow2_pos 1024
  rcases lt_trichotomy q 0 with h0 | h0 | h0
  · rcases round64_nonpos q (le_of_lt h0) with h1 | ⟨w, hw, h1⟩
    · rw [h1] at h; cases h
    · rw [h1] at h
      cases h
      linarith
  · rw [h0, round64_zero] at h
    cases h
    exact hp
  · rw [round64_of_pos q h0] at h
    rcases roundPos_cases q with h1 | ⟨h1, h2⟩
    · rw [h1] at h; cases h
    · rw [h1] at h
      cases h
      exact h2

theorem round64_finite_pos (q c : ℚ) (h : round64 q = finite c) (hc : 0 < c) :
    0 < q ∧ c = roundedValue q := by
  rcases le_or_lt q 0 with h0 | h0
  · rcases round64_nonpos q h0 with h1 | ⟨w, hw, h1⟩
    · rw [h1] at h; cases h
    · rw [h1] at h
      cases h
      linarith
  · refine ⟨h0, ?_⟩
    rw [round64_of_pos q h0] at h
    rcases roundPos_cases q with h1 | ⟨h1, -⟩
    · rw [h1] at h; cases h
    · rw [h1] at h
      cases h
      rfl

theorem notNeg_cases (x : Float64) (h : ¬ x < finite 0) :
    x = nan ∨ x = inf false ∨ ∃ v : ℚ, 0 ≤ v ∧ x = finite v := by
  cases x with
  | finite v =>
    right; right
    rw [finite_lt_finite] at h
    exact ⟨v, not_lt.mp h, rfl⟩
  | inf negative =>
    cases negative with
    | false => right; left; rfl
    | true => exact absurd (show inf true < finite 0 from rfl) h
  | nan => left; rfl

theorem NonNegRounded.notNeg {x : Float64} (h : NonNegRounded x) : ¬ x < finite 0 := by
  rcases h with h | h | h | ⟨a, ha, h⟩ <;> rw [h]
  · exact fun h' => Bool.noConfusion h'
  · exact fun h' => Bool.noConfusion h'
  · rw [finite_lt_finite]; exact lt_irrefl 0
  · rw [finite_lt_finite]; exact not_lt.mpr (roundedValue_nonneg a ha)

theorem add_nonNegRounded (x y : Float64) (hx : ¬ x < finite 0) (hy : ¬ y < finite 0) :
    NonNegRounded (x + y) := by
  rcases notNeg_cases x hx with rfl | rfl | ⟨a, ha, rfl⟩ <;>
    rcases notNeg_cases y hy with rfl | rfl | ⟨b, hb, rfl⟩
  · exact Or.inl rfl
  · exact Or.inl rfl
  · exact Or.inl rfl
  · exact Or.inl rfl
  · exact Or.inr (Or.inl rfl)
  · exact Or.inr (Or.inl rfl)
  · exact Or.inl rfl
  · exact Or.inr (Or.inl rfl)
  · rw [finite_add_finite]
    exact round64_nonneg _ (add_nonneg ha hb)

theorem foldl_add_nonNegRounded (l : List Float64) :
    ∀ init : Float64, NonNegRounded init → (∀ v ∈ l, ¬ v < finite 0) →
      NonNegRounded (l.foldl (fun total value => total + value) init) := by
  induction l with
  | nil => intro init h _; exact h
  | cons v l ih =>
    intro init h hl
    rw [List.foldl_cons]
    exact ih _ (add_nonNegRounded init v h.notNeg (hl v (List.mem_cons_self _ _)))
      (fun w hw => hl w (List.mem_cons_of_mem _ hw))

theorem foldl_add_finite (l : List Float64) :
    ∀ (init : Float64) (c : ℚ), l.foldl (fun total value => total + value) init = finite c →
      (l = [] ∧ init = finite c) ∨ ∃ q : ℚ, round64 q = finite c := by
  induction l with
  | nil => intro init c h; exact Or.inl ⟨rfl, h⟩
  | cons v l ih =>
    intro init c h
    rw [List.foldl_cons] at h
    rcases ih _ c h with ⟨-, h1⟩ | h1
    · right
      cases init with
      | finite a =>
        cases v with
        | finite b => exact ⟨a + b, h1⟩
        | inf n => cases h1
        | nan => cases h1
      | inf n1 =>
        cases v with
        | finite b => cases h1
        | inf n2 =>
          have h2 : (if n1 = n2 then inf n1 else nan) = finite c := h1
          split at h2 <;> cases h2
        | nan => cases h1
      | nan => cases v <;> cases h1
    · exact Or.inr h1

theorem roundedValue_multiple (a : ℚ) :
    ∃ j : Int, roundedValue a = (j : ℚ) * pow2 (-1074) := by
  have he := ulpExp_ge a
  have e2 : ulpExp a + 1074 = (((ulpExp a + 1074).toNat : Nat) : Int) :=
    (Int.toNat_of_nonneg (by omega)).symm
  have e1 : ulpExp a = (ulpExp a + 1074) + (-1074) := by ring
  have hp : pow2 (ulpExp a) = ((2 ^ (ulpExp a + 1074).toNat : Nat) : ℚ) * pow2 (-1074) := by
    conv_lhs => rw [e1, pow2_add, e2, pow2_natCast]
  unfold roundedValue
  generalize roundHalfEven (a / pow2 (ulpExp a)) = r
  refine ⟨r * ((2 ^ (ulpExp a + 1074).toNat : Nat) : Int), ?_⟩
  rw [hp]
  push_cast
  ring

theorem nonNegRounded_not_gt (x : Float64) (h : NonNegRounded x) :
    ¬ (x * ofRat (5 / 4) < x) := by
  rw [ofRat_five_quarters]
  rcases h with rfl | rfl | rfl | ⟨a, ha, rfl⟩
  · exact fun h' => Bool.noConfusion h'
  · exact (by decide! : ¬ (inf false * finite (5 / 4) < inf false))
  · rw [finite_mul_finite, zero_mul, round64_zero, finite_lt_finite]
    exact lt_irrefl 0
  · rw [finite_mul_finite]
    rcases eq_or_lt_of_le (roundedValue_nonneg a ha) with h0 | h0
    · rw [← h0, zero_mul, round64_zero, finite_lt_finite]
      exact lt_irrefl 0
    · have hx : 0 < roundedValue a * (5 / 4) := by linarith
      rw [round64_of_pos _ hx]
      rcases roundPos_cases (roundedValue a * (5 / 4)) with h1 | ⟨h1, -⟩
      · rw [h1]
        exact fun h' => Bool.noConfusion h'
      · rw [h1, finite_lt_finite]
        obtain ⟨k, -, hk, hg⟩ := roundedValue_grid a ha
        have := grid_le_roundedValue (roundedValue a * (5 / 4)) hx k (ulpExp a) hk
          (ulpExp_ge a) (by rw [← hg]; linarith)
        rw [← hg] at this
        exact not_lt.mpr this

theorem lt_asymm_float (x y : Float64) (h : x < y) : ¬ y < x := by
  rw [lt_iff] at h ⊢
  cases x <;> cases y <;> simp [lt] at h ⊢
  · exact le_of_lt h
  · simp [h]
  · simp [h]
  · simp [h]

theorem pos_of_lt_of_notNeg (x y : Float64) (hx : ¬ x < finite 0) (h : x < y) :
    finite 0 < y := by
  rcases notNeg_cases x hx with rfl | rfl | ⟨a, ha, rfl⟩
  · exact Bool.noConfusion h
  · cases y <;> exact Bool.noConfusion h
  · cases y with
    | finite b =>
      rw [finite_lt_finite] at h ⊢
      exact lt_of_le_of_lt ha h
    | inf n =>
      cases n with
      | false => rfl
      | true => exact Bool.noConfusion h
    | nan => exact Bool.noConfusion h

end Float64

namespace Float64

theorem mul_three_quarters_lt (c : ℚ) (h1 : pow2 (-1073) < c) (h2 : c < pow2 1024) :
    finite c * ofRat (3 / 4) < finite c := by
  have hc0 : 0 < c := lt_trans (pow2_pos _) h1
  have hv := roundedValue_three_quarters_lt c h1
  rw [ofRat_three_quarters, finite_mul_finite, round64_of_pos _ (by linarith)]
  rcases roundPos_cases (c * (3 / 4)) with h | ⟨h, -⟩
  · exfalso
    unfold roundPos at h
    rw [if_neg (not_le.mpr (lt_trans hv h2))] at h
    cases h
  · rw [h, finite_lt_finite]
    exact hv

theorem mul_five_quarters_lt (m b : ℚ) (hm : 0 < m) (hb : b = 13 / 10 * m)
    (gm : ∃ j : Int, m = (j : ℚ) * pow2 (-1074)) (gb : ∃ j : Int, b = (j : ℚ) * pow2 (-1074))
    (h2 : b < pow2 1024) : finite m * ofRat (5 / 4) < finite b := by
  have hv := roundedValue_five_quarters_lt m b hm hb gm gb
  rw [ofRat_five_quarters, finite_mul_finite, round64_of_pos _ (by linarith)]
  rcases roundPos_cases (m * (5 / 4)) with h | ⟨h, -⟩
  · exfalso
    unfold roundPos at h
    rw [if_neg (not_le.mpr (lt_trans hv h2))] at h
    cases h
  · rw [h, finite_lt_finite]
    exact hv

theorem zero_mul_finite (q : ℚ) : finite 0 * finite q = finite 0 := by
  rw [finite_mul_finite, zero_mul, round64_zero]

theorem inf_mul_finite (n : Bool) (f : ℚ) (hf : 0 < f) : inf n * finite f = inf n := by
  show (if f = 0 then nan else inf (n != decide (f < 0))) = inf n
  rw [if_neg (ne_of_gt hf)]
  simp [not_lt.mpr (le_of_lt hf)]

theorem pos_of_le_of_lt (x y : Float64) (hx : finite 0 ≤ x) (h : x < y) : finite 0 < y := by
  apply pos_of_lt_of_notNeg x y _ h
  cases x with
  | finite a =>
    rw [finite_le_finite] at hx
    rw [finite_lt_finite]
    exact not_lt.mpr hx
  | inf n =>
    cases n with
    | false => exact fun h' => Bool.noConfusion h'
    | true => exact Bool.noConfusion hx
  | nan => exact Bool.noConfusion hx

theorem pos_of_mul_pos (x : Float64) (f : ℚ) (hf : 0 < f) (h : finite 0 < x * finite f) :
    finite 0 < x := by
  cases x with
  | finite c =>
    rw [finite_lt_finite]
    by_contra hc
    have hq : c * f ≤ 0 := mul_nonpos_of_nonpos_of_nonneg (not_lt.mp hc) (le_of_lt hf)
    rw [finite_mul_finite] at h
    rcases round64_nonpos (c * f) hq with h1 | ⟨w, hw, h1⟩
    · rw [h1] at h
      exact Bool.noConfusion h
    · rw [h1, finite_lt_finite] at h
      linarith
  | inf n =>
    rw [inf_mul_finite n f hf] at h
    exact h
  | nan => exact Bool.noConfusion h

theorem lt_of_not_le (x y : Float64) (hx : x ≠ nan) (hy : y ≠ nan) (h : ¬ y ≤ x) : x < y := by
  rw [le_iff] at h
  rw [lt_iff]
  cases x with
  | finite a =>
    cases y with
    | finite b => simpa [le, lt] using h
    | inf n => simpa [le, lt] using h
    | nan => exact absurd rfl hy
  | inf n1 =>
    cases y with
    | finite b => simpa [le, lt] using h
    | inf n2 => cases n1 <;> cases n2 <;> simp [le, lt] at h ⊢
    | nan => exact absurd rfl hy
  | nan => exact absurd rfl hx

theorem not_le_of_lt (x y : Float64) (h : x < y) : ¬ y ≤ x := by
  rw [lt_iff] at h
  rw [le_iff]
  cases x with
  | finite a =>
    cases y with
    | finite b => simpa [le, lt] using h
    | inf n => simpa [le, lt] using h
    | nan => simp [lt] at h
  | inf n1 =>
    cases y with
    | finite b => simpa [le, lt] using h
    | inf n2 => cases n1 <;> cases n2 <;> simp [le, lt] at h ⊢
    | nan => simp [lt] at h
  | nan => cases y <;> simp [lt] at h

theorem mul_finite_ne_nan (x : Float64) (f : ℚ) (hf : 0 < f) (hx : x ≠ nan) :
    x * finite f ≠ nan := by
  cases x with
  | finite c =>
    rw [finite_mul_finite]
    exact round64_ne_nan _
  | inf n =>
    rw [inf_mul_finite n f hf]
    simp
  | nan => exact absurd rfl hx

theorem ne_nan_of_le (x y : Float64) (h : x ≤ y) : y ≠ nan := by
  intro hy
  rw [hy] at h
  cases x <;> exact Bool.noConfusion h

end Float64

/-! ## C3: the bulk phase advance -/

/-- C3: `updateNodeState t` keeps the nodes in number and order (the old and
the new node lists are related position by position), changes nothing but the
phase of a node, sets each phase to the maximum of the old phase and `t`, so
that no phase decreases, and leaves every other part of the cluster state as it
was. -/
theorem updateNodeState_raises_to_max (s : types.ScaleIOFramework) (t : Int) :
    List.Forall₂
      (fun before after =>
        after = { before with State := max before.State t } ∧ before.State ≤ after.State)
      (registeredNodes s) (registeredNodes (updateNodeState s t)) ∧
    updateNodeState s t =
      { s with ScaleIO := { s.ScaleIO with Nodes := registeredNodes (updateNodeState s t) } } := by
  refine ⟨?_, rfl⟩
  show List.Forall₂ _ s.ScaleIO.Nodes (s.ScaleIO.Nodes.map _)
  induction s.ScaleIO.Nodes with
  | nil => exact List.Forall₂.nil
  | cons node rest ih =>
    refine List.Forall₂.cons ?_ ih
    by_cases h : node.State > t
    · have hmax : max node.State t = node.State := max_eq_left (le_of_lt h)
      simp [h, hmax]
    · have hle : node.State ≤ t := not_lt.mp h
      have hmax : max node.State t = t := max_eq_right hle
      simp [h, hmax, hle]

/-! ## C2: the deletion cascade of a removed pool -/

/-- C2, evaluated on the code: the shadow holds domain `d1` with pool `p1`
(devices `/dev/sdb` and `/dev/sdc`) and pool `p2`; the node still declares `d1`
with `p2` and no longer names `p1`. `processDeletions` flags `p1` Delete and
leaves both devices of `p1` unflagged: the `continue` of the branch for a pool
that is no longer declared skips the device loop. -/
theorem processDeletions_removed_pool_keeps_devices :
    processDeletions
        (shadowD1 false false [shadowSds false false]
          [shadowPool "p1" false false
              [shadowDevice "/dev/sdb" false false, shadowDevice "/dev/sdc" false false],
            shadowPool "p2" false false [shadowDevice "/dev/sdd" false false]])
        (nodeHostA (declaredD1 [declaredPool "p2" ["/dev/sdd"]])) =
      (shadowD1 false false [shadowSds false false]
          [shadowPool "p1" false true
              [shadowDevice "/dev/sdb" false false, shadowDevice "/dev/sdc" false false],
            shadowPool "p2" false false [shadowDevice "/dev/sdd" false false]],
        true) := by
  decide

/-! ## C8: the decoding scenario -/

/-- C8: for an offer from `host-a` with persisted node info whose attributes
are exactly `scaleio-sds-domains=d1`, `scaleio-sds-d1=p1` and
`scaleio-sds-d1-p1=/dev/sdb`, in any order, `prepareScaleIONode` returns no
error and a node with `Declarative = true` whose provided topology is exactly
the domain `d1` with the one pool `p1`, device list `[/dev/sdb]`, and no fault
sets. -/
theorem prepareScaleIONode_scenario (store : kvstore.KvStore) (offer : mesos.Offer)
    (info : kvstore.NodeInfo) (hHost : offer.Hostname = "host-a")
    (hInfo : store.GetNodeInfo "host-a" = .ok info)
    (hAttrs : offer.Attributes.Perm offerHostA.Attributes) :
    ∃ node, prepareScaleIONode store offer = .ok node ∧ node.Declarative = true ∧
      node.ProvidesDomains = declaredD1 [declaredPool "p1" ["/dev/sdb"]] := by
  obtain ⟨x, y, z, hl⟩ := List.length_eq_three.mp hAttrs.length_eq
  rw [hl] at hAttrs
  have hx : x ∈ offerHostA.Attributes := hAttrs.subset (by simp)
  have hy : y ∈ offerHostA.Attributes := hAttrs.subset (by simp)
  have hz : z ∈ offerHostA.Attributes := hAttrs.subset (by simp)
  have hnd : [x, y, z].Nodup := hAttrs.nodup_iff.mpr (by decide)
  simp only [offerHostA, List.mem_cons, List.mem_singleton, List.not_mem_nil, or_false] at hx hy hz
  simp only [prepareScaleIONode, hHost, hInfo, hl]
  refine ⟨_, rfl, ?_⟩
  rcases hx with hx | hx | hx <;> rcases hy with hy | hy | hy <;>
    rcases hz with hz | hz | hz <;> subst hx <;> subst hy <;> subst hz <;>
    first
      | exact absurd hnd (by decide)
      | exact absurd (hAttrs.count_eq ⟨"scaleio-sds-domains", "d1"⟩) (by decide)
      | exact absurd (hAttrs.count_eq ⟨"scaleio-sds-d1", "p1"⟩) (by decide)
      | exact ⟨rfl, rfl⟩

/-- Witness of C8: the offer of the scenario itself, against a store that
holds a record for `host-a`. -/
theorem prepareScaleIONode_scenario_witness :
    ∃ node, prepareScaleIONode storeHostA offerHostA = .ok node ∧ node.Declarative = true ∧
      node.ProvidesDomains = declaredD1 [declaredPool "p1" ["/dev/sdb"]] :=
  prepareScaleIONode_scenario storeHostA offerHostA
    { Persona := types.PersonaNode, State := types.StateUnknown } rfl rfl (List.Perm.refl _)

/-! ## C9: the first reconciliation pass -/

/-- C9, evaluated on the code: from empty shadow metadata and a storage system
without objects, for the node of `host-a` declaring `d1`, `p1` and `/dev/sdb`,
`processAdditions` followed by `processMetadata` (no call failing) ends in a
nil-pointer dereference at the argument `scaleioSds.Sds.ID` of `AttachDevice`,
before any device is attached; the shadow then holds the entity and the pool
with `Add` cleared, and the domain and the device with `Add` still set. -/
theorem first_pass_leaves_add_flags :
    (fun applied : kvstore.Metadata × ExtClient × PassResult =>
        (applied.1, applied.2.2, applied.2.1.Calls))
      (processMetadata emptySystem
        (processAdditions { ProtectionDomains := [] }
          (nodeHostA (declaredD1 [declaredPool "p1" ["/dev/sdb"]]))).1) =
      (shadowD1 true false [shadowSds false false]
          [shadowPool "p1" false false [shadowDevice "/dev/sdb" true false]],
        PassResult.nilPointerDereference,
        [.FindSystem, .FindProtectionDomain "d1", .CreateProtectionDomain "d1",
          .FindProtectionDomain "d1", .FindSds "d1" "10.0.0.1",
          .CreateSds "d1" "10.0.0.1" ["10.0.0.1"] ["all"] "", .FindSds "d1" "10.0.0.1",
          .FindStoragePool "d1" "p1", .CreateStoragePool "d1" "p1",
          .FindStoragePool "d1" "p1"]) := by
  decide

/-! ## C10: the two decoding rounds -/

/-- C10, evaluated on the code: for an offer whose only attribute is
`scaleio-sdc-domains=d2`, `prepareScaleIONode` puts `d2` into the provided
topology and leaves the consumed topology empty. -/
theorem prepareScaleIONode_client_domain_is_provided :
    (prepareScaleIONode storeHostA
        { offerHostA with Attributes := [{ Name := "scaleio-sdc-domains", Text := "d2" }] }).toOption.map
      (fun node => (node.ProvidesDomains, node.ConsumesDomains)) =
    some ([("d2", { Name := "d2", KeyValue := [], Pools := [], FaultSets := [] })], []) := by
  decide

/-! ## C5, C6: the best-fit rule on two offers -/

/-- The loop body of `obtainBestOfferForMdm` on an offer without persisted
metadata that passes the minimum filter. -/
theorem considerOffer_candidate (cfg : Config) (store : kvstore.KvStore) (best : BestOffer)
    (offer : mesos.Offer) (hNone : store.Nodes.get offer.Hostname = none)
    (hPass : ¬ belowMdmMinimum cfg offer) :
    considerOffer cfg store best offer =
      if offerCPU offer > best.highestCPU * Float64.ofRat (3 / 4) ∧
          offerMem offer > best.highestMem * Float64.ofRat (5 / 4)
      then { highestCPU := offerCPU offer, highestMem := offerMem offer, higherOffer := some offer }
      else if offerCPU offer > best.highestCPU then
        { highestCPU := offerCPU offer, highestMem := offerMem offer, higherOffer := some offer }
      else best := by
  simp [considerOffer, kvstore.KvStore.GetNodeInfo, hNone, hPass]

/-- A sum of resource values none of which is negative is NaN, the positive
infinity, zero or a rounded positive value. -/
theorem sumResources_nonNegRounded (name : String) (resources : List mesos.Resource)
    (h : ∀ res ∈ resources, ¬ res.Scalar < Float64.finite 0) :
    Float64.NonNegRounded (sumResources name resources) := by
  unfold sumResources
  apply Float64.foldl_add_nonNegRounded _ _ (Or.inr (Or.inr (Or.inl rfl)))
  intro v hv
  rw [List.mem_map] at hv
  obtain ⟨res, hres, rfl⟩ := hv
  exact h res (List.mem_filter.mp hres).1

/-- A finite sum of resource values is below `2 ^ 1024` and, when positive, a
rounded value. -/
theorem sumResources_finite (name : String) (resources : List mesos.Resource) (c : ℚ)
    (h : sumResources name resources = Float64.finite c) :
    c < Float64.pow2 1024 ∧ (0 < c → ∃ a : ℚ, c = Float64.roundedValue a) := by
  unfold sumResources at h
  rcases Float64.foldl_add_finite _ _ c h with ⟨-, h1⟩ | ⟨q, hq⟩
  · cases h1
    exact ⟨Float64.pow2_pos 1024, fun h0 => absurd h0 (lt_irrefl 0)⟩
  · exact ⟨Float64.round64_finite_lt q c hq,
      fun h0 => ⟨q, (Float64.round64_finite_pos q c hq h0).2⟩⟩

/-- C5 as stated fails: A and B both bring `2 ^ -1074` CPUs (the smallest
positive float64 value, 5e-324), A brings 10 of memory and B 13, the minimums
are 0. Both offers are without persisted metadata and pass the filter, the
CPUs are equal and positive and B's memory is 130% of A's, yet
`obtainBestOfferForMdm [A, B]` returns A: the product of `2 ^ -1074` and
`.75` rounds to `2 ^ -1074`, which B's CPU does not exceed. -/
theorem obtainBestOfferForMdm_memory_rule_counterexample :
    emptyStore.Nodes.get (offerOf "host-a" (Float64.pow2 (-1074)) 10 []).Hostname = none ∧
    emptyStore.Nodes.get (offerOf "host-b" (Float64.pow2 (-1074)) 13 []).Hostname = none ∧
    ¬ belowMdmMinimum (configOf 0 0) (offerOf "host-a" (Float64.pow2 (-1074)) 10 []) ∧
    ¬ belowMdmMinimum (configOf 0 0) (offerOf "host-b" (Float64.pow2 (-1074)) 13 []) ∧
    offerCPU (offerOf "host-a" (Float64.pow2 (-1074)) 10 []) =
      Float64.finite (Float64.pow2 (-1074)) ∧
    offerCPU (offerOf "host-b" (Float64.pow2 (-1074)) 13 []) =
      Float64.finite (Float64.pow2 (-1074)) ∧
    Float64.finite 0 < Float64.finite (Float64.pow2 (-1074)) ∧
    offerMem (offerOf "host-a" (Float64.pow2 (-1074)) 10 []) = Float64.finite 10 ∧
    offerMem (offerOf "host-b" (Float64.pow2 (-1074)) 13 []) = Float64.finite (13 / 10 * 10) ∧
    Float64.finite (Float64.pow2 (-1074)) * Float64.ofRat (3 / 4) =
      Float64.finite (Float64.pow2 (-1074)) ∧
    obtainBestOfferForMdm (configOf 0 0) emptyStore
        [offerOf "host-a" (Float64.pow2 (-1074)) 10 [],
          offerOf "host-b" (Float64.pow2 (-1074)) 13 []] =
      some (offerOf "host-a" (Float64.pow2 (-1074)) 10 []) := by
  decide!

/-- C5, amended: two offers A then B without persisted metadata that pass the
minimum filter, with equal finite CPU above `2 ^ -1073` and B's memory equal
to 130% of A's positive finite memory: `obtainBestOfferForMdm [A, B]` returns
B. -/
theorem obtainBestOfferForMdm_memory_rule (cfg : Config) (store : kvstore.KvStore)
    (A B : mesos.Offer) (c m : ℚ)
    (hA : store.Nodes.get A.Hostname = none) (hB : store.Nodes.get B.Hostname = none)
    (hPassA : ¬ belowMdmMinimum cfg A) (hPassB : ¬ belowMdmMinimum cfg B)
    (hCPUA : offerCPU A = Float64.finite c) (hCPUB : offerCPU B = Float64.finite c)
    (hCPUpos : Float64.pow2 (-1073) < c)
    (hMemA : offerMem A = Float64.finite m) (hMempos : 0 < m)
    (hMemB : offerMem B = Float64.finite (13 / 10 * m)) :
    obtainBestOfferForMdm cfg store [A, B] = some B := by
  have hc0 : 0 < c := lt_trans (Float64.pow2_pos _) hCPUpos
  have hb0 : 0 < 13 / 10 * m := by linarith
  have hcfin := (sumResources_finite "cpus" A.Resources c hCPUA).1
  obtain ⟨hbfin, hbgrid⟩ := sumResources_finite "mem" B.Resources _ hMemB
  obtain ⟨a1, ha1⟩ := (sumResources_finite "mem" A.Resources m hMemA).2 hMempos
  obtain ⟨a2, ha2⟩ := hbgrid hb0
  have gm : ∃ j : Int, m = (j : ℚ) * Float64.pow2 (-1074) := by
    rw [ha1]
    exact Float64.roundedValue_multiple a1
  have gb : ∃ j : Int, 13 / 10 * m = (j : ℚ) * Float64.pow2 (-1074) := by
    rw [ha2]
    exact Float64.roundedValue_multiple a2
  have hA1 : offerCPU A > Float64.finite 0 * Float64.ofRat (3 / 4) ∧
      offerMem A > Float64.finite 0 * Float64.ofRat (5 / 4) := by
    rw [hCPUA, hMemA, Float64.ofRat_three_quarters, Float64.ofRat_five_quarters,
      Float64.zero_mul_finite, Float64.zero_mul_finite]
    exact ⟨(Float64.finite_lt_finite 0 c).mpr hc0, (Float64.finite_lt_finite 0 m).mpr hMempos⟩
  have hB1 : offerCPU B > offerCPU A * Float64.ofRat (3 / 4) ∧
      offerMem B > offerMem A * Float64.ofRat (5 / 4) := by
    rw [hCPUA, hCPUB, hMemA, hMemB]
    exact ⟨Float64.mul_three_quarters_lt c hCPUpos hcfin,
      Float64.mul_five_quarters_lt m _ hMempos rfl gm gb hbfin⟩
  simp only [obtainBestOfferForMdm, List.foldl_cons, List.foldl_nil]
  rw [considerOffer_candidate cfg store _ A hA hPassA, if_pos hA1,
    considerOffer_candidate cfg store _ B hB hPassB, if_pos hB1]

/-- Witness of the amended C5: A brings 2 CPUs and 10 of memory, B brings 2
CPUs and 13 of memory, the minimums are 1 and 1. -/
theorem obtainBestOfferForMdm_memory_rule_witness :
    obtainBestOfferForMdm (configOf 1 1) emptyStore
        [offerOf "host-a" 2 10 [], offerOf "host-b" 2 13 []] =
      some (offerOf "host-b" 2 13 []) :=
  obtainBestOfferForMdm_memory_rule (configOf 1 1) emptyStore (offerOf "host-a" 2 10 [])
    (offerOf "host-b" 2 13 []) 2 10 rfl rfl (by decide!) (by decide!) (by decide!) (by decide!)
    (by decide!) (by decide!) (by norm_num) (by decide!)

/-- C6: two offers A and B without persisted metadata that pass the minimum
filter, with equal memory and B's CPU strictly greater than A's, the resource
values of A not being negative: `obtainBestOfferForMdm` returns B for the list
`[A, B]` and for the list `[B, A]`. -/
theorem obtainBestOfferForMdm_cpu_rule (cfg : Config) (store : kvstore.KvStore)
    (A B : mesos.Offer)
    (hA : store.Nodes.get A.Hostname = none) (hB : store.Nodes.get B.Hostname = none)
    (hPassA : ¬ belowMdmMinimum cfg A) (hPassB : ¬ belowMdmMinimum cfg B)
    (hMem : offerMem B = offerMem A) (hCPU : offerCPU A < offerCPU B)
    (hRes : ∀ res ∈ A.Resources, ¬ res.Scalar < Float64.finite 0) :
    obtainBestOfferForMdm cfg store [A, B] = some B ∧
      obtainBestOfferForMdm cfg store [B, A] = some B := by
  have hcA := sumResources_nonNegRounded "cpus" A.Resources hRes
  have hmA := sumResources_nonNegRounded "mem" A.Resources hRes
  have hBpos : offerCPU B > Float64.finite 0 :=
    Float64.pos_of_lt_of_notNeg (offerCPU A) (offerCPU B) hcA.notNeg hCPU
  have hstepB : ∀ best : BestOffer,
      best.highestCPU = offerCPU A ∨ best.highestCPU = Float64.finite 0 →
      considerOffer cfg store best B =
        { highestCPU := offerCPU B, highestMem := offerMem B, higherOffer := some B } := by
    intro best hbest
    have h2 : offerCPU B > best.highestCPU := by
      rcases hbest with h | h <;> rw [h]
      · exact hCPU
      · exact hBpos
    rw [considerOffer_candidate cfg store _ B hB hPassB]
    by_cases h1 : offerCPU B > best.highestCPU * Float64.ofRat (3 / 4) ∧
        offerMem B > best.highestMem * Float64.ofRat (5 / 4)
    · rw [if_pos h1]
    · rw [if_neg h1, if_pos h2]
  constructor
  · simp only [obtainBestOfferForMdm, List.foldl_cons, List.foldl_nil]
    rw [hstepB]
    rw [considerOffer_candidate cfg store _ A hA hPassA]
    split_ifs
    · exact Or.inl rfl
    · exact Or.inl rfl
    · exact Or.inr rfl
  · simp only [obtainBestOfferForMdm, List.foldl_cons, List.foldl_nil]
    rw [hstepB _ (Or.inr rfl), considerOffer_candidate cfg store _ A hA hPassA]
    have h1 : ¬ (offerCPU A > offerCPU B * Float64.ofRat (3 / 4) ∧
        offerMem A > offerMem B * Float64.ofRat (5 / 4)) := by
      rw [hMem]
      exact fun h => Float64.nonNegRounded_not_gt _ hmA h.2
    have h2 : ¬ offerCPU A > offerCPU B := Float64.lt_asymm_float _ _ hCPU
    rw [if_neg h1, if_neg h2]

/-- Witness of C6: A brings 2 CPUs, B brings 3 CPUs, both bring 8 of memory,
the minimums are 1 and 1. -/
theorem obtainBestOfferForMdm_cpu_rule_witness :
    obtainBestOfferForMdm (configOf 1 1) emptyStore
        [offerOf "host-a" 2 8 [], offerOf "host-b" 3 8 []] = some (offerOf "host-b" 3 8 []) ∧
      obtainBestOfferForMdm (configOf 1 1) emptyStore
        [offerOf "host-b" 3 8 [], offerOf "host-a" 2 8 []] = some (offerOf "host-b" 3 8 []) :=
  obtainBestOfferForMdm_cpu_rule (configOf 1 1) emptyStore (offerOf "host-a" 2 8 [])
    (offerOf "host-b" 3 8 []) rfl rfl (by decide!) (by decide!) (by decide!) (by decide!)
    (by decide!)

/-! ## C4: role uniqueness across selection passes -/

/-- C4, evaluated on the code: from an empty store and no registered node, the
first pass sees the offer of `host-a` and persists it as primary manager (the
pass then fails on the secondary role); the second pass sees the same host
carrying `scaleio-persona=secondary`, and the manual branch of
`selectAnMdmNode` overwrites the persisted role of `host-a` with secondary,
while the registered node of `host-a` still holds the primary role. -/
theorem performNodeSelection_overwrites_persisted_role :
    (performNodeSelection personaName freshScheduler
        [offerOf "host-a" 4 8 []]).1.Store.Nodes =
      [("host-a", { Persona := types.PersonaMdmPrimary, State := types.StateUnknown })] ∧
    (performNodeSelection personaName
        (performNodeSelection personaName freshScheduler [offerOf "host-a" 4 8 []]).1
        [offerOf "host-a" 4 8 [{ Name := "scaleio-persona", Text := "secondary" }]]).1.Store.Nodes =
      [("host-a", { Persona := types.PersonaMdmSecondary, State := types.StateUnknown })] ∧
    (performNodeSelection personaName
        (performNodeSelection personaName freshScheduler [offerOf "host-a" 4 8 []]).1
        [offerOf "host-a" 4 8 [{ Name := "scaleio-persona", Text := "secondary" }]]).1.Nodes.map
        (fun node => (node.Hostname, node.Persona)) =
      [("host-a", types.PersonaMdmPrimary)] := by
  decide!

/-! ## Go maps: lookups and assignments -/

theorem GoMap.get_put_same {V : Type} (m : GoMap V) (k : String) (v : V) :
    (m.put k v).get k = some v := by
  induction m with
  | nil => simp [GoMap.put, GoMap.get]
  | cons e rest ih =>
    obtain ⟨k', v'⟩ := e
    by_cases h : k' = k
    · simp [GoMap.put, GoMap.get, h]
    · simp [GoMap.put, GoMap.get, h, ih]

theorem GoMap.get_put_other {V : Type} (m : GoMap V) (k k' : String) (v : V) (h : k ≠ k') :
    (m.put k v).get k' = m.get k' := by
  induction m with
  | nil => simp [GoMap.put, GoMap.get, h]
  | cons e rest ih =>
    obtain ⟨k₀, v₀⟩ := e
    by_cases h₀ : k₀ = k
    · subst h₀
      simp [GoMap.put, GoMap.get, h]
    · by_cases h₁ : k₀ = k'
      · subst h₁
        simp [GoMap.put, GoMap.get, h₀]
      · simp [GoMap.put, GoMap.get, h₀, h₁, ih]

theorem GoMap.put_get_self {V : Type} (m : GoMap V) (k : String) (v : V)
    (h : m.get k = some v) : m.put k v = m := by
  induction m with
  | nil => simp [GoMap.get] at h
  | cons e rest ih =>
    obtain ⟨k', v'⟩ := e
    by_cases hk : k' = k
    · simp [GoMap.get, hk] at h
      simp [GoMap.put, hk, h]
    · simp [GoMap.get, hk] at h
      simp [GoMap.put, hk, ih h]

theorem GoMap.mem_put {V : Type} (m : GoMap V) (k : String) (v : V) (e : String × V)
    (h : e ∈ m.put k v) : e ∈ m ∨ e = (k, v) := by
  induction m with
  | nil => simpa [GoMap.put] using h
  | cons e₀ rest ih =>
    obtain ⟨k', v'⟩ := e₀
    by_cases hk : k' = k
    · simp [GoMap.put, hk] at h
      rcases h with h | h
      · exact Or.inr h
      · exact Or.inl (List.mem_cons_of_mem _ h)
    · simp [GoMap.put, hk] at h
      rcases h with h | h
      · exact Or.inl (by simp [h])
      · rcases ih h with h' | h'
        · exact Or.inl (List.mem_cons_of_mem _ h')
        · exact Or.inr h'

theorem GoMap.mem_of_get {V : Type} (m : GoMap V) (k : String) (v : V)
    (h : m.get k = some v) : (k, v) ∈ m := by
  induction m with
  | nil => simp [GoMap.get] at h
  | cons e rest ih =>
    obtain ⟨k', v'⟩ := e
    by_cases hk : k' = k
    · simp [GoMap.get, hk] at h
      simp [hk, h]
    · simp [GoMap.get, hk] at h
      exact List.mem_cons_of_mem _ (ih h)

theorem GoMap.get_of_mem_nodup {V : Type} (m : GoMap V) (k : String) (v : V)
    (hnd : (GoMap.keys m).Nodup) (h : (k, v) ∈ m) : m.get k = some v := by
  induction m with
  | nil => simp at h
  | cons e rest ih =>
    obtain ⟨k', v'⟩ := e
    simp only [GoMap.keys, List.map_cons, List.nodup_cons, List.mem_map, not_exists,
      not_and] at hnd
    rcases List.mem_cons.mp h with h | h
    · simp only [Prod.mk.injEq] at h
      simp [GoMap.get, h.1, h.2]
    · have hne : k' ≠ k := fun hk => hnd.1 (k, v) h (by simp [hk])
      simp only [GoMap.get, hne, if_false]
      exact ih hnd.2 h

theorem GoMap.get_eq_none_of_not_mem_keys {V : Type} (m : GoMap V) (k : String)
    (h : k ∉ GoMap.keys m) : m.get k = none := by
  induction m with
  | nil => rfl
  | cons e rest ih =>
    obtain ⟨k', v'⟩ := e
    simp only [GoMap.keys, List.map_cons, List.mem_cons, not_or] at h
    have hne : k' ≠ k := fun hk => h.1 hk.symm
    simp only [GoMap.get, hne, if_false]
    exact ih h.2

theorem GoMap.put_of_get_none {V : Type} (m : GoMap V) (k : String) (v : V)
    (h : m.get k = none) : m.put k v = m ++ [(k, v)] := by
  induction m with
  | nil => rfl
  | cons e rest ih =>
    obtain ⟨k', v'⟩ := e
    by_cases hk : k' = k
    · simp [GoMap.get, hk] at h
    · simp [GoMap.get, hk] at h
      simp [GoMap.put, hk, ih h]

theorem GoMap.rangeUpdate_fixed {V : Type} (f : String → V → V × Bool) (m : GoMap V)
    (h : ∀ e ∈ m, f e.1 e.2 = (e.2, false)) : GoMap.rangeUpdate f m = (m, false) := by
  induction m with
  | nil => rfl
  | cons e rest ih =>
    obtain ⟨k, v⟩ := e
    have h0 := h (k, v) (by simp)
    have hrest := ih (fun e he => h e (List.mem_cons_of_mem _ he))
    simp only at h0
    simp [GoMap.rangeUpdate, h0, hrest]

/-! ## The deletion pass on settled shadow metadata -/

theorem deleteDevice_settled (nDevices : Option (List String)) (mDevice : kvstore.Device)
    (h : DeviceSettled nDevices mDevice) :
    deleteDevice false false nDevices mDevice = (mDevice, false) := by
  cases nDevices with
  | none => rfl
  | some values =>
    have h' : doesNeedleExist (some values) mDevice.Name = true := h
    simp [deleteDevice, h']

theorem deletePool_settled (nDomain : types.ProtectionDomain) (keyP : String)
    (mPool : kvstore.StoragePool) (h : PoolSettled nDomain keyP mPool) :
    deletePool false nDomain keyP mPool = (mPool, false) := by
  obtain ⟨nPool, hget, hlen, hdel, hdev⟩ := h
  have hfix : GoMap.rangeUpdate
      (fun _ mDevice => deleteDevice false mPool.Delete nPool.Devices mDevice) mPool.Devices =
      (mPool.Devices, false) := by
    apply GoMap.rangeUpdate_fixed
    intro e he
    rw [hdel]
    exact deleteDevice_settled _ _ (hdev e he)
  simp [deletePool, hget, hlen, hfix]

theorem deleteDomain_settled (node : types.ScaleIONode) (keyD : String)
    (mDomain : kvstore.ProtectionDomain) (h : DomainSettled node keyD mDomain) :
    deleteDomain node keyD mDomain = (mDomain, false) := by
  obtain ⟨nDomain, hget, hne, hdel, hpools⟩ := h
  have hlen : (nDomain.Pools.length == 0) = false := by
    cases hp : nDomain.Pools with
    | nil => exact absurd hp hne
    | cons _ _ => rfl
  have hsds : GoMap.rangeUpdate (fun _ mSds => deleteSds mDomain.Delete mSds) mDomain.Sdss =
      (mDomain.Sdss, false) := by
    apply GoMap.rangeUpdate_fixed
    intro e _
    simp [deleteSds, hdel]
  have hpool : GoMap.rangeUpdate
      (fun keyP mPool => deletePool mDomain.Delete nDomain keyP mPool) mDomain.Pools =
      (mDomain.Pools, false) := by
    apply GoMap.rangeUpdate_fixed
    intro e he
    rw [hdel]
    exact deletePool_settled _ _ _ (hpools e he)
  simp [deleteDomain, hget, hlen, hsds, hpool]

theorem processDeletions_settled (metaData : kvstore.Metadata) (node : types.ScaleIONode)
    (h : Settled metaData node) : processDeletions metaData node = (metaData, false) := by
  have hfix : GoMap.rangeUpdate (fun keyD mDomain => deleteDomain node keyD mDomain)
      metaData.ProtectionDomains = (metaData.ProtectionDomains, false) := by
    apply GoMap.rangeUpdate_fixed
    intro e he
    exact deleteDomain_settled _ _ _ (h e he)
  simp [processDeletions, hfix]

/-! ## The addition pass on shadow metadata that covers the declaration -/

theorem foldl_fixed {S α : Type} (f : S → α → S) (l : List α) (s : S)
    (h : ∀ x ∈ l, f s x = s) : l.foldl f s = s := by
  induction l with
  | nil => rfl
  | cons a rest ih =>
    rw [List.foldl_cons, h a (by simp)]
    exact ih (fun x hx => h x (List.mem_cons_of_mem _ hx))

theorem addDevice_covered (st : kvstore.StoragePool × Bool) (device : String)
    (h : (st.1.Devices.get device).isSome = true) : addDevice st device = st := by
  obtain ⟨d, hd⟩ := Option.isSome_iff_exists.mp h
  simp [addDevice, hd]

theorem addPool_covered (st : kvstore.ProtectionDomain × Bool)
    (entry : String × types.StoragePool) (mPool : kvstore.StoragePool)
    (hget : st.1.Pools.get entry.1 = some mPool) (hcov : PoolCovers mPool entry.2) :
    addPool st entry = st := by
  have hfold : (entry.2.Devices.getD []).foldl addDevice (mPool, st.2) = (mPool, st.2) :=
    foldl_fixed _ _ _ (fun device hd => addDevice_covered _ _ (hcov device hd))
  simp [addPool, hget, hfold, GoMap.put_get_self _ _ _ hget]

theorem addDomain_covered (ipAddress : String) (st : kvstore.Metadata × Bool)
    (entry : String × types.ProtectionDomain) (mDomain : kvstore.ProtectionDomain)
    (hget : st.1.ProtectionDomains.get entry.1 = some mDomain)
    (hcov : DomainCovers ipAddress mDomain entry.2) : addDomain ipAddress st entry = st := by
  obtain ⟨sds, hsds⟩ := Option.isSome_iff_exists.mp hcov.1
  have hfold : entry.2.Pools.foldl addPool (mDomain, st.2) = (mDomain, st.2) := by
    apply foldl_fixed
    intro pool hp
    obtain ⟨mPool, hp1, hp2⟩ := hcov.2 pool hp
    exact addPool_covered _ _ mPool hp1 hp2
  simp [addDomain, hget, hsds, hfold, GoMap.put_get_self _ _ _ hget]

theorem processAdditions_covered (metaData : kvstore.Metadata) (node : types.ScaleIONode)
    (h : Covers metaData node) : processAdditions metaData node = (metaData, false) := by
  apply foldl_fixed
  intro domain hd
  obtain ⟨mDomain, h1, h2⟩ := h domain hd
  exact addDomain_covered _ _ _ mDomain h1 h2

/-! ## What the addition pass builds -/

theorem foldl_preserves {S α : Type} (f : S → α → S) (P : S → Prop) (l : List α)
    (hstep : ∀ s x, x ∈ l → P s → P (f s x)) (s : S) (h : P s) : P (l.foldl f s) := by
  induction l generalizing s with
  | nil => exact h
  | cons a rest ih =>
    rw [List.foldl_cons]
    exact ih (fun s x hx hs => hstep s x (List.mem_cons_of_mem _ hx) hs) _
      (hstep s a (by simp) h)

theorem foldl_establishes {S α : Type} (f : S → α → S) (Q : α → S → Prop) (l : List α)
    (hQ : ∀ s x, x ∈ l → Q x (f s x))
    (hMono : ∀ s x y, x ∈ l → Q y s → Q y (f s x)) (s : S) :
    ∀ x ∈ l, Q x (l.foldl f s) := by
  induction l generalizing s with
  | nil => intro x hx; simp at hx
  | cons a rest ih =>
    intro x hx
    rw [List.foldl_cons]
    rcases List.mem_cons.mp hx with hxa | hxr
    · subst hxa
      exact foldl_preserves f (Q x) rest
        (fun s y hy hs => hMono s y x (List.mem_cons_of_mem _ hy) hs) _ (hQ s x (by simp))
    · exact ih (fun s y hy => hQ s y (List.mem_cons_of_mem _ hy))
        (fun s y z hy => hMono s y z (List.mem_cons_of_mem _ hy)) _ x hxr

theorem addDevice_delete (st : kvstore.StoragePool × Bool) (device : String) :
    (addDevice st device).1.Delete = st.1.Delete := by
  unfold addDevice
  split <;> rfl

theorem addDevice_mem (st : kvstore.StoragePool × Bool) (device : String)
    (e : String × kvstore.Device) (h : e ∈ (addDevice st device).1.Devices) :
    e ∈ st.1.Devices ∨ e = (device, { Name := device, Add := true, Delete := false }) := by
  unfold addDevice at h
  split at h
  · exact GoMap.mem_put _ _ _ _ h
  · exact Or.inl h

theorem addDevice_get_self (st : kvstore.StoragePool × Bool) (device : String) :
    ((addDevice st device).1.Devices.get device).isSome = true := by
  unfold addDevice
  split
  · simp [GoMap.get_put_same]
  · next d hd => simp [hd]

theorem addDevice_get_mono (st : kvstore.StoragePool × Bool) (device k : String)
    (h : (st.1.Devices.get k).isSome = true) :
    ((addDevice st device).1.Devices.get k).isSome = true := by
  unfold addDevice
  split
  · next hnone =>
    have hne : device ≠ k := by
      intro hk
      rw [hk] at hnone
      simp [hnone] at h
    simpa [GoMap.get_put_other _ _ _ _ hne] using h
  · exact h

theorem doesNeedleExist_of_mem (nDevices : Option (List String)) (device : String)
    (h : device ∈ nDevices.getD []) : doesNeedleExist nDevices device = true := by
  cases nDevices with
  | none => simp at h
  | some values =>
    simp only [Option.getD_some] at h
    simp only [doesNeedleExist, List.any_eq_true, beq_iff_eq]
    exact ⟨device, h, rfl⟩

/-- The device loop of the addition pass keeps a settled pool settled. -/
theorem addDevices_settled (nDevices : Option (List String)) (st : kvstore.StoragePool × Bool)
    (hdel : st.1.Delete = false)
    (hdev : ∀ e ∈ st.1.Devices, DeviceSettled nDevices e.2) :
    ((nDevices.getD []).foldl addDevice st).1.Delete = false ∧
      ∀ e ∈ ((nDevices.getD []).foldl addDevice st).1.Devices, DeviceSettled nDevices e.2 := by
  refine foldl_preserves addDevice
    (fun s => s.1.Delete = false ∧ ∀ e ∈ s.1.Devices, DeviceSettled nDevices e.2) _ ?_ st
    ⟨hdel, hdev⟩
  intro s x hx hs
  refine ⟨by rw [addDevice_delete]; exact hs.1, ?_⟩
  intro e he
  rcases addDevice_mem s x e he with h | h
  · exact hs.2 e h
  · subst h
    exact doesNeedleExist_of_mem _ _ hx

/-- The device loop of the addition pass leaves an entry for every declared device. -/
theorem addDevices_covers (devices : List String) (st : kvstore.StoragePool × Bool) :
    ∀ device ∈ devices, ((devices.foldl addDevice st).1.Devices.get device).isSome = true :=
  foldl_establishes addDevice (fun device s => (s.1.Devices.get device).isSome = true) devices
    (fun s x _ => addDevice_get_self s x) (fun s x y _ h => addDevice_get_mono s x y h) st

/-- The device loop of the addition pass keeps the entries a pool has. -/
theorem addDevices_mono (devices : List String) (st : kvstore.StoragePool × Bool) (k : String)
    (h : (st.1.Devices.get k).isSome = true) :
    ((devices.foldl addDevice st).1.Devices.get k).isSome = true :=
  foldl_preserves addDevice (fun s => (s.1.Devices.get k).isSome = true) devices
    (fun s x _ hs => addDevice_get_mono s x k hs) st h

/-- The pool that the pool loop of the addition pass works on: the shadow
entry of the key, or a new one. -/
theorem addPool_pools (st : kvstore.ProtectionDomain × Bool)
    (entry : String × types.StoragePool) :
    ∃ base : kvstore.StoragePool × Bool,
      (st.1.Pools.get entry.1 = some base.1 ∨
        (st.1.Pools.get entry.1 = none ∧
          base.1 = { Name := entry.1, Add := true, Delete := false, Devices := [] })) ∧
      (addPool st entry).1.Pools =
        st.1.Pools.put entry.1 ((entry.2.Devices.getD []).foldl addDevice base).1 ∧
      (addPool st entry).1.Delete = st.1.Delete ∧ (addPool st entry).1.Sdss = st.1.Sdss := by
  cases hget : st.1.Pools.get entry.1 with
  | none =>
    exact ⟨({ Name := entry.1, Add := true, Delete := false, Devices := [] }, true),
      Or.inr ⟨rfl, rfl⟩, by simp [addPool, hget], by simp [addPool], by simp [addPool]⟩
  | some mPool =>
    exact ⟨(mPool, st.2), Or.inl rfl, by simp [addPool, hget], by simp [addPool],
      by simp [addPool]⟩

theorem addPool_settled (nDomain : types.ProtectionDomain)
    (st : kvstore.ProtectionDomain × Bool) (entry : String × types.StoragePool)
    (hget : nDomain.Pools.get entry.1 = some entry.2) (hlen : sliceLen entry.2.Devices ≠ 0)
    (h : ∀ e ∈ st.1.Pools, PoolSettled nDomain e.1 e.2) :
    ∀ e ∈ (addPool st entry).1.Pools, PoolSettled nDomain e.1 e.2 := by
  obtain ⟨base, hbase, hpools, -, -⟩ := addPool_pools st entry
  have hsettled : base.1.Delete = false ∧
      ∀ e ∈ base.1.Devices, DeviceSettled entry.2.Devices e.2 := by
    rcases hbase with hb | ⟨-, hb⟩
    · obtain ⟨nPool, h1, -, h3, h4⟩ := h _ (GoMap.mem_of_get _ _ _ hb)
      simp only at h1
      rw [hget] at h1
      cases h1
      exact ⟨h3, h4⟩
    · rw [hb]
      exact ⟨rfl, fun e he => by simp at he⟩
  have hfold := addDevices_settled entry.2.Devices base hsettled.1 hsettled.2
  intro e he
  rw [hpools] at he
  rcases GoMap.mem_put _ _ _ _ he with h' | h'
  · exact h e h'
  · subst h'
    exact ⟨entry.2, hget, hlen, hfold.1, hfold.2⟩

theorem addPool_covers_self (st : kvstore.ProtectionDomain × Bool)
    (entry : String × types.StoragePool) :
    ∃ mPool, (addPool st entry).1.Pools.get entry.1 = some mPool ∧ PoolCovers mPool entry.2 := by
  obtain ⟨base, -, hpools, -, -⟩ := addPool_pools st entry
  refine ⟨_, by rw [hpools, GoMap.get_put_same], ?_⟩
  exact addDevices_covers _ base

theorem addPool_covers_mono (st : kvstore.ProtectionDomain × Bool)
    (entry other : String × types.StoragePool)
    (h : ∃ mPool, st.1.Pools.get other.1 = some mPool ∧ PoolCovers mPool other.2) :
    ∃ mPool, (addPool st entry).1.Pools.get other.1 = some mPool ∧ PoolCovers mPool other.2 := by
  obtain ⟨mPool, h1, h2⟩ := h
  obtain ⟨base, hbase, hpools, -, -⟩ := addPool_pools st entry
  by_cases hk : entry.1 = other.1
  · refine ⟨_, by rw [hpools, hk, GoMap.get_put_same], ?_⟩
    have hb : base.1 = mPool := by
      rcases hbase with hb | ⟨hb, -⟩
      · rw [hk, h1] at hb
        exact (Option.some.inj hb).symm
      · rw [hk, h1] at hb
        cases hb
    intro device hd
    exact addDevices_mono _ base device (by rw [hb]; exact h2 device hd)
  · exact ⟨mPool, by rw [hpools, GoMap.get_put_other _ _ _ _ hk, h1], h2⟩

theorem addPools_frame (pools : GoMap types.StoragePool)
    (st : kvstore.ProtectionDomain × Bool) :
    (pools.foldl addPool st).1.Delete = st.1.Delete ∧
      (pools.foldl addPool st).1.Sdss = st.1.Sdss := by
  refine foldl_preserves addPool
    (fun s => s.1.Delete = st.1.Delete ∧ s.1.Sdss = st.1.Sdss) pools ?_ st ⟨rfl, rfl⟩
  intro s x _ hs
  obtain ⟨_, -, -, h1, h2⟩ := addPool_pools s x
  exact ⟨h1.trans hs.1, h2.trans hs.2⟩

/-- The domain that the domain loop of the addition pass works on, once the
entity of the node is in it: the shadow entry of the key, or a new one. -/
theorem addDomain_domains (ipAddress : String) (st : kvstore.Metadata × Bool)
    (entry : String × types.ProtectionDomain) :
    ∃ base : kvstore.ProtectionDomain × Bool,
      (base.1.Sdss.get ipAddress).isSome = true ∧
      ((∃ old, st.1.ProtectionDomains.get entry.1 = some old ∧ base.1.Delete = old.Delete ∧
          base.1.Pools = old.Pools) ∨
        (st.1.ProtectionDomains.get entry.1 = none ∧ base.1.Delete = false ∧
          base.1.Pools = [])) ∧
      (addDomain ipAddress st entry).1.ProtectionDomains =
        st.1.ProtectionDomains.put entry.1 (entry.2.Pools.foldl addPool base).1 := by
  let mSds : kvstore.Sds :=
    { Name := ipAddress, Add := true, Delete := false, Mode := "all", FaultSet := "" }
  cases hget : st.1.ProtectionDomains.get entry.1 with
  | none =>
    let fresh : kvstore.ProtectionDomain :=
      { Name := entry.1, Add := true, Delete := false, Sdss := [(ipAddress, mSds)], Pools := [] }
    refine ⟨(fresh, true), by simp [fresh, GoMap.get], Or.inr ⟨rfl, rfl, rfl⟩, ?_⟩
    simp [addDomain, hget, GoMap.get, GoMap.put, mSds, fresh]
  | some old =>
    cases hsds : old.Sdss.get ipAddress with
    | none =>
      refine ⟨({ old with Sdss := old.Sdss.put ipAddress mSds }, true),
        by simp [GoMap.get_put_same], Or.inl ⟨old, rfl, rfl, rfl⟩, ?_⟩
      simp [addDomain, hget, hsds, mSds]
    | some sds =>
      refine ⟨(old, st.2), by simp [hsds], Or.inl ⟨old, rfl, rfl, rfl⟩, ?_⟩
      simp [addDomain, hget, hsds]

theorem addDomain_settled (node : types.ScaleIONode) (st : kvstore.Metadata × Bool)
    (entry : String × types.ProtectionDomain)
    (hget : node.ProvidesDomains.get entry.1 = some entry.2) (hne : entry.2.Pools ≠ [])
    (hnd : (GoMap.keys entry.2.Pools).Nodup)
    (hlen : ∀ pool ∈ entry.2.Pools, sliceLen pool.2.Devices ≠ 0) (h : Settled st.1 node) :
    Settled (addDomain node.IPAddress st entry).1 node := by
  obtain ⟨base, -, hbase, hdomains⟩ := addDomain_domains node.IPAddress st entry
  have hsettled : base.1.Delete = false ∧ ∀ e ∈ base.1.Pools, PoolSettled entry.2 e.1 e.2 := by
    rcases hbase with ⟨old, h1, h2, h3⟩ | ⟨-, h2, h3⟩
    · obtain ⟨nDomain, g1, -, g3, g4⟩ := h _ (GoMap.mem_of_get _ _ _ h1)
      rw [hget] at g1
      cases g1
      exact ⟨h2.trans g3, by rw [h3]; exact g4⟩
    · exact ⟨h2, by rw [h3]; intro e he; simp at he⟩
  have hpools : ∀ e ∈ (entry.2.Pools.foldl addPool base).1.Pools, PoolSettled entry.2 e.1 e.2 :=
    foldl_preserves addPool (fun s => ∀ e ∈ s.1.Pools, PoolSettled entry.2 e.1 e.2) _
      (fun s x hx hs => addPool_settled entry.2 s x
        (GoMap.get_of_mem_nodup _ _ _ hnd hx) (hlen x hx) hs) base hsettled.2
  intro e he
  rw [hdomains] at he
  rcases GoMap.mem_put _ _ _ _ he with h' | h'
  · exact h e h'
  · subst h'
    exact ⟨entry.2, hget, hne, (addPools_frame _ base).1.trans hsettled.1, hpools⟩

theorem addDomain_covers_self (ipAddress : String) (st : kvstore.Metadata × Bool)
    (entry : String × types.ProtectionDomain) :
    ∃ mDomain, (addDomain ipAddress st entry).1.ProtectionDomains.get entry.1 = some mDomain ∧
      DomainCovers ipAddress mDomain entry.2 := by
  obtain ⟨base, hsds, -, hdomains⟩ := addDomain_domains ipAddress st entry
  refine ⟨_, by rw [hdomains, GoMap.get_put_same], ?_, ?_⟩
  · rw [(addPools_frame _ base).2]
    exact hsds
  · exact foldl_establishes addPool
      (fun pool s => ∃ mPool, s.1.Pools.get pool.1 = some mPool ∧ PoolCovers mPool pool.2) _
      (fun s x _ => addPool_covers_self s x) (fun s x y _ hy => addPool_covers_mono s x y hy) base

theorem addDomain_covers_mono (ipAddress : String) (st : kvstore.Metadata × Bool)
    (entry other : String × types.ProtectionDomain)
    (h : ∃ mDomain, st.1.ProtectionDomains.get other.1 = some mDomain ∧
      DomainCovers ipAddress mDomain other.2) :
    ∃ mDomain, (addDomain ipAddress st entry).1.ProtectionDomains.get other.1 = some mDomain ∧
      DomainCovers ipAddress mDomain other.2 := by
  obtain ⟨mDomain, h1, h2, h3⟩ := h
  obtain ⟨base, hsds, hbase, hdomains⟩ := addDomain_domains ipAddress st entry
  by_cases hk : entry.1 = other.1
  · refine ⟨_, by rw [hdomains, hk, GoMap.get_put_same], ?_, ?_⟩
    · rw [(addPools_frame _ base).2]
      exact hsds
    · have hb : base.1.Pools = mDomain.Pools := by
        rcases hbase with ⟨old, g1, -, g3⟩ | ⟨g1, -, -⟩
        · rw [hk, h1] at g1
          cases g1
          exact g3
        · rw [hk, h1] at g1
          cases g1
      intro pool hp
      exact foldl_preserves addPool
        (fun s => ∃ mPool, s.1.Pools.get pool.1 = some mPool ∧ PoolCovers mPool pool.2) _
        (fun s x _ hs => addPool_covers_mono s x pool hs) base
        (by show ∃ mPool, base.1.Pools.get pool.1 = some mPool ∧ PoolCovers mPool pool.2
            rw [hb]; exact h3 pool hp)
  · exact ⟨mDomain, by rw [hdomains, GoMap.get_put_other _ _ _ _ hk, h1], h2, h3⟩

/-- The addition pass keeps settled shadow metadata settled. -/
theorem processAdditions_settled (metaData : kvstore.Metadata) (node : types.ScaleIONode)
    (hwf : DeclaredMapsWellFormed node) (hfull : FullyDeclared node)
    (h : Settled metaData node) : Settled (processAdditions metaData node).1 node :=
  foldl_preserves (addDomain node.IPAddress) (fun s => Settled s.1 node) _
    (fun s x hx hs => addDomain_settled node s x
      (GoMap.get_of_mem_nodup _ _ _ hwf.1 hx) (hfull x hx).1 (hwf.2 x hx) (hfull x hx).2 hs)
    (metaData, false) h

/-- After the addition pass the shadow metadata covers the declaration. -/
theorem processAdditions_covers (metaData : kvstore.Metadata) (node : types.ScaleIONode) :
    Covers (processAdditions metaData node).1 node :=
  foldl_establishes (addDomain node.IPAddress)
    (fun domain s => ∃ mDomain, s.1.ProtectionDomains.get domain.1 = some mDomain ∧
      DomainCovers node.IPAddress mDomain domain.2) _
    (fun s x _ => addDomain_covers_self node.IPAddress s x)
    (fun s x y _ hy => addDomain_covers_mono node.IPAddress s x y hy) (metaData, false)

/-! ## What `processMetadata` leaves of the shadow metadata -/

theorem forall₂_mem_right {α β : Type} {R : α → β → Prop} {l : List α} {l' : List β}
    (h : List.Forall₂ R l l') : ∀ b ∈ l', ∃ a ∈ l, R a b := by
  induction h with
  | nil => intro b hb; simp at hb
  | cons hab _ ih =>
    intro b hb
    rcases List.mem_cons.mp hb with hb | hb
    · subst hb
      exact ⟨_, by simp, hab⟩
    · obtain ⟨a, ha, hr⟩ := ih b hb
      exact ⟨a, List.mem_cons_of_mem _ ha, hr⟩

theorem get_of_forall₂ {V W : Type} {R : String × V → String × W → Prop}
    (hkey : ∀ a b, R a b → a.1 = b.1) {m : GoMap V} {m' : GoMap W}
    (h : List.Forall₂ R m m') (k : String) (v : V) (hg : m.get k = some v) :
    ∃ w, m'.get k = some w ∧ R (k, v) (k, w) := by
  induction h with
  | nil => simp [GoMap.get] at hg
  | @cons a b l l' hab _ ih =>
    obtain ⟨ka, va⟩ := a
    obtain ⟨kb, vb⟩ := b
    have hk : ka = kb := hkey _ _ hab
    subst hk
    by_cases hka : ka = k
    · subst hka
      simp only [GoMap.get, if_true, Option.some.injEq] at hg
      subst hg
      exact ⟨vb, by simp [GoMap.get], hab⟩
    · simp only [GoMap.get, hka, if_false] at hg
      obtain ⟨w, hw, hr⟩ := ih hg
      exact ⟨w, by simp [GoMap.get, hka, hw], hr⟩

theorem confirmPool_alike (domain : String) (pool : kvstore.StoragePool) (c : ExtClient) :
    (confirmPool domain pool c).1.Delete = pool.Delete ∧
      (confirmPool domain pool c).1.Devices = pool.Devices := by
  unfold confirmPool
  constructor <;> (simp only []; split_ifs <;> (try split) <;> rfl)

theorem processPools_alike (scaleioSds : Option SdsHandle) (domain : String)
    (pools : GoMap kvstore.StoragePool) (c : ExtClient) :
    List.Forall₂ PoolAlike pools (processPools scaleioSds domain pools c).1 := by
  induction pools generalizing c with
  | nil => exact List.Forall₂.nil
  | cons e rest ih =>
    obtain ⟨keyP, pool⟩ := e
    have hhead : PoolAlike (keyP, pool) (keyP, (confirmPool domain pool c).1) :=
      ⟨rfl, (confirmPool_alike domain pool c).1.symm, (confirmPool_alike domain pool c).2.symm⟩
    have hrest : List.Forall₂ PoolAlike rest rest :=
      List.forall₂_same.mpr (fun x _ => ⟨rfl, rfl, rfl⟩)
    unfold processPools
    split
    · exact List.Forall₂.cons hhead hrest
    · split
      · exact List.Forall₂.cons hhead (ih _)
      · exact List.Forall₂.cons hhead hrest

theorem processSdss_alike (domain : String) (sdss : GoMap kvstore.Sds) (c : ExtClient) :
    List.Forall₂ SdsAlike sdss (processSdss domain sdss c).1 := by
  induction sdss generalizing c with
  | nil => exact List.Forall₂.nil
  | cons e rest ih =>
    obtain ⟨keyS, sds⟩ := e
    have hrest : List.Forall₂ SdsAlike rest rest := List.forall₂_same.mpr (fun x _ => rfl)
    unfold processSdss
    split
    · exact List.Forall₂.cons rfl hrest
    · exact List.Forall₂.cons rfl (ih _)

theorem processDomain_alike (keyD : String) (domain : kvstore.ProtectionDomain)
    (c : ExtClient) : DomainAlike (keyD, domain) (keyD, (processDomain domain c).1) := by
  have hsds : List.Forall₂ SdsAlike domain.Sdss domain.Sdss :=
    List.forall₂_same.mpr (fun x _ => rfl)
  have hpools : List.Forall₂ PoolAlike domain.Pools domain.Pools :=
    List.forall₂_same.mpr (fun x _ => ⟨rfl, rfl, rfl⟩)
  unfold processDomain
  split
  · exact ⟨rfl, rfl, hsds, hpools⟩
  · simp only []
    split
    · exact ⟨rfl, rfl, processSdss_alike _ _ _, hpools⟩
    · exact ⟨rfl, rfl, processSdss_alike _ _ _, processPools_alike _ _ _ _⟩

theorem domainAlike_self (domains : GoMap kvstore.ProtectionDomain) :
    List.Forall₂ DomainAlike domains domains :=
  List.forall₂_same.mpr (fun _ _ => ⟨rfl, rfl, List.forall₂_same.mpr (fun _ _ => rfl),
    List.forall₂_same.mpr (fun _ _ => ⟨rfl, rfl, rfl⟩)⟩)

theorem processDomains_alike (domains : GoMap kvstore.ProtectionDomain) (c : ExtClient) :
    List.Forall₂ DomainAlike domains (processDomains domains c).1 := by
  induction domains generalizing c with
  | nil => exact List.Forall₂.nil
  | cons e rest ih =>
    obtain ⟨keyD, domain⟩ := e
    unfold processDomains
    split
    · exact List.Forall₂.cons (processDomain_alike _ _ _) (ih _)
    · exact List.Forall₂.cons (processDomain_alike _ _ _) (domainAlike_self rest)

/-- `processMetadata` keeps the keys, the Delete flags and the devices of the
shadow metadata, however its calls end. -/
theorem processMetadata_alike (client : ExtClient) (metaData : kvstore.Metadata) :
    List.Forall₂ DomainAlike metaData.ProtectionDomains
      (processMetadata client metaData).1.ProtectionDomains := by
  unfold processMetadata
  split
  · exact processDomains_alike _ _
  · exact domainAlike_self _

theorem settled_of_alike (node : types.ScaleIONode) (a b : kvstore.Metadata)
    (hab : List.Forall₂ DomainAlike a.ProtectionDomains b.ProtectionDomains)
    (h : Settled a node) : Settled b node := by
  intro e he
  obtain ⟨d, hd, hkey, hdel, -, hpools⟩ := forall₂_mem_right hab e he
  obtain ⟨nDomain, h1, h2, h3, h4⟩ := h d hd
  refine ⟨nDomain, by rw [← hkey]; exact h1, h2, by rw [← hdel]; exact h3, ?_⟩
  intro p hp
  obtain ⟨q, hq, hqkey, hqdel, hqdev⟩ := forall₂_mem_right hpools p hp
  obtain ⟨nPool, g1, g2, g3, g4⟩ := h4 q hq
  exact ⟨nPool, by rw [← hqkey]; exact g1, g2, by rw [← hqdel]; exact g3,
    by rw [← hqdev]; exact g4⟩

theorem covers_of_alike (node : types.ScaleIONode) (a b : kvstore.Metadata)
    (hab : List.Forall₂ DomainAlike a.ProtectionDomains b.ProtectionDomains)
    (h : Covers a node) : Covers b node := by
  intro domain hd
  obtain ⟨mDomain, h1, h2, h3⟩ := h domain hd
  obtain ⟨w, hw, -, -, hsdss, hpools⟩ :=
    get_of_forall₂ (fun _ _ hr => hr.1) hab domain.1 mDomain h1
  refine ⟨w, hw, ?_, ?_⟩
  · obtain ⟨sds, hsds⟩ := Option.isSome_iff_exists.mp h2
    obtain ⟨sds', hsds', -⟩ := get_of_forall₂ (fun _ _ hr => hr) hsdss _ sds hsds
    simp [hsds']
  · intro pool hp
    obtain ⟨mPool, g1, g2⟩ := h3 pool hp
    obtain ⟨mPool', g1', -, -, hdev⟩ := get_of_forall₂ (fun _ _ hr => hr.1) hpools _ mPool g1
    refine ⟨mPool', g1', ?_⟩
    intro device hdevice
    simp only at hdev
    rw [← hdev]
    exact g2 device hdevice

/-! ## Splitting and joining on commas -/

theorem splitChars_commaFree (l : List Char) (h : ',' ∉ l) : splitChars l = [l] := by
  induction l with
  | nil => rfl
  | cons c cs ih =>
    have hc : c ≠ ',' := fun hc => h (by simp [hc])
    have hcs : ',' ∉ cs := fun hcs => h (List.mem_cons_of_mem _ hcs)
    simp [splitChars, hc, ih hcs]

theorem splitChars_append (l r : List Char) (h : ',' ∉ l) :
    splitChars (l ++ ',' :: r) = l :: splitChars r := by
  induction l with
  | nil => simp [splitChars]
  | cons c cs ih =>
    have hc : c ≠ ',' := fun hc => h (by simp [hc])
    have hcs : ',' ∉ cs := fun hcs => h (List.mem_cons_of_mem _ hcs)
    simp [splitChars, hc, ih hcs]

/-- Splitting the join of a non-empty list of comma-free strings gives the list. -/
theorem stringsSplit_stringsJoin (names : List String) (hne : names ≠ [])
    (h : ∀ name ∈ names, CommaFree name) : stringsSplit (stringsJoin names) = names := by
  induction names with
  | nil => exact absurd rfl hne
  | cons name rest ih =>
    have hname : ',' ∉ name.data := h name (by simp)
    cases rest with
    | nil => simp [stringsSplit, stringsJoin, splitChars_commaFree _ hname]
    | cons next rest =>
      have ih' := ih (by simp) (fun n hn => h n (List.mem_cons_of_mem _ hn))
      have hdata : (name ++ "," ++ stringsJoin (next :: rest)).data =
          name.data ++ ',' :: (stringsJoin (next :: rest)).data := by
        simp [String.data_append]
      simp only [stringsSplit] at ih'
      simp only [stringsSplit, stringsJoin, hdata, splitChars_append _ _ hname, List.map_cons,
        ih']

/-! ## Attribute lookups in a list without repeated keys -/

theorem getAttributeByKey_of_mem (attribs : List mesos.Attribute)
    (hnd : (attribs.map mesos.Attribute.Name).Nodup) (attrib : mesos.Attribute)
    (h : attrib ∈ attribs) : getAttributeByKey attribs attrib.Name = some attrib.Text := by
  induction attribs with
  | nil => simp at h
  | cons a rest ih =>
    simp only [List.map_cons, List.nodup_cons, List.mem_map, not_exists, not_and] at hnd
    rcases List.mem_cons.mp h with h | h
    · subst h
      simp [getAttributeByKey]
    · have hne : a.Name ≠ attrib.Name := fun heq => hnd.1 attrib h heq.symm
      simp only [getAttributeByKey, hne, if_false]
      exact ih hnd.2 h

theorem getAttributeByKey_of_not_mem (attribs : List mesos.Attribute) (key : String)
    (h : key ∉ attribs.map mesos.Attribute.Name) : getAttributeByKey attribs key = none := by
  induction attribs with
  | nil => rfl
  | cons a rest ih =>
    simp only [List.map_cons, List.mem_cons, not_or] at h
    have hne : a.Name ≠ key := fun heq => h.1 heq.symm
    simp only [getAttributeByKey, hne, if_false]
    exact ih h.2

/-! ## Decoding attributes that answer as the tree says -/

theorem GoMap.get_append_fresh {V : Type} (m : GoMap V) (k k' : String) (v : V)
    (h : m.get k = none) (hne : k' ≠ k) : GoMap.get (m ++ [(k', v)]) k = none := by
  induction m with
  | nil => simp [GoMap.get, hne]
  | cons e rest ih =>
    obtain ⟨k₀, v₀⟩ := e
    by_cases hk : k₀ = k
    · simp [GoMap.get, hk] at h
    · simp only [GoMap.get, hk, if_false] at h
      simp only [List.cons_append, GoMap.get, hk, if_false]
      exact ih h

theorem decodePool_fresh (attribs : List mesos.Attribute) (fix : String → String)
    (fsDomain : String) (nDomain : types.ProtectionDomain) (pool : TopoPool)
    (hfresh : nDomain.Pools.get pool.name = none)
    (hans : PoolAnswers attribs fix fsDomain pool)
    (hcomma : ∀ device ∈ pool.devices, CommaFree device) :
    decodePool attribs fix fsDomain nDomain pool.name =
      { nDomain with Pools := nDomain.Pools ++ [pool.declared] } := by
  unfold PoolAnswers at hans
  by_cases hdev : pool.devices = []
  · rw [if_pos hdev] at hans
    simp [decodePool, hfresh, hans.1, hans.2, GoMap.put_of_get_none _ _ _ hfresh,
      TopoPool.declared, hdev]
  · rw [if_neg hdev] at hans
    simp [decodePool, hfresh, hans, GoMap.put_of_get_none _ _ _ hfresh, TopoPool.declared, hdev,
      stringsSplit_stringsJoin _ hdev hcomma]

theorem decodePools_fold (attribs : List mesos.Attribute) (fix : String → String)
    (fsDomain : String) (pools : List TopoPool)
    (hans : ∀ pool ∈ pools, PoolAnswers attribs fix fsDomain pool)
    (hcomma : ∀ pool ∈ pools, ∀ device ∈ pool.devices, CommaFree device)
    (hnd : (pools.map TopoPool.name).Nodup) (nDomain : types.ProtectionDomain)
    (hfresh : ∀ pool ∈ pools, nDomain.Pools.get pool.name = none) :
    (pools.map TopoPool.name).foldl (decodePool attribs fix fsDomain) nDomain =
      { nDomain with Pools := nDomain.Pools ++ pools.map TopoPool.declared } := by
  induction pools generalizing nDomain with
  | nil => simp
  | cons pool rest ih =>
    simp only [List.map_cons, List.nodup_cons, List.mem_map, not_exists, not_and] at hnd
    rw [List.map_cons, List.foldl_cons,
      decodePool_fresh attribs fix fsDomain nDomain pool (hfresh pool (by simp))
        (hans pool (by simp)) (hcomma pool (by simp))]
    rw [ih (fun p hp => hans p (List.mem_cons_of_mem _ hp))
      (fun p hp => hcomma p (List.mem_cons_of_mem _ hp)) hnd.2]
    · simp [List.append_assoc]
    · intro p hp
      exact GoMap.get_append_fresh _ _ _ _ (hfresh p (List.mem_cons_of_mem _ hp))
        (fun heq => hnd.1 p hp heq.symm)

theorem decodeFaultSet_fresh (attribs : List mesos.Attribute) (fix : String → String)
    (fsDomain : String) (nDomain : types.ProtectionDomain) (faultSet : TopoFaultSet)
    (hfresh : nDomain.FaultSets.get faultSet.name = none)
    (hans : FaultSetAnswers attribs fix fsDomain faultSet)
    (hcomma : ∀ ip ∈ faultSet.sdsIps, CommaFree ip) :
    decodeFaultSet attribs fix fsDomain nDomain faultSet.name =
      { nDomain with FaultSets := nDomain.FaultSets ++ [faultSet.declared] } := by
  unfold FaultSetAnswers at hans
  by_cases hips : faultSet.sdsIps = []
  · rw [if_pos hips] at hans
    simp [decodeFaultSet, hfresh, hans, GoMap.put_of_get_none _ _ _ hfresh,
      TopoFaultSet.declared, hips]
  · rw [if_neg hips] at hans
    simp [decodeFaultSet, hfresh, hans, GoMap.put_of_get_none _ _ _ hfresh,
      TopoFaultSet.declared, stringsSplit_stringsJoin _ hips hcomma]

theorem decodeFaultSets_fold (attribs : List mesos.Attribute) (fix : String → String)
    (fsDomain : String) (faultSets : List TopoFaultSet)
    (hans : ∀ faultSet ∈ faultSets, FaultSetAnswers attribs fix fsDomain faultSet)
    (hcomma : ∀ faultSet ∈ faultSets, ∀ ip ∈ faultSet.sdsIps, CommaFree ip)
    (hnd : (faultSets.map TopoFaultSet.name).Nodup) (nDomain : types.ProtectionDomain)
    (hfresh : ∀ faultSet ∈ faultSets, nDomain.FaultSets.get faultSet.name = none) :
    (faultSets.map TopoFaultSet.name).foldl (decodeFaultSet attribs fix fsDomain) nDomain =
      { nDomain with FaultSets := nDomain.FaultSets ++ faultSets.map TopoFaultSet.declared } := by
  induction faultSets generalizing nDomain with
  | nil => simp
  | cons faultSet rest ih =>
    simp only [List.map_cons, List.nodup_cons, List.mem_map, not_exists, not_and] at hnd
    rw [List.map_cons, List.foldl_cons,
      decodeFaultSet_fresh attribs fix fsDomain nDomain faultSet (hfresh faultSet (by simp))
        (hans faultSet (by simp)) (hcomma faultSet (by simp))]
    rw [ih (fun f hf => hans f (List.mem_cons_of_mem _ hf))
      (fun f hf => hcomma f (List.mem_cons_of_mem _ hf)) hnd.2]
    · simp [List.append_assoc]
    · intro f hf
      exact GoMap.get_append_fresh _ _ _ _ (hfresh f (List.mem_cons_of_mem _ hf))
        (fun heq => hnd.1 f hf heq.symm)

theorem decodeDomain_fresh (attribs : List mesos.Attribute) (fix : String → String)
    (node : types.ScaleIONode) (domain : TopoDomain)
    (hfresh : node.ProvidesDomains.get domain.name = none)
    (hans : DomainAnswers attribs fix domain)
    (hcomma : TreeCommaFree [domain]) (hunique : TreeNamesUnique [domain]) :
    decodeDomain attribs fix node domain.name =
      { node with ProvidesDomains := node.ProvidesDomains ++ [domain.declared] } := by
  obtain ⟨hfs, hpools, hfsans, hpoolans⟩ := hans
  obtain ⟨-, hcpools, hcfs⟩ := hcomma domain (by simp)
  obtain ⟨hndp, hndf⟩ := hunique.2 domain (by simp)
  have hfsfold := decodeFaultSets_fold attribs fix domain.name domain.faultSets hfsans
    (fun f hf => (hcfs f hf).2) hndf ⟨domain.name, [], [], []⟩ (fun _ _ => rfl)
  have hwithFs :
      (match getAttributeByKey attribs (fix (domain.name ++ "-faultsets")) with
        | none => (⟨domain.name, [], [], []⟩ : types.ProtectionDomain)
        | some fsStr =>
          (stringsSplit fsStr).foldl (decodeFaultSet attribs fix domain.name)
            ⟨domain.name, [], [], []⟩) =
      ⟨domain.name, [], [], domain.faultSets.map TopoFaultSet.declared⟩ := by
    rw [hfs]
    by_cases h : domain.faultSets = []
    · simp [h]
    · rw [if_neg h]
      simp only []
      rw [stringsSplit_stringsJoin _ (by simpa using h)
        (by intro n hn
            obtain ⟨f, hf, rfl⟩ := List.mem_map.mp hn
            exact (hcfs f hf).1), hfsfold]
      simp
  have hpoolfold := decodePools_fold attribs fix domain.name domain.pools hpoolans
    (fun p hp => (hcpools p hp).2) hndp
    ⟨domain.name, [], [], domain.faultSets.map TopoFaultSet.declared⟩ (fun _ _ => rfl)
  have hwithPools :
      (match getAttributeByKey attribs (fix domain.name) with
        | none =>
          (⟨domain.name, [], [], domain.faultSets.map TopoFaultSet.declared⟩ :
            types.ProtectionDomain)
        | some poolsStr =>
          (stringsSplit poolsStr).foldl (decodePool attribs fix domain.name)
            ⟨domain.name, [], [], domain.faultSets.map TopoFaultSet.declared⟩) =
      domain.declared.2 := by
    rw [hpools]
    by_cases h : domain.pools = []
    · simp [h, TopoDomain.declared]
    · rw [if_neg h]
      simp only []
      rw [stringsSplit_stringsJoin _ (by simpa using h)
        (by intro n hn
            obtain ⟨p, hp, rfl⟩ := List.mem_map.mp hn
            exact (hcpools p hp).1), hpoolfold]
      simp [TopoDomain.declared]
  simp only [decodeDomain, hfresh, hwithFs, hwithPools, GoMap.put_of_get_none _ _ _ hfresh]
  rfl

theorem decodeDomains_fold (attribs : List mesos.Attribute) (fix : String → String)
    (tree : List TopoDomain) (hans : ∀ domain ∈ tree, DomainAnswers attribs fix domain)
    (hcomma : TreeCommaFree tree) (hunique : TreeNamesUnique tree) (node : types.ScaleIONode)
    (hfresh : ∀ domain ∈ tree, node.ProvidesDomains.get domain.name = none) :
    (tree.map TopoDomain.name).foldl (decodeDomain attribs fix) node =
      { node with ProvidesDomains := node.ProvidesDomains ++ declaredTopology tree } := by
  induction tree generalizing node with
  | nil => simp [declaredTopology]
  | cons domain rest ih =>
    have hnd := hunique.1
    simp only [List.map_cons, List.nodup_cons, List.mem_map, not_exists, not_and] at hnd
    rw [List.map_cons, List.foldl_cons,
      decodeDomain_fresh attribs fix node domain (hfresh domain (by simp)) (hans domain (by simp))
        (fun d hd => hcomma d (by simp at hd; simp [hd]))
        ⟨by simp, fun d hd => hunique.2 d (by simp at hd; simp [hd])⟩]
    rw [ih (fun d hd => hans d (List.mem_cons_of_mem _ hd))
      (fun d hd => hcomma d (List.mem_cons_of_mem _ hd))
      ⟨hnd.2, fun d hd => hunique.2 d (List.mem_cons_of_mem _ hd)⟩]
    · simp [declaredTopology, List.append_assoc]
    · intro d hd
      exact GoMap.get_append_fresh _ _ _ _ (hfresh d (List.mem_cons_of_mem _ hd))
        (fun heq => hnd.1 d hd heq.symm)

/-! ## The encoding answers the decoder's lookups -/

theorem appendServerPrefix_of_free (key : String)
    (h : stringsContains key "scaleio-sds-" = false) :
    appendServerPrefix key = "scaleio-sds-" ++ key := by
  simp [appendServerPrefix, h]

theorem mem_encodeTopology (tree : List TopoDomain) (domain : TopoDomain) (hd : domain ∈ tree)
    (attrib : mesos.Attribute) (ha : attrib ∈ encodeDomain domain) :
    attrib ∈ encodeTopology tree := by
  simp only [encodeTopology, List.mem_append, List.mem_flatMap]
  exact Or.inr ⟨domain, hd, ha⟩

theorem mem_vacantKeys (tree : List TopoDomain) (domain : TopoDomain) (hd : domain ∈ tree)
    (key : String)
    (hk : key ∈ (if domain.pools = [] then ["scaleio-sds-" ++ domain.name] else []) ++
      (if domain.faultSets = [] then ["scaleio-sds-" ++ (domain.name ++ "-faultsets")] else []) ++
      domain.faultSets.flatMap (fun faultSet =>
        if faultSet.sdsIps = [] then ["scaleio-sds-" ++ (domain.name ++ "-" ++ faultSet.name)]
        else []) ++
      domain.pools.flatMap (fun pool =>
        if pool.devices = [] then
          ["scaleio-sds-" ++ (domain.name ++ "-" ++ pool.name), "scaleio-sds-" ++ pool.name]
        else [])) :
    key ∈ vacantKeys tree := by
  simp only [vacantKeys, List.mem_flatMap]
  exact ⟨domain, hd, hk⟩

theorem mem_lookupSuffixes (tree : List TopoDomain) (domain : TopoDomain) (hd : domain ∈ tree)
    (suffix : String)
    (hs : suffix ∈ [domain.name ++ "-faultsets", domain.name] ++
      domain.faultSets.map (fun faultSet => domain.name ++ "-" ++ faultSet.name) ++
      domain.pools.flatMap (fun pool => [domain.name ++ "-" ++ pool.name, pool.name])) :
    suffix ∈ lookupSuffixes tree := by
  simp only [lookupSuffixes, List.mem_flatMap]
  exact ⟨domain, hd, hs⟩

/-- For a tree whose encoding has distinct keys, none of them vacant, and whose
key suffixes are free of the role prefix, the encoding answers every lookup of
the decoder as the tree says. -/
theorem encodeTopology_answers (tree : List TopoDomain) (hdist : TreeKeysDistinct tree)
    (hfree : TreePrefixFree tree) :
    ∀ domain ∈ tree, DomainAnswers (encodeTopology tree) appendServerPrefix domain := by
  intro domain hd
  have hpresent : ∀ key text, (⟨key, text⟩ : mesos.Attribute) ∈ encodeDomain domain →
      getAttributeByKey (encodeTopology tree) key = some text := fun key text ha =>
    getAttributeByKey_of_mem _ hdist.1 ⟨key, text⟩ (mem_encodeTopology tree domain hd _ ha)
  have habsent : ∀ key, key ∈ vacantKeys tree →
      getAttributeByKey (encodeTopology tree) key = none := fun key hk =>
    getAttributeByKey_of_not_mem _ key (hdist.2 key hk)
  have hfix : ∀ suffix, suffix ∈ [domain.name ++ "-faultsets", domain.name] ++
      domain.faultSets.map (fun faultSet => domain.name ++ "-" ++ faultSet.name) ++
      domain.pools.flatMap (fun pool => [domain.name ++ "-" ++ pool.name, pool.name]) →
      appendServerPrefix suffix = "scaleio-sds-" ++ suffix := fun suffix hs =>
    appendServerPrefix_of_free suffix (hfree suffix (mem_lookupSuffixes tree domain hd suffix hs))
  refine ⟨?_, ?_, ?_, ?_⟩
  · rw [hfix _ (by simp)]
    by_cases h : domain.faultSets = []
    · rw [if_pos h]
      exact habsent _ (mem_vacantKeys tree domain hd _ (by simp [h]))
    · rw [if_neg h]
      exact hpresent _ _ (by simp [encodeDomain, h])
  · rw [hfix _ (by simp)]
    by_cases h : domain.pools = []
    · rw [if_pos h]
      exact habsent _ (mem_vacantKeys tree domain hd _ (by simp [h]))
    · rw [if_neg h]
      exact hpresent _ _ (by simp [encodeDomain, h])
  · intro faultSet hf
    unfold FaultSetAnswers
    rw [hfix _ (by simp only [List.mem_append, List.mem_map]; exact Or.inl (Or.inr ⟨faultSet, hf, rfl⟩))]
    by_cases h : faultSet.sdsIps = []
    · rw [if_pos h]
      refine habsent _ (mem_vacantKeys tree domain hd _ ?_)
      simp only [List.mem_append, List.mem_flatMap]
      exact Or.inl (Or.inr ⟨faultSet, hf, by simp [h]⟩)
    · rw [if_neg h]
      refine hpresent _ _ ?_
      simp only [encodeDomain, List.mem_append, List.mem_flatMap]
      exact Or.inl (Or.inr ⟨faultSet, hf, by simp [encodeFaultSet, h]⟩)
  · intro pool hp
    unfold PoolAnswers
    have hsuffix : ∀ suffix ∈ [domain.name ++ "-" ++ pool.name, pool.name],
        appendServerPrefix suffix = "scaleio-sds-" ++ suffix := by
      intro suffix hs
      refine hfix suffix ?_
      simp only [List.mem_append, List.mem_flatMap]
      exact Or.inr ⟨pool, hp, hs⟩
    rw [hsuffix _ (by simp), hsuffix pool.name (by simp)]
    by_cases h : pool.devices = []
    · rw [if_pos h]
      have hvac : ∀ key ∈ ["scaleio-sds-" ++ (domain.name ++ "-" ++ pool.name),
          "scaleio-sds-" ++ pool.name], key ∈ vacantKeys tree := by
        intro key hk
        refine mem_vacantKeys tree domain hd key ?_
        simp only [List.mem_append, List.mem_flatMap]
        exact Or.inr ⟨pool, hp, by rw [if_pos h]; exact hk⟩
      exact ⟨habsent _ (hvac _ (by simp)), habsent _ (hvac _ (by simp))⟩
    · rw [if_neg h]
      refine hpresent _ _ ?_
      simp only [encodeDomain, List.mem_append, List.mem_flatMap]
      exact Or.inr ⟨pool, hp, by simp [encodePool, h]⟩

/-! ## C7: the decoding round trip -/

theorem encodedKeys_server (tree : List TopoDomain) :
    ∀ key ∈ encodedKeys tree, ∃ suffix, key = "scaleio-sds-" ++ suffix := by
  intro key hk
  obtain ⟨attrib, ha, rfl⟩ := List.mem_map.mp hk
  simp only [encodeTopology, List.mem_append, List.mem_flatMap] at ha
  rcases ha with h | ⟨domain, -, h⟩
  · split_ifs at h
    · simp at h
    · simp only [List.mem_singleton] at h
      exact ⟨"domains", by rw [h]; rfl⟩
  · simp only [encodeDomain, List.mem_append, List.mem_flatMap] at h
    rcases h with ((h | h) | ⟨faultSet, -, h⟩) | ⟨pool, -, h⟩
    · split_ifs at h
      · simp at h
      · simp only [List.mem_singleton] at h
        exact ⟨_, by rw [h]⟩
    · split_ifs at h
      · simp at h
      · simp only [List.mem_singleton] at h
        exact ⟨_, by rw [h]⟩
    · unfold encodeFaultSet at h
      split_ifs at h
      · simp at h
      · simp only [List.mem_singleton] at h
        exact ⟨_, by rw [h]⟩
    · unfold encodePool at h
      split_ifs at h
      · simp at h
      · simp only [List.mem_singleton] at h
        exact ⟨_, by rw [h]⟩

theorem client_key_not_encoded (tree : List TopoDomain) :
    "scaleio-sdc-domains" ∉ encodedKeys tree := by
  intro h
  obtain ⟨suffix, hs⟩ := encodedKeys_server tree _ h
  have hdata := congrArg String.data hs
  simp [String.data_append] at hdata

/-- C7 as stated fails: the tree with the domain `d1`, whose pool `x` holds
`/dev/sdb` and whose fault set `x` holds 10.0.0.1, has comma-free names that
are unique within their parent, yet the pool and the fault set share the
attribute key `scaleio-sds-d1-x`, and decoding the encoding gives the pool `x`
the device list `[10.0.0.1]`. -/
theorem round_trip_counterexample :
    TreeCommaFree treeSharedName ∧ TreeNamesUnique treeSharedName ∧
    (prepareScaleIONode storeHostA
        { offerHostA with Attributes := encodeTopology treeSharedName }).toOption.map
      (fun node => node.ProvidesDomains) =
    some [("d1", ⟨"d1", [], [("x", ⟨"x", some ["10.0.0.1"], []⟩)],
      [("x", ⟨"x", ["10.0.0.1"]⟩)]⟩)] ∧
    declaredTopology treeSharedName =
      [("d1", ⟨"d1", [], [("x", ⟨"x", some ["/dev/sdb"], []⟩)], [("x", ⟨"x", ["10.0.0.1"]⟩)]⟩)] := by
  decide

/-- C7, amended: for every topology tree whose names, device paths and member
addresses are free of commas, whose names are unique within their parent,
whose key suffixes do not contain the role prefix `scaleio-sds-`, and whose
encoding in the key scheme writes no attribute key twice and no key that the
decoder looks up for absent data, `prepareScaleIONode` on an offer carrying
the encoding (the hostname having persisted node info) returns a node whose
provided topology is the original tree. -/
theorem prepareScaleIONode_round_trip (store : kvstore.KvStore) (offer : mesos.Offer)
    (info : kvstore.NodeInfo) (tree : List TopoDomain)
    (hinfo : store.GetNodeInfo offer.Hostname = .ok info)
    (hattrs : offer.Attributes = encodeTopology tree)
    (hcomma : TreeCommaFree tree) (hunique : TreeNamesUnique tree)
    (hfree : TreePrefixFree tree) (hdist : TreeKeysDistinct tree) :
    ∃ node, prepareScaleIONode store offer = .ok node ∧
      node.ProvidesDomains = declaredTopology tree := by
  have hclient : ∀ node : types.ScaleIONode,
      decodeRole (encodeTopology tree) "scaleio-sdc-domains" appendClientPrefix node = node := by
    intro node
    simp [decodeRole, getAttributeByKey_of_not_mem _ _ (client_key_not_encoded tree)]
  simp only [prepareScaleIONode, hinfo, hattrs, hclient]
  refine ⟨_, rfl, ?_⟩
  by_cases htree : tree = []
  · subst htree
    rfl
  · have hlookup : getAttributeByKey (encodeTopology tree) "scaleio-sds-domains" =
        some (stringsJoin (tree.map TopoDomain.name)) := by
      simp [encodeTopology, htree, getAttributeByKey]
    have hnames : stringsSplit (stringsJoin (tree.map TopoDomain.name)) =
        tree.map TopoDomain.name :=
      stringsSplit_stringsJoin _ (by simpa using htree)
        (by intro n hn
            obtain ⟨d, hd, rfl⟩ := List.mem_map.mp hn
            exact (hcomma d hd).1)
    simp only [decodeRole, hlookup, hnames]
    rw [decodeDomains_fold _ _ tree (encodeTopology_answers tree hdist hfree) hcomma hunique]
    · simp
    · intro _ _
      rfl

/-- Witness of the amended C7: the tree of the comment of selection.go 30-39,
offered by `host-a`. -/
theorem prepareScaleIONode_round_trip_witness :
    ∃ node,
      prepareScaleIONode storeHostA
        { offerHostA with Attributes := encodeTopology treeOfScheme } = .ok node ∧
      node.ProvidesDomains = declaredTopology treeOfScheme :=
  prepareScaleIONode_round_trip storeHostA
    { offerHostA with Attributes := encodeTopology treeOfScheme }
    { Persona := types.PersonaNode, State := types.StateUnknown } treeOfScheme rfl rfl
    (by decide) (by decide) (by decide) (by decide)

/-! ## C11: offers without a domain list -/

theorem decodeRole_of_absent (attribs : List mesos.Attribute) (key : String)
    (fix : String → String) (node : types.ScaleIONode)
    (h : ∀ attrib ∈ attribs, attrib.Name ≠ key) : decodeRole attribs key fix node = node := by
  have hnone : getAttributeByKey attribs key = none :=
    getAttributeByKey_of_not_mem attribs key (by
      intro hmem
      obtain ⟨attrib, ha, hname⟩ := List.mem_map.mp hmem
      exact h attrib ha hname)
  simp [decodeRole, hnone]

/-- C11: for every offer whose hostname has persisted node info and whose
attributes contain neither `scaleio-sds-domains` nor `scaleio-sdc-domains`,
whatever else it carries, `prepareScaleIONode` returns no error and a node with
`Declarative = false`, `Advertised = false`, no provided and no consumed
domain, carrying the persisted role and phase; and for every offer,
`prepareScaleIONode` returns an error only when the store has no node info for
the hostname, so never because an attribute is missing. -/
theorem prepareScaleIONode_without_domain_lists (store : kvstore.KvStore)
    (offer : mesos.Offer) :
    (∀ info, store.Nodes.get offer.Hostname = some info →
      (∀ attrib ∈ offer.Attributes,
        attrib.Name ≠ "scaleio-sds-domains" ∧ attrib.Name ≠ "scaleio-sdc-domains") →
      ∃ node, prepareScaleIONode store offer = .ok node ∧ node.Declarative = false ∧
        node.Advertised = false ∧ node.ProvidesDomains = [] ∧ node.ConsumesDomains = [] ∧
        node.Hostname = offer.Hostname ∧ node.Persona = info.Persona ∧
        node.State = info.State) ∧
    (∀ info, store.Nodes.get offer.Hostname = some info →
      ∃ node, prepareScaleIONode store offer = .ok node) ∧
    (∀ err, prepareScaleIONode store offer = .error err →
      store.Nodes.get offer.Hostname = none) := by
  refine ⟨?_, ?_, ?_⟩
  · intro info hinfo habsent
    simp only [prepareScaleIONode, kvstore.KvStore.GetNodeInfo, hinfo]
    rw [decodeRole_of_absent _ "scaleio-sds-domains" _ _ (fun a ha => (habsent a ha).1),
      decodeRole_of_absent _ "scaleio-sdc-domains" _ _ (fun a ha => (habsent a ha).2)]
    exact ⟨_, rfl, rfl, rfl, rfl, rfl, rfl, rfl, rfl⟩
  · intro info hinfo
    simp only [prepareScaleIONode, kvstore.KvStore.GetNodeInfo, hinfo]
    exact ⟨_, rfl⟩
  · intro err herr
    cases hget : store.Nodes.get offer.Hostname with
    | none => rfl
    | some info => simp [prepareScaleIONode, kvstore.KvStore.GetNodeInfo, hget] at herr

/-- Witness of C11: the offer of `host-a` carrying only a `rack` attribute,
against a store that holds a record for `host-a`. -/
theorem prepareScaleIONode_without_domain_lists_witness :
    ∃ node,
      prepareScaleIONode storeHostA
        { offerHostA with Attributes := [{ Name := "rack", Text := "r1" }] } = .ok node ∧
      node.Declarative = false ∧ node.Advertised = false ∧ node.ProvidesDomains = [] ∧
      node.ConsumesDomains = [] ∧ node.Hostname = "host-a" ∧
      node.Persona = types.PersonaNode ∧ node.State = types.StateUnknown :=
  (prepareScaleIONode_without_domain_lists storeHostA
    { offerHostA with Attributes := [{ Name := "rack", Text := "r1" }] }).1
    { Persona := types.PersonaNode, State := types.StateUnknown } rfl (by decide)

/-! ## C15: registering a hostname twice -/

theorem decodeRole_hostname (attribs : List mesos.Attribute) (key : String)
    (fix : String → String) (node : types.ScaleIONode) :
    (decodeRole attribs key fix node).Hostname = node.Hostname := by
  unfold decodeRole
  split
  · rfl
  · exact foldl_preserves (decodeDomain attribs fix) (fun n => n.Hostname = node.Hostname) _
      (fun _ _ _ hs => hs) _ rfl

theorem prepareScaleIONode_hostname (store : kvstore.KvStore) (offer : mesos.Offer)
    (node : types.ScaleIONode) (h : prepareScaleIONode store offer = .ok node) :
    node.Hostname = offer.Hostname := by
  unfold prepareScaleIONode at h
  split at h
  · cases h
  · simp only [Except.ok.injEq] at h
    rw [← h, decodeRole_hostname, decodeRole_hostname]

theorem find_eq_none_iff (nodes : List types.ScaleIONode) (hostname : String) :
    FindScaleIONodeByHostname nodes hostname = none ↔
      hostname ∉ nodes.map (fun node => node.Hostname) := by
  simp only [FindScaleIONodeByHostname, List.find?_eq_none, List.mem_map, not_exists, not_and,
    beq_iff_eq, Bool.not_eq_true, beq_eq_false_iff_ne, ne_eq]

/-- C15: for every cluster state and every offer whose hostname is already
registered, `addScaleIONode` returns an error and leaves the scheduler, its
node list included, as it was; and for every offer, if the hostnames of the
node list are pairwise distinct before `addScaleIONode`, they are pairwise
distinct after it. -/
theorem addScaleIONode_keeps_hostnames_distinct (s : ScaleIOScheduler)
    (offer : mesos.Offer) :
    (offer.Hostname ∈ s.Nodes.map (fun node => node.Hostname) →
      addScaleIONode s offer = (s, some GoError.ErrNodeNotFound)) ∧
    ((s.Nodes.map (fun node => node.Hostname)).Nodup →
      ((addScaleIONode s offer).1.Nodes.map (fun node => node.Hostname)).Nodup) := by
  constructor
  · intro hmem
    cases hfind : FindScaleIONodeByHostname s.Nodes offer.Hostname with
    | none => exact absurd hmem ((find_eq_none_iff _ _).mp hfind)
    | some node => simp [addScaleIONode, hfind]
  · intro hnd
    cases hfind : FindScaleIONodeByHostname s.Nodes offer.Hostname with
    | some node => simpa [addScaleIONode, hfind] using hnd
    | none =>
      cases hprep : prepareScaleIONode s.Store offer with
      | error err => simpa [addScaleIONode, hfind, hprep] using hnd
      | ok node =>
        have hhost := prepareScaleIONode_hostname _ _ _ hprep
        have hfresh := (find_eq_none_iff _ _).mp hfind
        simp only [addScaleIONode, hfind, hprep, List.map_append, List.map_cons, List.map_nil]
        rw [hhost]
        exact List.Nodup.append hnd (List.nodup_singleton _)
          (by simpa [List.Disjoint] using hfresh)

/-- Witness of C15: `host-a` is registered; offering `host-a` again is
rejected and the node list stays as it was. -/
theorem addScaleIONode_keeps_hostnames_distinct_witness :
    addScaleIONode { Config := configOf 1 1, Store := storeHostA, Nodes := [nodeHostA []] }
        offerHostA =
      ({ Config := configOf 1 1, Store := storeHostA, Nodes := [nodeHostA []] },
        some GoError.ErrNodeNotFound) :=
  (addScaleIONode_keeps_hostnames_distinct
    { Config := configOf 1 1, Store := storeHostA, Nodes := [nodeHostA []] } offerHostA).1
    (by decide)

/-! ## C12: a role that cannot be selected -/

theorem getManuallyConfigNode_eq_none (personaIDToString : Int → String)
    (offers : List mesos.Offer) (mdmType : Int)
    (h : ∀ offer ∈ offers, ¬ CarriesPersona personaIDToString mdmType offer) :
    getManuallyConfigNode personaIDToString offers mdmType = none := by
  simp only [getManuallyConfigNode, List.find?_eq_none, List.any_eq_true, Bool.and_eq_true,
    beq_iff_eq, not_exists, not_and]
  intro offer ho attrib ha hname htext
  exact h offer ho ⟨attrib, ha, hname, htext⟩

theorem selectAnMdmNode_fails (personaIDToString : Int → String) (s : ScaleIOScheduler)
    (offers : List mesos.Offer) (nodeID : String) (mdmType : Int)
    (h : SelectionFails personaIDToString s offers nodeID mdmType) :
    selectAnMdmNode personaIDToString s offers nodeID mdmType =
      (s, some GoError.ErrMdmSelectionFailed) := by
  obtain ⟨⟨hfind, hget⟩, hmanual, hbest⟩ := h
  simp [selectAnMdmNode, hfind, kvstore.KvStore.GetNodeInfo, hget,
    getManuallyConfigNode_eq_none _ _ _ hmanual, hbest]

/-- C12: when the role's hostname is neither registered nor persisted, no
offer carries a matching `scaleio-persona` attribute and best-fit selection
finds no offer, `selectAnMdmNode` returns `ErrMdmSelectionFailed` and leaves
the scheduler (store and node list) as it was; `performNodeSelection` then
returns that error with the scheduler exactly as the roles resolved earlier in
the pass left it: unchanged when the primary role fails, as the primary
selection left it when the secondary role fails, as the secondary selection
left it when the tiebreaker role fails; no data node is registered. -/
theorem performNodeSelection_selection_failure (personaIDToString : Int → String)
    (s : ScaleIOScheduler) (offers : List mesos.Offer) :
    (∀ nodeID mdmType, SelectionFails personaIDToString s offers nodeID mdmType →
      selectAnMdmNode personaIDToString s offers nodeID mdmType =
        (s, some GoError.ErrMdmSelectionFailed)) ∧
    (NoStaticManagers s.Config →
      SelectionFails personaIDToString s offers s.Store.GetMdmNodes.1 types.PersonaMdmPrimary →
      performNodeSelection personaIDToString s offers =
        (s, some GoError.ErrMdmSelectionFailed)) ∧
    (NoStaticManagers s.Config →
      (selectAnMdmNode personaIDToString s offers s.Store.GetMdmNodes.1
        types.PersonaMdmPrimary).2 = none →
      SelectionFails personaIDToString
        (selectAnMdmNode personaIDToString s offers s.Store.GetMdmNodes.1
          types.PersonaMdmPrimary).1 offers s.Store.GetMdmNodes.2.1 types.PersonaMdmSecondary →
      performNodeSelection personaIDToString s offers =
        ((selectAnMdmNode personaIDToString s offers s.Store.GetMdmNodes.1
          types.PersonaMdmPrimary).1, some GoError.ErrMdmSelectionFailed)) ∧
    (NoStaticManagers s.Config →
      (selectAnMdmNode personaIDToString s offers s.Store.GetMdmNodes.1
        types.PersonaMdmPrimary).2 = none →
      (selectAnMdmNode personaIDToString
        (selectAnMdmNode personaIDToString s offers s.Store.GetMdmNodes.1
          types.PersonaMdmPrimary).1 offers s.Store.GetMdmNodes.2.1
        types.PersonaMdmSecondary).2 = none →
      SelectionFails personaIDToString
        (selectAnMdmNode personaIDToString
          (selectAnMdmNode personaIDToString s offers s.Store.GetMdmNodes.1
            types.PersonaMdmPrimary).1 offers s.Store.GetMdmNodes.2.1
          types.PersonaMdmSecondary).1 offers s.Store.GetMdmNodes.2.2 types.PersonaTb →
      performNodeSelection personaIDToString s offers =
        ((selectAnMdmNode personaIDToString
          (selectAnMdmNode personaIDToString s offers s.Store.GetMdmNodes.1
            types.PersonaMdmPrimary).1 offers s.Store.GetMdmNodes.2.1
          types.PersonaMdmSecondary).1, some GoError.ErrMdmSelectionFailed)) := by
  refine ⟨fun nodeID mdmType h => selectAnMdmNode_fails _ _ _ _ _ h, ?_, ?_, ?_⟩
  · intro hcfg hfail
    have hpri := selectAnMdmNode_fails _ _ _ _ _ hfail
    have hcfg' : s.Config.PrimaryMdmAddress = "" ∧ s.Config.SecondaryMdmAddress = "" ∧
        s.Config.TieBreakerMdmAddress = "" := hcfg
    simp only [performNodeSelection, selectMdmNodes, if_pos hcfg', hpri]
  · intro hcfg hpri hfail
    have hsec := selectAnMdmNode_fails _ _ _ _ _ hfail
    have hcfg' : s.Config.PrimaryMdmAddress = "" ∧ s.Config.SecondaryMdmAddress = "" ∧
        s.Config.TieBreakerMdmAddress = "" := hcfg
    simp only [performNodeSelection, selectMdmNodes, if_pos hcfg', hpri, hsec]
  · intro hcfg hpri hsec hfail
    have htb := selectAnMdmNode_fails _ _ _ _ _ hfail
    have hcfg' : s.Config.PrimaryMdmAddress = "" ∧ s.Config.SecondaryMdmAddress = "" ∧
        s.Config.TieBreakerMdmAddress = "" := hcfg
    simp only [performNodeSelection, selectMdmNodes, if_pos hcfg', hpri, hsec, htb]

/-- Witness of C12: from an empty store and no registered node, the single
offer of `host-a` resolves the primary role; the secondary role then finds no
offer, and the pass returns `ErrMdmSelectionFailed` with `host-a` persisted
and registered as primary and no data node registered. -/
theorem performNodeSelection_selection_failure_witness :
    (performNodeSelection personaName freshScheduler [offerOf "host-a" 4 8 []]).2 =
      some GoError.ErrMdmSelectionFailed ∧
    (performNodeSelection personaName freshScheduler [offerOf "host-a" 4 8 []]).1.Store.Nodes =
      [("host-a", { Persona := types.PersonaMdmPrimary, State := types.StateUnknown })] ∧
    (performNodeSelection personaName freshScheduler [offerOf "host-a" 4 8 []]).1.Nodes.map
      (fun node => (node.Hostname, node.Persona)) = [("host-a", types.PersonaMdmPrimary)] := by
  have h := (performNodeSelection_selection_failure personaName freshScheduler
    [offerOf "host-a" 4 8 []]).2.2.1 ⟨rfl, rfl, rfl⟩ (by decide!)
    ⟨⟨by decide!, by decide!⟩,
      by
        intro offer ho hcarries
        obtain ⟨attrib, ha, -⟩ := hcarries
        simp only [List.mem_singleton] at ho
        subst ho
        simp [offerOf] at ha,
      by decide!⟩
  rw [h]
  decide!

/-! ## C13: the manual override of a host that holds a role -/

theorem decodeRole_identity (attribs : List mesos.Attribute) (key : String)
    (fix : String → String) (node : types.ScaleIONode) :
    (decodeRole attribs key fix node).Persona = node.Persona ∧
      (decodeRole attribs key fix node).State = node.State := by
  unfold decodeRole
  split
  · exact ⟨rfl, rfl⟩
  · exact foldl_preserves (decodeDomain attribs fix)
      (fun n => n.Persona = node.Persona ∧ n.State = node.State) _ (fun _ _ _ hs => hs) _
      ⟨rfl, rfl⟩

/-- With node info persisted for the hostname, `prepareScaleIONode` returns a
node of that hostname carrying the persisted role and phase. -/
theorem prepareScaleIONode_ok (store : kvstore.KvStore) (offer : mesos.Offer)
    (info : kvstore.NodeInfo) (h : store.Nodes.get offer.Hostname = some info) :
    ∃ node, prepareScaleIONode store offer = .ok node ∧ node.Hostname = offer.Hostname ∧
      node.Persona = info.Persona ∧ node.State = info.State := by
  simp only [prepareScaleIONode, kvstore.KvStore.GetNodeInfo, h]
  refine ⟨_, rfl, ?_, ?_, ?_⟩
  · rw [decodeRole_hostname, decodeRole_hostname]
  · rw [(decodeRole_identity _ _ _ _).1, (decodeRole_identity _ _ _ _).1]
  · rw [(decodeRole_identity _ _ _ _).2, (decodeRole_identity _ _ _ _).2]

/-- A hostname registered before `addScaleIONode` is registered after it, and
so is the hostname of the offer once node info is persisted for it. -/
theorem addScaleIONode_registers (s : ScaleIOScheduler) (offer : mesos.Offer)
    (info : kvstore.NodeInfo) (h : s.Store.Nodes.get offer.Hostname = some info) :
    (addScaleIONode s offer).1.Store = s.Store ∧
    (addScaleIONode s offer).1.Config = s.Config ∧
    offer.Hostname ∈ (addScaleIONode s offer).1.Nodes.map (fun node => node.Hostname) ∧
    (offer.Hostname ∈ s.Nodes.map (fun node => node.Hostname) →
      (addScaleIONode s offer).1.Nodes = s.Nodes) ∧
    (offer.Hostname ∉ s.Nodes.map (fun node => node.Hostname) →
      ∃ node, (addScaleIONode s offer).1.Nodes = s.Nodes ++ [node] ∧
        prepareScaleIONode s.Store offer = .ok node ∧ node.Hostname = offer.Hostname ∧
        node.Persona = info.Persona ∧ node.State = info.State) := by
  obtain ⟨node, hprep, hhost, hpersona, hstate⟩ := prepareScaleIONode_ok s.Store offer info h
  cases hfind : FindScaleIONodeByHostname s.Nodes offer.Hostname with
  | some found =>
    have hmem : offer.Hostname ∈ s.Nodes.map (fun node => node.Hostname) := by
      by_contra hnot
      rw [(find_eq_none_iff _ _).mpr hnot] at hfind
      cases hfind
    have hadd : addScaleIONode s offer = (s, some GoError.ErrNodeNotFound) := by
      simp [addScaleIONode, hfind]
    rw [hadd]
    exact ⟨rfl, rfl, hmem, fun _ => rfl, fun hnot => absurd hmem hnot⟩
  | none =>
    have hadd : addScaleIONode s offer = ({ s with Nodes := s.Nodes ++ [node] }, none) := by
      simp [addScaleIONode, hfind, hprep]
    rw [hadd]
    refine ⟨rfl, rfl, by simp [hhost], ?_, fun _ => ⟨node, rfl, hprep, hhost, hpersona, hstate⟩⟩
    intro hmem
    exact absurd hmem ((find_eq_none_iff _ _).mp hfind)

theorem setNodeInfo_writable (store : kvstore.KvStore) (hostname : String)
    (persona state : Int) (h : hostname ∉ store.Unwritable) :
    (store.SetNodeInfo hostname persona state).2 = none ∧
      (store.SetNodeInfo hostname persona state).1.Nodes =
        store.Nodes.put hostname ⟨persona, state⟩ ∧
      (store.SetNodeInfo hostname persona state).1.Metadatas = store.Metadatas ∧
      (store.SetNodeInfo hostname persona state).1.Unwritable = store.Unwritable := by
  simp [kvstore.KvStore.SetNodeInfo, h]

/-- C13, evaluated on the code: after a first pass of `performNodeSelection`
over the offer of `host-a`, which persists and registers `host-a` as primary
manager, the secondary role has no hostname (the empty hostname is neither
registered nor persisted) and the offer of `host-a` now carries
`scaleio-persona=secondary`. `selectAnMdmNode` for the secondary role returns
no error and persists `host-a` as secondary, yet registers no node: the error
of `addScaleIONode` for the hostname already registered is dropped, and the
only registered node still holds the primary role. -/
theorem selectAnMdmNode_manual_override_registers_nothing :
    (fun s : ScaleIOScheduler =>
        (s.Store.Nodes, s.Nodes.map (fun node => (node.Hostname, node.Persona)),
          s.Store.GetMdmNodes.2.1, (FindScaleIONodeByHostname s.Nodes "").isNone,
          s.Store.Nodes.get ""))
      (performNodeSelection personaName freshScheduler [offerOf "host-a" 4 8 []]).1 =
      ([("host-a", ⟨types.PersonaMdmPrimary, types.StateUnknown⟩)],
        [("host-a", types.PersonaMdmPrimary)], "", true, none) ∧
    getManuallyConfigNode personaName
        [offerOf "host-a" 4 8 [{ Name := "scaleio-persona", Text := "secondary" }]]
        types.PersonaMdmSecondary =
      some (offerOf "host-a" 4 8 [{ Name := "scaleio-persona", Text := "secondary" }]) ∧
    (fun result : ScaleIOScheduler × Option GoError =>
        (result.2, result.1.Store.Nodes,
          result.1.Nodes.map (fun node => (node.Hostname, node.Persona))))
      (selectAnMdmNode personaName
        (performNodeSelection personaName freshScheduler [offerOf "host-a" 4 8 []]).1
        [offerOf "host-a" 4 8 [{ Name := "scaleio-persona", Text := "secondary" }]] ""
        types.PersonaMdmSecondary) =
      (none, [("host-a", ⟨types.PersonaMdmSecondary, types.StateUnknown⟩)],
        [("host-a", types.PersonaMdmPrimary)]) := by
  decide!

/-! ## The data-node loop -/

theorem addScaleIONode_store (s : ScaleIOScheduler) (offer : mesos.Offer) :
    (addScaleIONode s offer).1.Store = s.Store := by
  unfold addScaleIONode
  split
  · rfl
  · split <;> rfl

theorem addScaleIONode_mono (s : ScaleIOScheduler) (offer : mesos.Offer) (h : String)
    (hmem : h ∈ s.Nodes.map (fun node => node.Hostname)) :
    h ∈ (addScaleIONode s offer).1.Nodes.map (fun node => node.Hostname) := by
  unfold addScaleIONode
  split
  · exact hmem
  · split
    · exact hmem
    · simp only [List.map_append, List.mem_append]
      exact Or.inl hmem

theorem selectDataNode_eq_of_record (s : ScaleIOScheduler) (offer : mesos.Offer)
    (info : kvstore.NodeInfo) (h : s.Store.Nodes.get offer.Hostname = some info) :
    selectDataNode s offer = ((addScaleIONode s offer).1, none) := by
  simp [selectDataNode, kvstore.KvStore.GetNodeInfo, h]

theorem selectDataNode_eq_of_refused (s : ScaleIOScheduler) (offer : mesos.Offer)
    (h : s.Store.Nodes.get offer.Hostname = none) (hw : offer.Hostname ∈ s.Store.Unwritable) :
    selectDataNode s offer = (s, some (GoError.ErrStore offer.Hostname)) := by
  simp [selectDataNode, kvstore.KvStore.GetNodeInfo, h, kvstore.KvStore.SetNodeInfo, hw]

theorem selectDataNode_eq_of_written (s : ScaleIOScheduler) (offer : mesos.Offer)
    (h : s.Store.Nodes.get offer.Hostname = none) (hw : offer.Hostname ∉ s.Store.Unwritable) :
    selectDataNode s offer =
      ((addScaleIONode
        { s with Store :=
            (s.Store.SetNodeInfo offer.Hostname types.PersonaNode types.StateUnknown).1 }
        offer).1, none) := by
  simp [selectDataNode, kvstore.KvStore.GetNodeInfo, h, kvstore.KvStore.SetNodeInfo, hw]

theorem selectDataNode_keeps (s : ScaleIOScheduler) (offer : mesos.Offer) (h : String)
    (info : kvstore.NodeInfo) (hget : s.Store.Nodes.get h = some info) :
    (selectDataNode s offer).1.Store.Nodes.get h = some info := by
  cases hrec : s.Store.Nodes.get offer.Hostname with
  | some found =>
    rw [selectDataNode_eq_of_record s offer found hrec]
    show (addScaleIONode s offer).1.Store.Nodes.get h = some info
    rw [addScaleIONode_store]
    exact hget
  | none =>
    by_cases hw : offer.Hostname ∈ s.Store.Unwritable
    · rw [selectDataNode_eq_of_refused s offer hrec hw]
      exact hget
    · rw [selectDataNode_eq_of_written s offer hrec hw]
      show (addScaleIONode _ offer).1.Store.Nodes.get h = some info
      rw [addScaleIONode_store]
      show (s.Store.SetNodeInfo offer.Hostname types.PersonaNode
        types.StateUnknown).1.Nodes.get h = some info
      rw [(setNodeInfo_writable _ _ _ _ hw).2.1]
      have hne : h ≠ offer.Hostname := by
        intro heq
        rw [heq, hrec] at hget
        cases hget
      rw [GoMap.get_put_other _ _ _ _ (Ne.symm hne)]
      exact hget

theorem selectDataNode_mono (s : ScaleIOScheduler) (offer : mesos.Offer) (h : String)
    (hmem : h ∈ s.Nodes.map (fun node => node.Hostname)) :
    h ∈ (selectDataNode s offer).1.Nodes.map (fun node => node.Hostname) := by
  cases hrec : s.Store.Nodes.get offer.Hostname with
  | some found =>
    rw [selectDataNode_eq_of_record s offer found hrec]
    exact addScaleIONode_mono s offer h hmem
  | none =>
    by_cases hw : offer.Hostname ∈ s.Store.Unwritable
    · rw [selectDataNode_eq_of_refused s offer hrec hw]
      exact hmem
    · rw [selectDataNode_eq_of_written s offer hrec hw]
      exact addScaleIONode_mono _ offer h hmem

theorem selectDataNode_ok (s : ScaleIOScheduler) (offer : mesos.Offer)
    (hok : (selectDataNode s offer).2 = none) :
    offer.Hostname ∈ (selectDataNode s offer).1.Nodes.map (fun node => node.Hostname) ∧
    (s.Store.Nodes.get offer.Hostname = none →
      (selectDataNode s offer).1.Store.Nodes.get offer.Hostname =
        some ⟨types.PersonaNode, types.StateUnknown⟩) := by
  cases hrec : s.Store.Nodes.get offer.Hostname with
  | some found =>
    rw [selectDataNode_eq_of_record s offer found hrec]
    exact ⟨(addScaleIONode_registers s offer found hrec).2.2.1, fun h => by cases h⟩
  | none =>
    by_cases hw : offer.Hostname ∈ s.Store.Unwritable
    · rw [selectDataNode_eq_of_refused s offer hrec hw] at hok
      cases hok
    · rw [selectDataNode_eq_of_written s offer hrec hw]
      have hget : (s.Store.SetNodeInfo offer.Hostname types.PersonaNode
          types.StateUnknown).1.Nodes.get offer.Hostname =
          some ⟨types.PersonaNode, types.StateUnknown⟩ := by
        rw [(setNodeInfo_writable _ _ _ _ hw).2.1]
        exact GoMap.get_put_same _ _ _
      have hreg := addScaleIONode_registers
        { s with Store :=
            (s.Store.SetNodeInfo offer.Hostname types.PersonaNode types.StateUnknown).1 }
        offer ⟨types.PersonaNode, types.StateUnknown⟩ hget
      refine ⟨hreg.2.2.1, fun _ => ?_⟩
      show (addScaleIONode _ offer).1.Store.Nodes.get offer.Hostname = _
      rw [addScaleIONode_store]
      exact hget

theorem selectDataNodes_keeps (offers : List mesos.Offer) :
    ∀ (s : ScaleIOScheduler) (h : String) (info : kvstore.NodeInfo),
      s.Store.Nodes.get h = some info →
      (selectDataNodes s offers).1.Store.Nodes.get h = some info := by
  induction offers with
  | nil => intro s h info hget; exact hget
  | cons offer rest ih =>
    intro s h info hget
    unfold selectDataNodes
    split
    · exact ih s h info hget
    · split
      · exact selectDataNode_keeps s offer h info hget
      · exact ih _ h info (selectDataNode_keeps s offer h info hget)

theorem selectDataNodes_mono (offers : List mesos.Offer) :
    ∀ (s : ScaleIOScheduler) (h : String),
      h ∈ s.Nodes.map (fun node => node.Hostname) →
      h ∈ (selectDataNodes s offers).1.Nodes.map (fun node => node.Hostname) := by
  induction offers with
  | nil => intro s h hmem; exact hmem
  | cons offer rest ih =>
    intro s h hmem
    unfold selectDataNodes
    split
    · exact ih s h hmem
    · split
      · exact selectDataNode_mono s offer h hmem
      · exact ih _ h (selectDataNode_mono s offer h hmem)

theorem selectDataNodes_registers (offers : List mesos.Offer) :
    ∀ (s : ScaleIOScheduler), (selectDataNodes s offers).2 = none →
      ∀ offer ∈ offers,
        offer.Hostname ∈ (selectDataNodes s offers).1.Nodes.map (fun node => node.Hostname) := by
  induction offers with
  | nil => intro s _ offer hmem; cases hmem
  | cons first rest ih =>
    intro s hok offer hmem
    unfold selectDataNodes at hok ⊢
    cases hfind : FindScaleIONodeByHostname s.Nodes first.Hostname with
    | some found =>
      simp only [hfind] at hok ⊢
      rcases List.mem_cons.mp hmem with heq | hrest
      · subst heq
        apply selectDataNodes_mono
        by_contra hnot
        rw [(find_eq_none_iff _ _).mpr hnot] at hfind
        cases hfind
      · exact ih s hok offer hrest
    | none =>
      simp only [hfind] at hok ⊢
      cases hsel : (selectDataNode s first).2 with
      | some err =>
        simp only [hsel] at hok
        cases hok
      | none =>
        simp only [hsel] at hok ⊢
        rcases List.mem_cons.mp hmem with heq | hrest
        · subst heq
          exact selectDataNodes_mono rest _ _ (selectDataNode_ok s offer hsel).1
        · exact ih _ hok offer hrest

theorem selectDataNodes_cons_registered (s : ScaleIOScheduler) (offer : mesos.Offer)
    (rest : List mesos.Offer) (found : types.ScaleIONode)
    (hfind : FindScaleIONodeByHostname s.Nodes offer.Hostname = some found) :
    selectDataNodes s (offer :: rest) = selectDataNodes s rest := by
  rw [selectDataNodes]
  simp only [hfind]

theorem selectDataNodes_cons_selected (s : ScaleIOScheduler) (offer : mesos.Offer)
    (rest : List mesos.Offer)
    (hfind : FindScaleIONodeByHostname s.Nodes offer.Hostname = none)
    (hsel : (selectDataNode s offer).2 = none) :
    selectDataNodes s (offer :: rest) = selectDataNodes (selectDataNode s offer).1 rest := by
  rw [selectDataNodes]
  simp only [hfind, hsel]

theorem selectDataNodes_cons_failed (s : ScaleIOScheduler) (offer : mesos.Offer)
    (rest : List mesos.Offer) (err : GoError)
    (hfind : FindScaleIONodeByHostname s.Nodes offer.Hostname = none)
    (hsel : (selectDataNode s offer).2 = some err) :
    selectDataNodes s (offer :: rest) = ((selectDataNode s offer).1, some err) := by
  rw [selectDataNodes]
  simp only [hfind, hsel]

theorem selectDataNodes_append (pre rest : List mesos.Offer) :
    ∀ (s : ScaleIOScheduler), (selectDataNodes s pre).2 = none →
      selectDataNodes s (pre ++ rest) = selectDataNodes (selectDataNodes s pre).1 rest := by
  induction pre with
  | nil => intro s _; rfl
  | cons first more ih =>
    intro s hok
    simp only [List.cons_append]
    cases hfind : FindScaleIONodeByHostname s.Nodes first.Hostname with
    | some found =>
      rw [selectDataNodes_cons_registered s first _ found hfind] at hok ⊢
      rw [selectDataNodes_cons_registered s first _ found hfind]
      exact ih s hok
    | none =>
      cases hsel : (selectDataNode s first).2 with
      | some err =>
        rw [selectDataNodes_cons_failed s first _ err hfind hsel] at hok
        cases hok
      | none =>
        rw [selectDataNodes_cons_selected s first _ hfind hsel] at hok ⊢
        rw [selectDataNodes_cons_selected s first _ hfind hsel]
        exact ih _ hok

theorem selectDataNodes_prefix_ok (pre rest : List mesos.Offer) :
    ∀ (s : ScaleIOScheduler), (selectDataNodes s (pre ++ rest)).2 = none →
      (selectDataNodes s pre).2 = none := by
  induction pre with
  | nil => intro s _; rfl
  | cons first more ih =>
    intro s hok
    simp only [List.cons_append] at hok
    unfold selectDataNodes at hok ⊢
    cases hfind : FindScaleIONodeByHostname s.Nodes first.Hostname with
    | some found =>
      simp only [hfind] at hok ⊢
      exact ih s hok
    | none =>
      simp only [hfind] at hok ⊢
      cases hsel : (selectDataNode s first).2 with
      | some err =>
        simp only [hsel] at hok
        cases hok
      | none =>
        simp only [hsel] at hok ⊢
        exact ih _ hok

theorem selectDataNodes_persists (s : ScaleIOScheduler) (pre post : List mesos.Offer)
    (offer : mesos.Offer) (hok : (selectDataNodes s (pre ++ offer :: post)).2 = none)
    (hunresolved : Unresolved (selectDataNodes s pre).1 offer.Hostname) :
    (selectDataNodes s (pre ++ offer :: post)).1.Store.Nodes.get offer.Hostname =
      some ⟨types.PersonaNode, types.StateUnknown⟩ := by
  have hpre := selectDataNodes_prefix_ok pre (offer :: post) s hok
  rw [selectDataNodes_append pre (offer :: post) s hpre] at hok ⊢
  unfold selectDataNodes at hok ⊢
  simp only [hunresolved.1] at hok ⊢
  cases hsel : (selectDataNode (selectDataNodes s pre).1 offer).2 with
  | some err =>
    simp only [hsel] at hok
    cases hok
  | none =>
    simp only [hsel]
    exact selectDataNodes_keeps post _ _ _ ((selectDataNode_ok _ offer hsel).2 hunresolved.2)

/-- C14: after a `performNodeSelection` pass that returns no error, the
hostname of every offer of the pass is registered; the pass ends in the
data-node loop run from the scheduler that the manager part left, and every
offer whose hostname was neither registered nor persisted when that loop
reached it is persisted with the data-node role and phase Unknown; and
`selectDataNode` leaves every record that the store already holds as it was. -/
theorem performNodeSelection_registers_every_offer (personaIDToString : Int → String)
    (s : ScaleIOScheduler) (offers : List mesos.Offer)
    (hok : (performNodeSelection personaIDToString s offers).2 = none) :
    (∀ offer ∈ offers,
      offer.Hostname ∈
        (performNodeSelection personaIDToString s offers).1.Nodes.map
          (fun node => node.Hostname)) ∧
    (∃ start,
      start = (if s.Config.PrimaryMdmAddress = "" ∧ s.Config.SecondaryMdmAddress = "" ∧
          s.Config.TieBreakerMdmAddress = "" then selectMdmNodes personaIDToString s offers
        else (s, none)).1 ∧
      performNodeSelection personaIDToString s offers = selectDataNodes start offers ∧
      ∀ (pre post : List mesos.Offer) (offer : mesos.Offer), offers = pre ++ offer :: post →
        Unresolved (selectDataNodes start pre).1 offer.Hostname →
        (performNodeSelection personaIDToString s offers).1.Store.Nodes.get offer.Hostname =
          some ⟨types.PersonaNode, types.StateUnknown⟩) ∧
    (∀ (t : ScaleIOScheduler) (offer : mesos.Offer) (h : String) (info : kvstore.NodeInfo),
      t.Store.Nodes.get h = some info →
      (selectDataNode t offer).1.Store.Nodes.get h = some info) := by
  have hloop : performNodeSelection personaIDToString s offers =
      selectDataNodes (if s.Config.PrimaryMdmAddress = "" ∧ s.Config.SecondaryMdmAddress = "" ∧
          s.Config.TieBreakerMdmAddress = "" then selectMdmNodes personaIDToString s offers
        else (s, none)).1 offers := by
    by_cases hcfg : s.Config.PrimaryMdmAddress = "" ∧ s.Config.SecondaryMdmAddress = "" ∧
        s.Config.TieBreakerMdmAddress = ""
    · cases hmdm : (selectMdmNodes personaIDToString s offers).2 with
      | some err =>
        simp only [performNodeSelection, if_pos hcfg, hmdm] at hok
        cases hok
      | none => simp only [performNodeSelection, if_pos hcfg, hmdm]
    · simp only [performNodeSelection, if_neg hcfg]
  refine ⟨?_, ⟨_, rfl, hloop, ?_⟩, ?_⟩
  · rw [hloop] at hok ⊢
    exact selectDataNodes_registers offers _ hok
  · intro pre post offer hsplit hunresolved
    rw [hloop] at hok ⊢
    subst hsplit
    exact selectDataNodes_persists _ pre post offer hok hunresolved
  · intro t offer h info hget
    exact selectDataNode_keeps t offer h info hget

/-- Witness of C14: from an empty store and no registered node, a pass over
four offers returns no error and registers the four hostnames. -/
theorem performNodeSelection_registers_every_offer_witness :
    (performNodeSelection personaName freshScheduler fourOffers).2 = none ∧
    (∀ offer ∈ fourOffers,
      offer.Hostname ∈
        (performNodeSelection personaName freshScheduler fourOffers).1.Nodes.map
          (fun node => node.Hostname)) :=
  ⟨by decide!,
    (performNodeSelection_registers_every_offer personaName freshScheduler fourOffers
      (by decide!)).1⟩

/-! ## C16: the node loop when a device is to be attached -/

theorem reconcileNode_processed (r : Reconciler) (node : types.ScaleIONode)
    (hnode : node.Declarative = true ∨ node.Advertised = true)
    (hchange : ReportsChange r node) (hsession : (sessionOf r).2 = true)
    (hreturns : (shadowApplied r node).2.2 ≠ PassResult.nilPointerDereference) :
    reconcileNode r node =
      (⟨(r.Store.SetMetadata node.Hostname (shadowApplied r node).1).1,
        (shadowApplied r node).2.1, true⟩, NodeResult.processed) := by
  have h1 : (!node.Declarative && !node.Advertised) = false := by
    rcases hnode with h | h <;> simp [h]
  have h2 : (!(processDeletions (shadowAtStart r node) node).2 &&
      !(processAdditions (processDeletions (shadowAtStart r node) node).1 node).2) = false := by
    rcases hchange with h | h <;> simp [h]
  unfold shadowApplied shadowPending at hreturns ⊢
  unfold shadowAtStart at h2 hreturns ⊢
  unfold sessionOf at hsession hreturns ⊢
  simp only [reconcileNode, h1, h2, hsession, Bool.false_eq_true, if_false, if_true]

/-- C16, evaluated on the code, from an empty store and a storage system
without objects in which no call fails. The node of `host-a` declares `d1`,
`p1` and `/dev/sdb` (the scenario of §8) and the node of `host-b` declares `d1`
and `p1` without device; both are declarative and `processAdditions` reports a
change for `host-a`. `addResourcesToScaleIO` over `host-a`, `host-b` ends in
the nil-pointer dereference of the device loop while applying the shadow of
`host-a`, every call made until then having succeeded: no shadow is stored for
`host-a`, and `host-b` is not processed (no call concerns 10.0.0.2, nothing is
stored for `host-b`), whereas `addResourcesToScaleIO` over `host-b` alone
stores its shadow. When instead the creation of `p1` fails, `processMetadata`
returns that error and both shadows are stored. -/
theorem addResourcesToScaleIO_stops_at_device :
    (nodeHostA (declaredD1 [declaredPool "p1" ["/dev/sdb"]])).Declarative = true ∧
    (processAdditions
      (processDeletions
        (shadowAtStart ⟨emptyStore, emptySystem, false⟩
          (nodeHostA (declaredD1 [declaredPool "p1" ["/dev/sdb"]])))
        (nodeHostA (declaredD1 [declaredPool "p1" ["/dev/sdb"]]))).1
      (nodeHostA (declaredD1 [declaredPool "p1" ["/dev/sdb"]]))).2 = true ∧
    (fun result : Reconciler × PassResult => (result.2, observed result.1))
      ( addResourcesToScaleIO ⟨emptyStore, emptySystem, false⟩
        [nodeHostA (declaredD1 [declaredPool "p1" ["/dev/sdb"]]),
          nodeHostB (declaredD1 [declaredPool "p1" []])]) =
      (PassResult.nilPointerDereference,
        [.Authenticate, .FindSystem, .FindProtectionDomain "d1", .CreateProtectionDomain "d1",
          .FindProtectionDomain "d1", .FindSds "d1" "10.0.0.1",
          .CreateSds "d1" "10.0.0.1" ["10.0.0.1"] ["all"] "", .FindSds "d1" "10.0.0.1",
          .FindStoragePool "d1" "p1", .CreateStoragePool "d1" "p1", .FindStoragePool "d1" "p1"],
        none, none) ∧
    (fun result : Reconciler × PassResult => (result.2, (observed result.1).2.2))
      ( addResourcesToScaleIO ⟨emptyStore, emptySystem, false⟩
        [nodeHostB (declaredD1 [declaredPool "p1" []])]) =
      (PassResult.ok,
        some ⟨[("d1", ⟨"d1", true, false,
          [("10.0.0.2", ⟨"10.0.0.2", false, false, "all", ""⟩)],
          [shadowPool "p1" false false []]⟩)]⟩) ∧
    (fun result : Reconciler × PassResult =>
        (result.2, (observed result.1).2.1, ((observed result.1).2.2).isSome))
      ( addResourcesToScaleIO ⟨emptyStore, systemRefusingPool, false⟩
        [nodeHostA (declaredD1 [declaredPool "p1" ["/dev/sdb"]]),
          nodeHostB (declaredD1 [declaredPool "p1" []])]) =
      (PassResult.ok,
        some (shadowD1 true false [shadowSds false false]
          [shadowPool "p1" true false [shadowDevice "/dev/sdb" true false]]), true) := by
  decide

/-! ## C17: a failing setup step ends the phase function in `StateFatalInstall` -/

/-- C17: for every host and node, each of `RunStateUnknown`,
`RunStatePrerequisitesInstalled`, `RunStateInitializeCluster` and
`RunStateInstallRexRay` runs the setup steps it calls in order up to and
including the first one that returns an error; when one does, the function
signals exactly one phase, `StateFatalInstall`, as its last action; when none
does, it does not signal `StateFatalInstall`. -/
theorem secondaryMdm_step_failure_is_fatal (host : scaleionodes.Host)
    (ssmn : scaleionodes.ScaleioSecondaryMdmNode) :
    scaleionodes.StopsAtFailure host [.EnvironmentSetup]
      (scaleionodes.RunStateUnknown host ssmn).2 ∧
    scaleionodes.StopsAtFailure host [.ManagementSetup, .NodeSetup, .UpdateDevices]
      (scaleionodes.RunStatePrerequisitesInstalled host ssmn).2 ∧
    scaleionodes.StopsAtFailure host [.GatewaySetup]
      (scaleionodes.RunStateInitializeCluster host ssmn).2 ∧
    scaleionodes.StopsAtFailure host [.RexraySetup, .SetupIsolator]
      (scaleionodes.RunStateInstallRexRay host ssmn).2 := by
  refine ⟨?_, ?_, ?_, ?_⟩
  · cases h1 : host.fails .EnvironmentSetup <;> cases h2 : host.reboot .EnvironmentSetup <;>
      cases h3 : ssmn.Debug <;> cases h4 : host.runsScheduler <;>
      simp [scaleionodes.StopsAtFailure, scaleionodes.RunStateUnknown, scaleionodes.stepsOf,
        scaleionodes.signalsOf, scaleionodes.untilFailure, scaleionodes.rebootHost, h1, h2, h3,
        h4]
  · cases h1 : host.fails .ManagementSetup <;> cases h2 : host.fails .NodeSetup <;>
      cases h3 : host.fails .UpdateDevices <;>
      simp [scaleionodes.StopsAtFailure, scaleionodes.RunStatePrerequisitesInstalled,
        scaleionodes.stepsOf, scaleionodes.signalsOf, scaleionodes.untilFailure, h1, h2, h3]
  · cases h1 : host.fails .GatewaySetup <;>
      simp [scaleionodes.StopsAtFailure, scaleionodes.RunStateInitializeCluster,
        scaleionodes.stepsOf, scaleionodes.signalsOf, scaleionodes.untilFailure, h1]
  · cases h1 : host.fails .RexraySetup <;> cases h2 : host.fails .SetupIsolator <;>
      cases h3 : host.reboot .RexraySetup <;> cases h4 : ssmn.RebootRequired <;>
      cases h5 : ssmn.Debug <;> cases h6 : host.runsScheduler <;>
      simp [scaleionodes.StopsAtFailure, scaleionodes.RunStateInstallRexRay,
        scaleionodes.stepsOf, scaleionodes.signalsOf, scaleionodes.untilFailure,
        scaleionodes.rebootHost, h1, h2, h3, h4, h5, h6]

/-! ## C18: `cloneState` and the fault sets -/

/-- C18, evaluated on the code: for the cluster state whose node `host-a`
provides the domain `d1` with the fault set `fs1`, the state that `cloneState`
returns holds the node with `d1` and its pool and device, and `d1` without
fault sets: the copy is the source with the fault sets of `d1` removed, and
it differs from the source. -/
theorem cloneState_drops_fault_sets :
    (registeredNodes (cloneState stateWithFaultSet)).map (fun node => node.ProvidesDomains) =
      [[("d1", { domainWithFaultSet with FaultSets := [] })]] ∧
    (registeredNodes stateWithFaultSet).map (fun node => node.ProvidesDomains) =
      [[("d1", domainWithFaultSet)]] ∧
    domainWithFaultSet.FaultSets = [("fs1", { Name := "fs1", SdsIps := ["10.0.0.1"] })] ∧
    cloneState stateWithFaultSet ≠ stateWithFaultSet := by
  decide

/-! ## C19: a device path listed twice -/

/-- C19, evaluated on the code: for the offer of `host-a` whose attribute
`scaleio-sds-d1-p1` is `/dev/sdb,/dev/sdb`, `prepareScaleIONode` returns a node
whose pool `p1` of `d1` has the device list `/dev/sdb`, `/dev/sdb`, which is
not free of repetitions. -/
theorem prepareScaleIONode_repeats_device :
    (prepareScaleIONode storeHostA offerRepeatedDevice).toOption.map
        (fun node => node.ProvidesDomains) =
      some (declaredD1 [declaredPool "p1" ["/dev/sdb", "/dev/sdb"]]) ∧
    ¬ ["/dev/sdb", "/dev/sdb"].Nodup := by
  decide

/-! ## C20: a domain flagged `Delete` that the storage system does not have -/

/-- C20, evaluated on the code: for shadow metadata holding the domain `d-old`
flagged `Delete` followed by the domain `d1` flagged `Add`, and a storage
system without objects in which no call fails for another reason than a
missing object, `processMetadata` returns the error of the second
`FindProtectionDomain` for `d-old`, leaves the shadow as it was, makes no call
for `d1` and creates nothing; with the two domains in the other order, `d1` is
created and the same error is returned. -/
theorem processMetadata_stops_at_deleted_domain :
    (fun applied : kvstore.Metadata × ExtClient × PassResult =>
        (applied.1, applied.2.2, applied.2.1.Calls, applied.2.1.Domains.keys))
      (processMetadata emptySystem shadowDeletedThenAdded) =
      (shadowDeletedThenAdded,
        PassResult.failed (GoError.ErrExternal (ExtCall.FindProtectionDomain "d-old")),
        [.FindSystem, .FindProtectionDomain "d-old", .FindProtectionDomain "d-old"],
        []) ∧
    (fun applied : kvstore.Metadata × ExtClient × PassResult =>
        (applied.1, applied.2.2, applied.2.1.Calls, applied.2.1.Domains.keys))
      (processMetadata emptySystem shadowAddedThenDeleted) =
      (shadowAddedThenDeleted,
        PassResult.failed (GoError.ErrExternal (ExtCall.FindProtectionDomain "d-old")),
        [.FindSystem, .FindProtectionDomain "d1", .CreateProtectionDomain "d1",
          .FindProtectionDomain "d1", .FindProtectionDomain "d-old",
          .FindProtectionDomain "d-old"],
        ["d1"]) := by
  decide

/-! ## C21: the cascade under a domain that is no longer declared -/

/-- C21, evaluated on the code: for shadow metadata holding the domain `d1`
with the entity of 10.0.0.1 and the pool `p1` holding `/dev/sdb`, no flag set,
and the node of `host-a` declaring no domain, `processDeletions` returns true
and flags `d1` Delete, and leaves the entity, the pool and the device of `d1`
with `Delete = false`. -/
theorem processDeletions_absent_domain_keeps_children :
    processDeletions (shadowD1Whole false) (nodeHostA []) = (shadowD1Whole true, true) ∧
    (shadowD1Whole true).ProtectionDomains.map
        (fun domain => (domain.2.Delete, domain.2.Sdss.map (fun sds => sds.2.Delete),
          domain.2.Pools.map (fun pool => pool.2.Delete))) =
      [(true, [false], [false])] := by
  decide

/-! ## C22: the device rule of `processDeletions` -/

theorem GoMap.get_rangeUpdate {V : Type} (f : String → V → V × Bool) (m : GoMap V)
    (k : String) :
    (GoMap.rangeUpdate f m).1.get k = (m.get k).map (fun v => (f k v).1) := by
  induction m with
  | nil => rfl
  | cons e rest ih =>
    obtain ⟨k', v⟩ := e
    by_cases h : k' = k
    · subst h
      simp [GoMap.rangeUpdate, GoMap.get]
    · simp [GoMap.rangeUpdate, GoMap.get, h, ih]

theorem GoMap.ne_nil_of_get {V : Type} (m : GoMap V) (k : String) (v : V)
    (h : m.get k = some v) : m ≠ [] := by
  intro hnil
  rw [hnil] at h
  cases h

theorem doesNeedleExist_iff (devices : List String) (name : String) :
    doesNeedleExist (some devices) name = true ↔ name ∈ devices := by
  simp only [doesNeedleExist, List.any_eq_true, beq_iff_eq]
  constructor
  · rintro ⟨value, hmem, rfl⟩
    exact hmem
  · intro hmem
    exact ⟨name, hmem, rfl⟩

theorem deleteDevice_kept_pool (devices : List String) (mDevice : kvstore.Device) :
    (deleteDevice false false (some devices) mDevice).1 =
      if mDevice.Name ∈ devices then mDevice else { mDevice with Delete := true } := by
  by_cases h : mDevice.Name ∈ devices
  · have hex := (doesNeedleExist_iff devices mDevice.Name).mpr h
    simp [deleteDevice, hex, h]
  · have hex : doesNeedleExist (some devices) mDevice.Name = false := by
      cases hval : doesNeedleExist (some devices) mDevice.Name with
      | false => rfl
      | true => exact absurd ((doesNeedleExist_iff devices mDevice.Name).mp hval) h
    simp [deleteDevice, hex, h]

theorem deletePool_kept (nDomain : types.ProtectionDomain) (keyP : String)
    (mPool : kvstore.StoragePool) (nPool : types.StoragePool) (devices : List String)
    (hnP : nDomain.Pools.get keyP = some nPool) (hdevs : nPool.Devices = some devices)
    (hne : devices ≠ []) (hdel : mPool.Delete = false) :
    (deletePool false nDomain keyP mPool).1.Delete = false ∧
    ∀ keyDv, (deletePool false nDomain keyP mPool).1.Devices.get keyDv =
      (mPool.Devices.get keyDv).map
        (fun mDevice => (deleteDevice false false (some devices) mDevice).1) := by
  have hlen : (sliceLen (some devices) == 0) = false := by
    cases devices with
    | nil => exact absurd rfl hne
    | cons d ds => rfl
  constructor
  · simp [deletePool, hnP, hdevs, hlen, hdel]
  · intro keyDv
    simp only [deletePool, hnP, hdevs, hlen, Bool.or_false, Bool.false_eq_true, if_false, hdel]
    rw [GoMap.get_rangeUpdate]

theorem deleteDomain_kept (node : types.ScaleIONode) (keyD : String)
    (mDomain : kvstore.ProtectionDomain) (nDomain : types.ProtectionDomain)
    (hnD : node.ProvidesDomains.get keyD = some nDomain) (hne : nDomain.Pools ≠ [])
    (hdel : mDomain.Delete = false) :
    (deleteDomain node keyD mDomain).1.Delete = false ∧
    ∀ keyP, (deleteDomain node keyD mDomain).1.Pools.get keyP =
      (mDomain.Pools.get keyP).map (fun mPool => (deletePool false nDomain keyP mPool).1) := by
  have hlen : (nDomain.Pools.length == 0) = false := by
    cases hp : nDomain.Pools with
    | nil => exact absurd hp hne
    | cons p ps => rfl
  constructor
  · simp [deleteDomain, hnD, hlen, hdel]
  · intro keyP
    simp only [deleteDomain, hnD, hlen, Bool.false_eq_true, if_false, hdel]
    rw [GoMap.get_rangeUpdate]

/-- C22: for a shadow device under a shadow domain and pool that the node still
declares, the declared pool (hence the declared domain having a pool) having a
non-empty device list, and neither the shadow domain nor the shadow pool being
flagged Delete: after `processDeletions` the domain, the pool and the device
are still there under their keys, the domain and the pool are not flagged, the
device keeps its name and its `Add` flag, and it is flagged Delete exactly
when it was flagged before or its name is not in the declared device list. -/
theorem processDeletions_device_rule (metaData : kvstore.Metadata) (node : types.ScaleIONode)
    (keyD keyP keyDv : String) (mDomain : kvstore.ProtectionDomain)
    (mPool : kvstore.StoragePool) (mDevice : kvstore.Device) (nDomain : types.ProtectionDomain)
    (nPool : types.StoragePool) (devices : List String)
    (hD : metaData.ProtectionDomains.get keyD = some mDomain)
    (hP : mDomain.Pools.get keyP = some mPool) (hDv : mPool.Devices.get keyDv = some mDevice)
    (hnD : node.ProvidesDomains.get keyD = some nDomain)
    (hnP : nDomain.Pools.get keyP = some nPool) (hdevs : nPool.Devices = some devices)
    (hne : devices ≠ []) (hDdel : mDomain.Delete = false) (hPdel : mPool.Delete = false) :
    ∃ mDomain1 mPool1 mDevice1,
      (processDeletions metaData node).1.ProtectionDomains.get keyD = some mDomain1 ∧
      mDomain1.Pools.get keyP = some mPool1 ∧ mPool1.Devices.get keyDv = some mDevice1 ∧
      mDomain1.Delete = false ∧ mPool1.Delete = false ∧
      mDevice1.Name = mDevice.Name ∧ mDevice1.Add = mDevice.Add ∧
      (mDevice1.Delete = true ↔ mDevice.Delete = true ∨ mDevice.Name ∉ devices) := by
  have hdom := deleteDomain_kept node keyD mDomain nDomain hnD
    (GoMap.ne_nil_of_get _ _ _ hnP) hDdel
  have hpool := deletePool_kept nDomain keyP mPool nPool devices hnP hdevs hne hPdel
  refine ⟨(deleteDomain node keyD mDomain).1, (deletePool false nDomain keyP mPool).1,
    (deleteDevice false false (some devices) mDevice).1, ?_, ?_, ?_, hdom.1, hpool.1, ?_⟩
  · simp only [processDeletions]
    rw [GoMap.get_rangeUpdate, hD]
    rfl
  · rw [hdom.2, hP]
    rfl
  · rw [hpool.2, hDv]
    rfl
  · rw [deleteDevice_kept_pool]
    by_cases hmem : mDevice.Name ∈ devices
    · simp [hmem]
    · simp [hmem]

/-- Witness of C22: the shadow of `host-a` holds `/dev/sdb` and `/dev/sdc`
under `p1` of `d1`, the node declares `p1` with `/dev/sdb` only; the device
`/dev/sdc` is flagged Delete by `processDeletions`. -/
theorem processDeletions_device_rule_witness :
    ∃ mDomain1 mPool1 mDevice1,
      (processDeletions
          (shadowD1 false false [shadowSds false false]
            [shadowPool "p1" false false
              [shadowDevice "/dev/sdb" false false, shadowDevice "/dev/sdc" false false]])
          (nodeHostA (declaredD1 [declaredPool "p1" ["/dev/sdb"]]))).1.ProtectionDomains.get
        "d1" = some mDomain1 ∧
      mDomain1.Pools.get "p1" = some mPool1 ∧ mPool1.Devices.get "/dev/sdc" = some mDevice1 ∧
      mDevice1.Delete = true := by
  obtain ⟨mDomain1, mPool1, mDevice1, h1, h2, h3, -, -, -, -, h8⟩ :=
    processDeletions_device_rule
      (shadowD1 false false [shadowSds false false]
        [shadowPool "p1" false false
          [shadowDevice "/dev/sdb" false false, shadowDevice "/dev/sdc" false false]])
      (nodeHostA (declaredD1 [declaredPool "p1" ["/dev/sdb"]])) "d1" "p1" "/dev/sdc"
      ⟨"d1", false, false, [shadowSds false false],
        [shadowPool "p1" false false
          [shadowDevice "/dev/sdb" false false, shadowDevice "/dev/sdc" false false]]⟩
      (shadowPool "p1" false false
        [shadowDevice "/dev/sdb" false false, shadowDevice "/dev/sdc" false false]).2
      (shadowDevice "/dev/sdc" false false).2
      ⟨"d1", [], [declaredPool "p1" ["/dev/sdb"]], []⟩
      (declaredPool "p1" ["/dev/sdb"]).2 ["/dev/sdb"]
      (by decide) (by decide) (by decide) (by decide) (by decide) rfl (by decide) rfl rfl
  exact ⟨mDomain1, mPool1, mDevice1, h1, h2, h3, h8.mpr (Or.inr (by decide))⟩

/-! ## C24: the entity created with a new domain -/

theorem addDomain_get_other (ipAddress : String) (st : kvstore.Metadata × Bool)
    (entry : String × types.ProtectionDomain) (k : String) (h : entry.1 ≠ k) :
    (addDomain ipAddress st entry).1.ProtectionDomains.get k = st.1.ProtectionDomains.get k := by
  simp only [addDomain]
  exact GoMap.get_put_other _ _ _ _ h

theorem addDomain_get_same (ipAddress : String) (st : kvstore.Metadata × Bool)
    (entry : String × types.ProtectionDomain) :
    ∃ mDomain, (addDomain ipAddress st entry).1.ProtectionDomains.get entry.1 = some mDomain ∧
      mDomain.Sdss =
        match st.1.ProtectionDomains.get entry.1 with
        | none => [(ipAddress, implicitSds ipAddress)]
        | some old =>
          match old.Sdss.get ipAddress with
          | none => old.Sdss.put ipAddress (implicitSds ipAddress)
          | some _ => old.Sdss := by
  simp only [addDomain]
  refine ⟨_, GoMap.get_put_same _ _ _, ?_⟩
  rw [(addPools_frame _ _).2]
  cases hget : st.1.ProtectionDomains.get entry.1 with
  | none => simp [GoMap.get, GoMap.put, implicitSds]
  | some old =>
    cases hsds : old.Sdss.get ipAddress with
    | none => simp [hsds, implicitSds]
    | some sds => simp [hsds]

theorem addDomain_one_sds (ipAddress keyD : String) (st : kvstore.Metadata × Bool)
    (entry : String × types.ProtectionDomain)
    (h : st.1.ProtectionDomains.get keyD = none ∨
      ∃ mDomain, st.1.ProtectionDomains.get keyD = some mDomain ∧
        mDomain.Sdss = [(ipAddress, implicitSds ipAddress)]) :
    (addDomain ipAddress st entry).1.ProtectionDomains.get keyD = none ∨
      ∃ mDomain, (addDomain ipAddress st entry).1.ProtectionDomains.get keyD = some mDomain ∧
        mDomain.Sdss = [(ipAddress, implicitSds ipAddress)] := by
  by_cases hkey : entry.1 = keyD
  · right
    obtain ⟨mDomain, hget, hsdss⟩ := addDomain_get_same ipAddress st entry
    rw [hkey] at hget hsdss
    refine ⟨mDomain, hget, ?_⟩
    rcases h with hnone | ⟨old, hold, holdSdss⟩
    · rw [hsdss, hnone]
    · rw [hsdss, hold]
      simp [holdSdss, GoMap.get]
  · rw [addDomain_get_other ipAddress st entry keyD hkey]
    exact h

/-- C24: for every node and every domain that the node declares and the shadow
metadata has no entry for, after `processAdditions` the shadow entry of the
domain holds exactly one storage-serving entity: its key and its name are the
IP address of the node, `Add` is set, `Delete` is not, the mode is "all". -/
theorem processAdditions_new_domain_has_one_sds (metaData : kvstore.Metadata)
    (node : types.ScaleIONode) (keyD : String) (nDomain : types.ProtectionDomain)
    (hdeclared : (keyD, nDomain) ∈ node.ProvidesDomains)
    (hnew : metaData.ProtectionDomains.get keyD = none) :
    ∃ mDomain, (processAdditions metaData node).1.ProtectionDomains.get keyD = some mDomain ∧
      mDomain.Sdss =
        [(node.IPAddress,
          { Name := node.IPAddress, Add := true, Delete := false, Mode := "all",
            FaultSet := "" })] := by
  have hinv := foldl_preserves (addDomain node.IPAddress)
    (fun st => st.1.ProtectionDomains.get keyD = none ∨
      ∃ mDomain, st.1.ProtectionDomains.get keyD = some mDomain ∧
        mDomain.Sdss = [(node.IPAddress, implicitSds node.IPAddress)])
    node.ProvidesDomains
    (fun st entry _ h => addDomain_one_sds node.IPAddress keyD st entry h)
    (metaData, false) (Or.inl hnew)
  obtain ⟨covered, hcovered, -⟩ := processAdditions_covers metaData node (keyD, nDomain) hdeclared
  rcases hinv with hnone | ⟨mDomain, hget, hsdss⟩
  · rw [processAdditions, hnone] at hcovered
    cases hcovered
  · exact ⟨mDomain, hget, hsdss⟩

/-- Witness of C24: from empty shadow metadata, for the node of `host-a` at
10.0.0.1 declaring `d1`. -/
theorem processAdditions_new_domain_has_one_sds_witness :
    ∃ mDomain,
      (processAdditions { ProtectionDomains := [] }
        (nodeHostA (declaredD1 [declaredPool "p1" ["/dev/sdb"]]))).1.ProtectionDomains.get
          "d1" = some mDomain ∧
      mDomain.Sdss =
        [("10.0.0.1",
          { Name := "10.0.0.1", Add := true, Delete := false, Mode := "all", FaultSet := "" })] :=
  processAdditions_new_domain_has_one_sds { ProtectionDomains := [] }
    (nodeHostA (declaredD1 [declaredPool "p1" ["/dev/sdb"]])) "d1"
    ⟨"d1", [], [declaredPool "p1" ["/dev/sdb"]], []⟩ (by decide) rfl

/-! ## C23: what `processAdditions` creates and what it leaves -/

theorem GoMap.extends_refl {V : Type} (R : V → V → Prop) (Created : String → V → Prop)
    (hR : ∀ v, R v v) (m : GoMap V) : GoMap.Extends R Created m m := by
  intro k
  refine ⟨fun v hv => ⟨v, hv, hR v⟩, fun hnone v' hv' => ?_⟩
  rw [hnone] at hv'
  cases hv'

theorem GoMap.extends_trans {V : Type} (R : V → V → Prop) (Created : String → V → Prop)
    (hR : ∀ a b c, R a b → R b c → R a c)
    (hC : ∀ k a b, Created k a → R a b → Created k b) (a b c : GoMap V)
    (hab : GoMap.Extends R Created a b) (hbc : GoMap.Extends R Created b c) :
    GoMap.Extends R Created a c := by
  intro k
  constructor
  · intro v hv
    obtain ⟨v1, hv1, hr1⟩ := (hab k).1 v hv
    obtain ⟨v2, hv2, hr2⟩ := (hbc k).1 v1 hv1
    exact ⟨v2, hv2, hR _ _ _ hr1 hr2⟩
  · intro hnone v2 hv2
    cases hb : b.get k with
    | none => exact (hbc k).2 hb v2 hv2
    | some v1 =>
      obtain ⟨v2', hv2', hr⟩ := (hbc k).1 v1 hb
      rw [hv2] at hv2'
      cases hv2'
      exact hC k v1 v2 ((hab k).2 hnone v1 hb) hr

theorem GoMap.extends_put_some {V : Type} (R : V → V → Prop) (Created : String → V → Prop)
    (hR : ∀ v, R v v) (m : GoMap V) (k : String) (v v' : V) (hget : m.get k = some v)
    (h : R v v') : GoMap.Extends R Created m (m.put k v') := by
  intro k2
  by_cases hk : k = k2
  · subst hk
    refine ⟨fun w hw => ⟨v', GoMap.get_put_same _ _ _, ?_⟩, fun hnone => ?_⟩
    · rw [hget] at hw
      cases hw
      exact h
    · rw [hget] at hnone
      cases hnone
  · rw [GoMap.get_put_other _ _ _ _ hk]
    exact GoMap.extends_refl R Created hR m k2

theorem GoMap.extends_put_none {V : Type} (R : V → V → Prop) (Created : String → V → Prop)
    (hR : ∀ v, R v v) (m : GoMap V) (k : String) (v' : V) (hget : m.get k = none)
    (h : Created k v') : GoMap.Extends R Created m (m.put k v') := by
  intro k2
  by_cases hk : k = k2
  · subst hk
    refine ⟨fun w hw => ?_, fun _ w hw => ?_⟩
    · rw [hget] at hw
      cases hw
    · rw [GoMap.get_put_same] at hw
      cases hw
      exact h
  · rw [GoMap.get_put_other _ _ _ _ hk]
    exact GoMap.extends_refl R Created hR m k2

theorem poolExtends_refl (pool : kvstore.StoragePool) : PoolExtends pool pool :=
  ⟨rfl, rfl, rfl, GoMap.extends_refl Eq DeviceCreated (fun _ => rfl) _⟩

theorem poolExtends_trans (a b c : kvstore.StoragePool) (hab : PoolExtends a b)
    (hbc : PoolExtends b c) : PoolExtends a c :=
  ⟨hbc.1.trans hab.1, hbc.2.1.trans hab.2.1, hbc.2.2.1.trans hab.2.2.1,
    GoMap.extends_trans Eq DeviceCreated (fun _ _ _ h1 h2 => h1.trans h2)
      (fun _ _ _ h1 h2 => h2 ▸ h1) _ _ _ hab.2.2.2 hbc.2.2.2⟩

theorem addDevice_extends (st : kvstore.StoragePool × Bool) (device : String) :
    PoolExtends st.1 (addDevice st device).1 := by
  cases hget : st.1.Devices.get device with
  | none =>
    simp only [addDevice, hget]
    exact ⟨rfl, rfl, rfl,
      GoMap.extends_put_none Eq DeviceCreated (fun _ => rfl) _ _ _ hget rfl⟩
  | some found =>
    simp only [addDevice, hget]
    exact poolExtends_refl _

theorem addDevices_extends (devices : List String) (st : kvstore.StoragePool × Bool) :
    PoolExtends st.1 (devices.foldl addDevice st).1 :=
  foldl_preserves addDevice (fun s => PoolExtends st.1 s.1) devices
    (fun s x _ h => poolExtends_trans _ _ _ h (addDevice_extends s x)) st (poolExtends_refl _)

theorem domainExtends_refl (ipAddress : String) (domain : kvstore.ProtectionDomain) :
    DomainExtends ipAddress domain domain :=
  ⟨rfl, rfl, rfl, GoMap.extends_refl Eq (SdsCreated ipAddress) (fun _ => rfl) _,
    GoMap.extends_refl PoolExtends PoolCreated poolExtends_refl _⟩

theorem domainExtends_trans (ipAddress : String) (a b c : kvstore.ProtectionDomain)
    (hab : DomainExtends ipAddress a b) (hbc : DomainExtends ipAddress b c) :
    DomainExtends ipAddress a c :=
  ⟨hbc.1.trans hab.1, hbc.2.1.trans hab.2.1, hbc.2.2.1.trans hab.2.2.1,
    GoMap.extends_trans Eq (SdsCreated ipAddress) (fun _ _ _ h1 h2 => h1.trans h2)
      (fun _ _ _ h1 h2 => h2 ▸ h1) _ _ _ hab.2.2.2.1 hbc.2.2.2.1,
    GoMap.extends_trans PoolExtends PoolCreated poolExtends_trans
      (fun _ _ _ h1 h2 => poolExtends_trans _ _ _ h1 h2) _ _ _ hab.2.2.2.2 hbc.2.2.2.2⟩

theorem addPool_extends (ipAddress : String) (st : kvstore.ProtectionDomain × Bool)
    (entry : String × types.StoragePool) :
    DomainExtends ipAddress st.1 (addPool st entry).1 := by
  refine ⟨rfl, rfl, rfl, GoMap.extends_refl Eq (SdsCreated ipAddress) (fun _ => rfl) _, ?_⟩
  cases hget : st.1.Pools.get entry.1 with
  | none =>
    simp only [addPool, hget]
    exact GoMap.extends_put_none PoolExtends PoolCreated poolExtends_refl _ _ _ hget
      (addDevices_extends _ _)
  | some mPool =>
    simp only [addPool, hget]
    exact GoMap.extends_put_some PoolExtends PoolCreated poolExtends_refl _ _ mPool _ hget
      (addDevices_extends _ _)

theorem addPools_extends (ipAddress : String) (pools : GoMap types.StoragePool)
    (st : kvstore.ProtectionDomain × Bool) :
    DomainExtends ipAddress st.1 (pools.foldl addPool st).1 :=
  foldl_preserves addPool (fun s => DomainExtends ipAddress st.1 s.1) pools
    (fun s x _ h => domainExtends_trans _ _ _ _ h (addPool_extends ipAddress s x)) st
    (domainExtends_refl _ _)

theorem addSds_extends (ipAddress : String) (domain : kvstore.ProtectionDomain) :
    DomainExtends ipAddress domain
      (match domain.Sdss.get ipAddress with
        | none => { domain with Sdss := domain.Sdss.put ipAddress (implicitSds ipAddress) }
        | some _ => domain) := by
  cases hget : domain.Sdss.get ipAddress with
  | none =>
    exact ⟨rfl, rfl, rfl,
      GoMap.extends_put_none Eq (SdsCreated ipAddress) (fun _ => rfl) _ _ _ hget ⟨rfl, rfl⟩,
      GoMap.extends_refl PoolExtends PoolCreated poolExtends_refl _⟩
  | some sds => exact domainExtends_refl _ _

theorem addDomain_eq (ipAddress : String) (st : kvstore.Metadata × Bool)
    (entry : String × types.ProtectionDomain) :
    addDomain ipAddress st entry =
      (match st.1.ProtectionDomains.get entry.1 with
        | none =>
          let grown := entry.2.Pools.foldl addPool
            (⟨entry.1, true, false, [(ipAddress, implicitSds ipAddress)], []⟩, true)
          ({ st.1 with ProtectionDomains := st.1.ProtectionDomains.put entry.1 grown.1 },
            grown.2)
        | some mDomain =>
          let grown := entry.2.Pools.foldl addPool
            (match mDomain.Sdss.get ipAddress with
              | none =>
                ({ mDomain with Sdss := mDomain.Sdss.put ipAddress (implicitSds ipAddress) },
                  true)
              | some _ => (mDomain, st.2))
          ({ st.1 with ProtectionDomains := st.1.ProtectionDomains.put entry.1 grown.1 },
            grown.2)) := by
  cases hget : st.1.ProtectionDomains.get entry.1 with
  | none => simp [addDomain, hget, GoMap.get, GoMap.put, implicitSds]
  | some mDomain =>
    cases hsds : mDomain.Sdss.get ipAddress with
    | none => simp [addDomain, hget, hsds, implicitSds]
    | some sds => simp [addDomain, hget, hsds]

theorem metadataExtends_refl (ipAddress : String) (metaData : kvstore.Metadata) :
    MetadataExtends ipAddress metaData metaData :=
  GoMap.extends_refl (DomainExtends ipAddress) (DomainCreated ipAddress)
    (domainExtends_refl ipAddress) _

theorem metadataExtends_trans (ipAddress : String) (a b c : kvstore.Metadata)
    (hab : MetadataExtends ipAddress a b) (hbc : MetadataExtends ipAddress b c) :
    MetadataExtends ipAddress a c :=
  GoMap.extends_trans (DomainExtends ipAddress) (DomainCreated ipAddress)
    (domainExtends_trans ipAddress)
    (fun _ _ _ h1 h2 => domainExtends_trans ipAddress _ _ _ h1 h2) _ _ _ hab hbc

theorem addDomain_extends (ipAddress : String) (st : kvstore.Metadata × Bool)
    (entry : String × types.ProtectionDomain) :
    MetadataExtends ipAddress st.1 (addDomain ipAddress st entry).1 := by
  rw [addDomain_eq]
  cases hget : st.1.ProtectionDomains.get entry.1 with
  | none =>
    refine GoMap.extends_put_none _ _ (domainExtends_refl ipAddress) _ _ _ hget ?_
    refine domainExtends_trans ipAddress _ _ _ ?_ (addPools_extends ipAddress _ _)
    exact ⟨rfl, rfl, rfl,
      GoMap.extends_put_none Eq (SdsCreated ipAddress) (fun _ => rfl) [] ipAddress _ rfl
        ⟨rfl, rfl⟩,
      GoMap.extends_refl PoolExtends PoolCreated poolExtends_refl _⟩
  | some mDomain =>
    refine GoMap.extends_put_some _ _ (domainExtends_refl ipAddress) _ _ mDomain _ hget ?_
    refine domainExtends_trans ipAddress _ _ _ ?_ (addPools_extends ipAddress _ _)
    have hsds := addSds_extends ipAddress mDomain
    cases hs : mDomain.Sdss.get ipAddress with
    | none =>
      rw [hs] at hsds
      exact hsds
    | some sds => exact domainExtends_refl _ _

theorem processAdditions_extends (metaData : kvstore.Metadata) (node : types.ScaleIONode) :
    MetadataExtends node.IPAddress metaData (processAdditions metaData node).1 :=
  foldl_preserves (addDomain node.IPAddress)
    (fun s => MetadataExtends node.IPAddress metaData s.1) node.ProvidesDomains
    (fun s x _ h => metadataExtends_trans _ _ _ _ h (addDomain_extends node.IPAddress s x))
    (metaData, false) (metadataExtends_refl _ _)

theorem foldl_unflagged {S α : Type} (f : S × Bool → α → S × Bool)
    (h : ∀ st x, (f st x).2 = false → f st x = st) (l : List α) :
    ∀ st, (l.foldl f st).2 = false → l.foldl f st = st := by
  induction l with
  | nil => intro st _; rfl
  | cons x rest ih =>
    intro st hflag
    simp only [List.foldl_cons] at hflag ⊢
    have hrest := ih (f st x) hflag
    rw [hrest] at hflag ⊢
    exact h st x hflag

theorem addDevice_unflagged (st : kvstore.StoragePool × Bool) (device : String)
    (h : (addDevice st device).2 = false) : addDevice st device = st := by
  cases hget : st.1.Devices.get device with
  | none => simp [addDevice, hget] at h
  | some found => simp [addDevice, hget]

theorem addPool_unflagged (st : kvstore.ProtectionDomain × Bool)
    (entry : String × types.StoragePool) (h : (addPool st entry).2 = false) :
    addPool st entry = st := by
  cases hget : st.1.Pools.get entry.1 with
  | none =>
    simp only [addPool, hget] at h
    have hfold := foldl_unflagged addDevice addDevice_unflagged _ _ h
    rw [hfold] at h
    cases h
  | some mPool =>
    simp only [addPool, hget] at h ⊢
    have hfold := foldl_unflagged addDevice addDevice_unflagged _ _ h
    rw [hfold] at h ⊢
    simp only at h ⊢
    rw [GoMap.put_get_self _ _ _ hget]

theorem addDomain_unflagged (ipAddress : String) (st : kvstore.Metadata × Bool)
    (entry : String × types.ProtectionDomain)
    (h : (addDomain ipAddress st entry).2 = false) : addDomain ipAddress st entry = st := by
  rw [addDomain_eq] at h ⊢
  cases hget : st.1.ProtectionDomains.get entry.1 with
  | none =>
    simp only [hget] at h
    have hfold := foldl_unflagged addPool addPool_unflagged _ _ h
    rw [hfold] at h
    cases h
  | some mDomain =>
    simp only [hget] at h ⊢
    have hfold := foldl_unflagged addPool addPool_unflagged _ _ h
    rw [hfold] at h ⊢
    cases hsds : mDomain.Sdss.get ipAddress with
    | none =>
      simp only [hsds] at h
      cases h
    | some sds =>
      simp only [hsds] at h ⊢
      rw [GoMap.put_get_self _ _ _ hget]

theorem processAdditions_unflagged (metaData : kvstore.Metadata) (node : types.ScaleIONode)
    (h : (processAdditions metaData node).2 = false) :
    processAdditions metaData node = (metaData, false) :=
  foldl_unflagged (addDomain node.IPAddress) (addDomain_unflagged node.IPAddress) _ _ h

theorem grows_refl {S : Type} (size : S → Nat) (a : S × Bool) : Grows size a a :=
  ⟨Nat.le_refl _, fun h => h, fun h1 h2 => by rw [h1] at h2; cases h2⟩

theorem grows_trans {S : Type} (size : S → Nat) (a b c : S × Bool) (hab : Grows size a b)
    (hbc : Grows size b c) : Grows size a c := by
  refine ⟨Nat.le_trans hab.1 hbc.1, fun h => hbc.2.1 (hab.2.1 h), fun ha hc => ?_⟩
  cases hb : b.2 with
  | false => exact Nat.lt_of_le_of_lt hab.1 (hbc.2.2 hb hc)
  | true => exact Nat.lt_of_lt_of_le (hab.2.2 ha hb) hbc.1

theorem foldl_grows {S α : Type} (size : S → Nat) (f : S × Bool → α → S × Bool)
    (h : ∀ st x, Grows size st (f st x)) (l : List α) (st : S × Bool) :
    Grows size st (l.foldl f st) :=
  foldl_preserves f (fun s => Grows size st s) l
    (fun s x _ hs => grows_trans size _ _ _ hs (h s x)) st (grows_refl size st)

theorem GoMap.sum_put_none {V : Type} (c : V → Nat) (m : GoMap V) (k : String) (v : V)
    (hget : m.get k = none) :
    ((m.put k v).map (fun e => c e.2)).sum = (m.map (fun e => c e.2)).sum + c v := by
  rw [GoMap.put_of_get_none m k v hget]
  simp

theorem GoMap.sum_put_some {V : Type} (c : V → Nat) (m : GoMap V) (k : String) (v old : V)
    (hget : m.get k = some old) :
    ((m.put k v).map (fun e => c e.2)).sum + c old = (m.map (fun e => c e.2)).sum + c v := by
  induction m with
  | nil => cases hget
  | cons e rest ih =>
    obtain ⟨k', v'⟩ := e
    by_cases hk : k' = k
    · simp only [GoMap.get, hk, if_true, Option.some.injEq] at hget
      subst hget
      simp only [GoMap.put, hk, if_true, List.map_cons, List.sum_cons]
      omega
    · simp only [GoMap.get, hk, if_false] at hget
      have := ih hget
      simp only [GoMap.put, hk, if_false, List.map_cons, List.sum_cons]
      omega

theorem addDevice_grows (st : kvstore.StoragePool × Bool) (device : String) :
    Grows poolEntries st (addDevice st device) := by
  cases hget : st.1.Devices.get device with
  | none =>
    simp only [addDevice, hget]
    refine ⟨?_, fun _ => rfl, fun _ _ => ?_⟩ <;>
      simp [poolEntries, GoMap.put_of_get_none _ _ _ hget]
  | some found =>
    simp only [addDevice, hget]
    exact grows_refl _ _

theorem addPool_grows (st : kvstore.ProtectionDomain × Bool)
    (entry : String × types.StoragePool) : Grows domainEntries st (addPool st entry) := by
  cases hget : st.1.Pools.get entry.1 with
  | none =>
    have hg := foldl_grows poolEntries addDevice addDevice_grows (entry.2.Devices.getD [])
      (⟨entry.1, true, false, []⟩, true)
    have hsum := GoMap.sum_put_none poolEntries st.1.Pools entry.1
      ((entry.2.Devices.getD []).foldl addDevice (⟨entry.1, true, false, []⟩, true)).1 hget
    have hpos : 0 < poolEntries
        ((entry.2.Devices.getD []).foldl addDevice (⟨entry.1, true, false, []⟩, true)).1 := by
      simp [poolEntries]
    simp only [addPool, hget]
    refine ⟨?_, fun _ => hg.2.1 rfl, fun _ _ => ?_⟩
    · simp only [domainEntries, hsum]
      omega
    · simp only [domainEntries, hsum]
      omega
  | some mPool =>
    have hg := foldl_grows poolEntries addDevice addDevice_grows (entry.2.Devices.getD [])
      (mPool, st.2)
    have hsum := GoMap.sum_put_some poolEntries st.1.Pools entry.1
      ((entry.2.Devices.getD []).foldl addDevice (mPool, st.2)).1 mPool hget
    simp only [addPool, hget]
    refine ⟨?_, fun h => hg.2.1 h, fun hst hres => ?_⟩
    · have hle : poolEntries mPool ≤
          poolEntries ((entry.2.Devices.getD []).foldl addDevice (mPool, st.2)).1 := hg.1
      simp only [domainEntries]
      omega
    · have hlt : poolEntries mPool <
          poolEntries ((entry.2.Devices.getD []).foldl addDevice (mPool, st.2)).1 :=
        hg.2.2 hst hres
      simp only [domainEntries]
      omega

theorem addDomain_grows (ipAddress : String) (st : kvstore.Metadata × Bool)
    (entry : String × types.ProtectionDomain) :
    Grows entryCount st (addDomain ipAddress st entry) := by
  rw [addDomain_eq]
  cases hget : st.1.ProtectionDomains.get entry.1 with
  | none =>
    have hg := foldl_grows domainEntries addPool addPool_grows entry.2.Pools
      (⟨entry.1, true, false, [(ipAddress, implicitSds ipAddress)], []⟩, true)
    have hsum := GoMap.sum_put_none domainEntries st.1.ProtectionDomains entry.1
      (entry.2.Pools.foldl addPool
        (⟨entry.1, true, false, [(ipAddress, implicitSds ipAddress)], []⟩, true)).1 hget
    have hle : 2 ≤ domainEntries (entry.2.Pools.foldl addPool
        (⟨entry.1, true, false, [(ipAddress, implicitSds ipAddress)], []⟩, true)).1 := hg.1
    refine ⟨?_, fun _ => hg.2.1 rfl, fun _ _ => ?_⟩
    · simp only [entryCount, hsum]
      omega
    · simp only [entryCount, hsum]
      omega
  | some mDomain =>
    cases hsds : mDomain.Sdss.get ipAddress with
    | none =>
      have hg := foldl_grows domainEntries addPool addPool_grows entry.2.Pools
        ({ mDomain with Sdss := mDomain.Sdss.put ipAddress (implicitSds ipAddress) }, true)
      have hsum := GoMap.sum_put_some domainEntries st.1.ProtectionDomains entry.1
        (entry.2.Pools.foldl addPool
          ({ mDomain with Sdss := mDomain.Sdss.put ipAddress (implicitSds ipAddress) },
            true)).1 mDomain hget
      have hlt : domainEntries mDomain < domainEntries (entry.2.Pools.foldl addPool
          ({ mDomain with Sdss := mDomain.Sdss.put ipAddress (implicitSds ipAddress) },
            true)).1 := by
        refine Nat.lt_of_lt_of_le ?_ hg.1
        simp [domainEntries, GoMap.put_of_get_none _ _ _ hsds]
      simp only [hsds]
      refine ⟨?_, fun _ => hg.2.1 rfl, fun _ _ => ?_⟩
      · simp only [entryCount]
        omega
      · simp only [entryCount]
        omega
    | some sds =>
      have hg := foldl_grows domainEntries addPool addPool_grows entry.2.Pools (mDomain, st.2)
      have hsum := GoMap.sum_put_some domainEntries st.1.ProtectionDomains entry.1
        (entry.2.Pools.foldl addPool (mDomain, st.2)).1 mDomain hget
      simp only [hsds]
      refine ⟨?_, fun h => hg.2.1 h, fun hst hres => ?_⟩
      · have hle : domainEntries mDomain ≤
            domainEntries (entry.2.Pools.foldl addPool (mDomain, st.2)).1 := hg.1
        simp only [entryCount]
        omega
      · have hlt : domainEntries mDomain <
            domainEntries (entry.2.Pools.foldl addPool (mDomain, st.2)).1 := hg.2.2 hst hres
        simp only [entryCount]
        omega

theorem processAdditions_grows (metaData : kvstore.Metadata) (node : types.ScaleIONode) :
    Grows entryCount (metaData, false) (processAdditions metaData node) :=
  foldl_grows entryCount (addDomain node.IPAddress) (addDomain_grows node.IPAddress) _ _

/-- C23: for every shadow metadata and every node, after `processAdditions`
every declared domain, every declared pool under it and every declared device
of that pool has a shadow entry, and every declared domain has the entity of
the node; every entry that the metadata held before is still there under its
key with the name and flags it had (devices and entities unchanged, pools and
domains possibly holding created entries); every entry under a key that was
not there before is named by its key (an entity: by the address of the node,
with mode "all") with `Add = true` and `Delete = false`; and the call returns
true exactly when the number of entries (domains, entities, pools, devices) has
grown, and returns false only with the metadata left as it was. -/
theorem processAdditions_creates_and_keeps (metaData : kvstore.Metadata)
    (node : types.ScaleIONode) :
    Covers (processAdditions metaData node).1 node ∧
    MetadataExtends node.IPAddress metaData (processAdditions metaData node).1 ∧
    ((processAdditions metaData node).2 = true ↔
      entryCount metaData < entryCount (processAdditions metaData node).1) ∧
    ((processAdditions metaData node).2 = false →
      (processAdditions metaData node).1 = metaData) := by
  refine ⟨processAdditions_covers metaData node, processAdditions_extends metaData node,
    ⟨fun h => (processAdditions_grows metaData node).2.2 rfl h, fun hlt => ?_⟩, fun h => ?_⟩
  · cases hflag : (processAdditions metaData node).2 with
    | true => rfl
    | false =>
      rw [processAdditions_unflagged metaData node hflag] at hlt
      exact absurd hlt (Nat.lt_irrefl _)
  · rw [processAdditions_unflagged metaData node h]

/-! ## C1: the second reconciliation pass -/

/-- The loop body of `addResourcesToScaleIO` skips a node for which neither
`processDeletions` nor `processAdditions` reports a change. -/
theorem reconcileNode_unchanged (r : Reconciler) (node : types.ScaleIONode)
    (hno : ¬ ReportsChange r node) : reconcileNode r node = (r, NodeResult.skipped) := by
  unfold ReportsChange shadowAtStart at hno
  have h1 : (processDeletions ((r.Store.GetMetadata node.Hostname).getD ⟨[]⟩) node).2 = false := by
    cases h : (processDeletions ((r.Store.GetMetadata node.Hostname).getD ⟨[]⟩) node).2
    · rfl
    · exact absurd (Or.inl h) hno
  have h2 : (processAdditions
      (processDeletions ((r.Store.GetMetadata node.Hostname).getD ⟨[]⟩) node).1 node).2 =
      false := by
    cases h : (processAdditions
      (processDeletions ((r.Store.GetMetadata node.Hostname).getD ⟨[]⟩) node).1 node).2
    · rfl
    · exact absurd (Or.inr h) hno
  unfold reconcileNode
  by_cases hskip : (!node.Declarative && !node.Advertised) = true
  · rw [if_pos hskip]
  · rw [if_neg hskip]
    simp only [h1, h2]
    rfl

/-- When a change is reported, the loop body ends normally only if the client
session exists and `processMetadata` returns. -/
theorem reconcileNode_normal (r : Reconciler) (node : types.ScaleIONode)
    (hnode : node.Declarative = true ∨ node.Advertised = true) (hchange : ReportsChange r node)
    (hnormal : (reconcileNode r node).2 = NodeResult.processed ∨
      (reconcileNode r node).2 = NodeResult.skipped) :
    (sessionOf r).2 = true ∧ (shadowApplied r node).2.2 ≠ PassResult.nilPointerDereference := by
  have h1 : (!node.Declarative && !node.Advertised) = false := by
    rcases hnode with h | h <;> simp [h]
  have h2 : (!(processDeletions (shadowAtStart r node) node).2 &&
      !(processAdditions (processDeletions (shadowAtStart r node) node).1 node).2) = false := by
    rcases hchange with h | h <;> simp [h]
  unfold shadowApplied shadowPending
  unfold shadowAtStart at h2 ⊢
  unfold sessionOf
  unfold reconcileNode at hnormal
  simp only [h1, h2, Bool.false_eq_true, if_false] at hnormal
  by_cases hs : (if r.Session = true then (r.System, true) else createScaleioClient r.System).2 = true
  · refine ⟨hs, fun hnil => ?_⟩
    simp only [hs, if_true, hnil] at hnormal
    rcases hnormal with h | h <;> cases h
  · simp only [hs, if_false] at hnormal
    rcases hnormal with h | h <;> cases h

/-- C1 as stated fails, from an empty store and a storage system without
objects in which no call fails. For the node of `host-a` declaring the domain
`d1` without pools: the first pass creates the domain and the entity,
`processMetadata` returns nil and the shadow is stored; on that stored shadow
`processDeletions` returns true, since a declared domain without pools is
flagged Delete, and the second pass over the same node is not skipped: it
calls the storage system three more times. For the node of `host-a` declaring
`d1`, `p1` and `/dev/sdb` (the scenario of §8): the first pass ends in the
nil-pointer dereference of the device loop and stores nothing; the second pass
is not skipped either, calls the storage system four more times and ends the
same way. -/
theorem second_pass_not_idle_counterexample :
    (processMetadata (createScaleioClient emptySystem).1
      (processAdditions (processDeletions { ProtectionDomains := [] }
        (nodeHostA (declaredD1 []))).1 (nodeHostA (declaredD1 []))).1).2.2 = PassResult.ok ∧
    (fun first : Reconciler × NodeResult =>
        (first.2, first.1.Store.GetMetadata "host-a",
          (processDeletions (shadowAtStart first.1 (nodeHostA (declaredD1 [])))
            (nodeHostA (declaredD1 []))).2,
          (reconcileNode first.1 (nodeHostA (declaredD1 []))).2,
          (reconcileNode first.1 (nodeHostA (declaredD1 []))).1.System.Calls.drop
            first.1.System.Calls.length))
      (reconcileNode ⟨emptyStore, emptySystem, false⟩ (nodeHostA (declaredD1 []))) =
      (NodeResult.processed, some (shadowD1 true false [shadowSds false false] []), true,
        NodeResult.processed,
        [.FindSystem, .FindProtectionDomain "d1", .FindSds "d1" "10.0.0.1"]) ∧
    (fun first : Reconciler × NodeResult =>
        (first.2, first.1.Store.GetMetadata "host-a",
          (reconcileNode first.1 (nodeHostA (declaredD1 [declaredPool "p1" ["/dev/sdb"]]))).2,
          (reconcileNode first.1
            (nodeHostA (declaredD1 [declaredPool "p1" ["/dev/sdb"]]))).1.System.Calls.drop
            first.1.System.Calls.length))
      (reconcileNode ⟨emptyStore, emptySystem, false⟩
        (nodeHostA (declaredD1 [declaredPool "p1" ["/dev/sdb"]]))) =
      (NodeResult.nilPointerDereference, none, NodeResult.nilPointerDereference,
        [.FindSystem, .FindProtectionDomain "d1", .FindSds "d1" "10.0.0.1",
          .FindStoragePool "d1" "p1"]) := by
  decide

/-- C1, amended: for every declarative or advertised node whose declared maps
have one entry per key and whose declared topology gives every domain at least
one pool and every pool at least one device, and for every store whose shadow
metadata for the node holds only domains, pools and devices that the node
still declares, none of the domains and pools flagged Delete, and which
accepts the write: when the pass of the node loop of `addResourcesToScaleIO`
over the node ends normally (the node is skipped, or it is processed:
`processDeletions`, `processAdditions`, then `processMetadata`, which returns
nil or an error, then the write of the shadow), a second pass over the same
node from the state the first one leaves has `processDeletions` and
`processAdditions` both return false and leave the stored shadow as it is,
and skips the node without any external call or store write. -/
theorem second_pass_idle (r : Reconciler) (node : types.ScaleIONode)
    (hnode : node.Declarative = true ∨ node.Advertised = true)
    (hwf : DeclaredMapsWellFormed node) (hfull : FullyDeclared node)
    (hsettled : Settled (shadowAtStart r node) node)
    (hwritable : node.Hostname ∉ r.Store.Unwritable)
    (hnormal : (reconcileNode r node).2 = NodeResult.processed ∨
      (reconcileNode r node).2 = NodeResult.skipped) :
    processDeletions (shadowAtStart (reconcileNode r node).1 node) node =
      (shadowAtStart (reconcileNode r node).1 node, false) ∧
    processAdditions (shadowAtStart (reconcileNode r node).1 node) node =
      (shadowAtStart (reconcileNode r node).1 node, false) ∧
    (reconcileNode (reconcileNode r node).1 node).2 = NodeResult.skipped ∧
    (reconcileNode (reconcileNode r node).1 node).1.System.Calls =
      (reconcileNode r node).1.System.Calls ∧
    (reconcileNode (reconcileNode r node).1 node).1.Store = (reconcileNode r node).1.Store := by
  have hdel := processDeletions_settled _ node hsettled
  by_cases hchange : ReportsChange r node
  · obtain ⟨hsession, hreturns⟩ := reconcileNode_normal r node hnode hchange hnormal
    have hrec := reconcileNode_processed r node hnode hchange hsession hreturns
    have hstored : shadowAtStart (reconcileNode r node).1 node = (shadowApplied r node).1 := by
      rw [hrec]
      simp only [shadowAtStart, kvstore.KvStore.SetMetadata, hwritable, if_false,
        kvstore.KvStore.GetMetadata]
      rw [GoMap.get_put_same]
      rfl
    have hpending : shadowPending r node = (processAdditions (shadowAtStart r node) node).1 := by
      rw [shadowPending, hdel]
    have h2 : Settled (shadowPending r node) node := by
      rw [hpending]
      exact processAdditions_settled _ node hwf hfull hsettled
    have h3 : Covers (shadowPending r node) node := by
      rw [hpending]
      exact processAdditions_covers _ node
    have halike := processMetadata_alike (sessionOf r).1 (shadowPending r node)
    have hD := processDeletions_settled _ node (settled_of_alike node _ _ halike h2)
    have hA := processAdditions_covered _ node (covers_of_alike node _ _ halike h3)
    have hD' : processDeletions (shadowAtStart (reconcileNode r node).1 node) node =
        (shadowAtStart (reconcileNode r node).1 node, false) := by
      rw [hstored]
      exact hD
    have hA' : processAdditions (shadowAtStart (reconcileNode r node).1 node) node =
        (shadowAtStart (reconcileNode r node).1 node, false) := by
      rw [hstored]
      exact hA
    have hidle : reconcileNode (reconcileNode r node).1 node =
        ((reconcileNode r node).1, NodeResult.skipped) := by
      apply reconcileNode_unchanged
      intro hc
      unfold ReportsChange at hc
      rw [hD', hA'] at hc
      rcases hc with h | h <;> cases h
    rw [hidle]
    exact ⟨hD', hA', rfl, rfl, rfl⟩
  · have hfirst := reconcileNode_unchanged r node hchange
    have hA : processAdditions (shadowAtStart r node) node = (shadowAtStart r node, false) := by
      apply processAdditions_unflagged
      cases h : (processAdditions (shadowAtStart r node) node).2
      · rfl
      · exact absurd (Or.inr (by rw [hdel]; exact h)) hchange
    rw [hfirst, hfirst]
    exact ⟨hdel, hA, rfl, rfl, rfl⟩

/-- Witness of the amended C1: from an empty store, with a storage system in
which the creation of the pool `p1` fails, the first pass over the node of
`host-a` declaring `d1`, `p1` and `/dev/sdb` is processed (`processMetadata`
returns the error and the shadow is stored); the second pass skips the
node. -/
theorem second_pass_idle_witness :
    (reconcileNode ⟨emptyStore, systemRefusingPool, false⟩
        (nodeHostA (declaredD1 [declaredPool "p1" ["/dev/sdb"]]))).2 = NodeResult.processed ∧
    (reconcileNode
        (reconcileNode ⟨emptyStore, systemRefusingPool, false⟩
          (nodeHostA (declaredD1 [declaredPool "p1" ["/dev/sdb"]]))).1
        (nodeHostA (declaredD1 [declaredPool "p1" ["/dev/sdb"]]))).2 = NodeResult.skipped :=
  ⟨by decide,
    (second_pass_idle ⟨emptyStore, systemRefusingPool, false⟩
      (nodeHostA (declaredD1 [declaredPool "p1" ["/dev/sdb"]])) (Or.inl rfl)
      (by simp [DeclaredMapsWellFormed, nodeHostA, declaredD1, declaredPool, GoMap.keys])
      (by simp [FullyDeclared, nodeHostA, declaredD1, declaredPool, sliceLen])
      (by simp [Settled, shadowAtStart, kvstore.KvStore.GetMetadata, emptyStore, GoMap.get])
      (by simp [emptyStore]) (Or.inl (by decide))).2.2.1⟩

/-! ## C25: a pass that changes nothing and is not skipped -/

/-- C25, evaluated on the code: for the stored shadow metadata of `host-a`
holding the domain `d1` flagged Delete, and the node of `host-a` declaring no
domain, `processDeletions` and then `processAdditions` leave the metadata as
it was, `processDeletions` returns true, and the node loop of
`addResourcesToScaleIO` does not skip the node: it creates the client session
and runs `processMetadata`, which calls the storage system. -/
theorem unchanged_shadow_is_not_skipped :
    processDeletions (shadowD1 false true [] []) (nodeHostA []) =
      (shadowD1 false true [] [], true) ∧
    processAdditions (shadowD1 false true [] []) (nodeHostA []) =
      (shadowD1 false true [] [], false) ∧
    (fun result : Reconciler × NodeResult =>
        (result.2, result.1.Session, result.1.System.Calls, result.1.Store))
      (reconcileNode ⟨storeDeletedD1, emptySystem, false⟩ (nodeHostA [])) =
      (NodeResult.processed, true,
        [.Authenticate, .FindSystem, .FindProtectionDomain "d1", .FindProtectionDomain "d1"],
        storeDeletedD1) := by
  decide

/-! ## C26: the handle of the storage-serving entity -/

theorem attachDevices_without_handle (domain pool : String) (devices : GoMap kvstore.Device)
    (c : ExtClient) (h : ∃ device ∈ devices, device.2.Add = true ∧ device.2.Delete = false) :
    attachDevices none domain pool devices c = (c, PassResult.nilPointerDereference) := by
  induction devices with
  | nil =>
    obtain ⟨device, hmem, -⟩ := h
    cases hmem
  | cons first rest ih =>
    obtain ⟨key, device⟩ := first
    cases hdel : device.Delete with
    | true =>
      simp only [attachDevices, hdel, if_true]
      apply ih
      obtain ⟨other, hmem, hadd, hnot⟩ := h
      rcases List.mem_cons.mp hmem with heq | hrest
      · subst heq
        rw [hdel] at hnot
        cases hnot
      · exact ⟨other, hrest, hadd, hnot⟩
    | false =>
      cases hadd : device.Add with
      | true => simp [attachDevices, hdel, hadd]
      | false =>
        simp only [attachDevices, hdel, hadd, Bool.false_eq_true, if_false]
        apply ih
        obtain ⟨other, hmem, hotherAdd, hnot⟩ := h
        rcases List.mem_cons.mp hmem with heq | hrest
        · subst heq
          rw [hadd] at hotherAdd
          cases hotherAdd
        · exact ⟨other, hrest, hotherAdd, hnot⟩

/-- C26, on the code: the device loop of `processMetadata` runs with the handle
`scaleioSds` that `processDomain` declares nil and never assigns, so for every
pool holding a device flagged `Add` and not `Delete` it ends in a nil-pointer
dereference without any call of `AttachDevice`; and evaluated for the shadow of
`d1`, the entity 10.0.0.1, `p1` and `/dev/sdb` flagged `Add`, against a storage
system that holds the domain, the entity and the pool: every lookup succeeds,
`AttachDevice` is not called and the pass ends in the nil-pointer dereference. -/
theorem processMetadata_dereferences_nil_handle :
    (∀ (domain pool : String) (devices : GoMap kvstore.Device) (c : ExtClient),
      (∃ device ∈ devices, device.2.Add = true ∧ device.2.Delete = false) →
      attachDevices none domain pool devices c = (c, PassResult.nilPointerDereference)) ∧
    (fun applied : kvstore.Metadata × ExtClient × PassResult =>
        (applied.2.2, applied.2.1.Calls))
      (processMetadata systemWithEntity
        (shadowD1 false false [shadowSds false false]
          [shadowPool "p1" false false [shadowDevice "/dev/sdb" true false]])) =
      (PassResult.nilPointerDereference,
        [.FindSystem, .FindProtectionDomain "d1", .FindSds "d1" "10.0.0.1",
          .FindStoragePool "d1" "p1"]) :=
  ⟨attachDevices_without_handle, by decide⟩

/-! ## C27: the device list of a decoded pool -/

/-- C27, evaluated on the code: the offer names the pool `p1` twice in the pool
list of `d1`; the attribute `scaleio-sds-d1-p1` is present and its comma-split
value is `/dev/sdb`, and the decoded device list of `p1` is `/dev/sdb`,
`/dev/sdb`: the decoder appends the devices each time the pool is visited. -/
theorem prepareScaleIONode_device_list_repeats :
    (prepareScaleIONode storeHostA offerRepeatedPool).toOption.map
        (fun node => node.ProvidesDomains) =
      some (declaredD1 [declaredPool "p1" ["/dev/sdb", "/dev/sdb"]]) ∧
    devicesByKeyScheme offerRepeatedPool.Attributes appendServerPrefix "d1" "p1" =
      some ["/dev/sdb"] := by
  decide

/-! ## C29: a role that is already assigned -/

/-- Counterexample to C29 as stated: the cluster state holds the node of
`host-a` with the primary manager role and the store has no record of it, so
the hostname that the store gives for the role is empty; `selectAnMdmNode` for
the primary role, called as `performNodeSelection` calls it, persists the
offer of `host-b` as primary manager and registers it as a second node. -/
theorem selectAnMdmNode_assigned_role_counterexample :
    (∃ node ∈ schedulerWithPrimary.Nodes, node.Persona = types.PersonaMdmPrimary) ∧
    (fun result : ScaleIOScheduler × Option GoError =>
        (result.2, result.1.Store.Nodes,
          result.1.Nodes.map (fun node => (node.Hostname, node.Persona))))
      (selectAnMdmNode personaName schedulerWithPrimary [offerOf "host-b" 4 8 []]
        schedulerWithPrimary.Store.GetMdmNodes.1 types.PersonaMdmPrimary) =
      (none, [("host-b", ⟨types.PersonaMdmPrimary, types.StateUnknown⟩)],
        [("host-a", types.PersonaMdmPrimary), ("host-b", types.PersonaMdmPrimary)]) := by
  refine ⟨⟨_, List.mem_singleton.mpr rfl, rfl⟩, ?_⟩
  decide!

/-- C29, amended: for every cluster state that holds a node whose hostname is
the hostname passed for the role (in `performNodeSelection`, the hostname that
the store records for the role), for every list of offers and every store
content, `selectAnMdmNode` returns no error and leaves the scheduler, its node
list and its store included, as it was. -/
theorem selectAnMdmNode_registered_is_noop (personaIDToString : Int → String)
    (s : ScaleIOScheduler) (offers : List mesos.Offer) (nodeID : String) (mdmType : Int)
    (h : nodeID ∈ s.Nodes.map (fun node => node.Hostname)) :
    selectAnMdmNode personaIDToString s offers nodeID mdmType = (s, none) := by
  cases hfind : FindScaleIONodeByHostname s.Nodes nodeID with
  | none => exact absurd h ((find_eq_none_iff _ _).mp hfind)
  | some node => simp [selectAnMdmNode, hfind]

/-- Witness of C29: the cluster state holding the node of `host-a`, with the
hostname `host-a` passed for the primary role. -/
theorem selectAnMdmNode_registered_is_noop_witness :
    selectAnMdmNode personaName schedulerWithPrimary [offerOf "host-b" 4 8 []] "host-a"
      types.PersonaMdmPrimary = (schedulerWithPrimary, none) :=
  selectAnMdmNode_registered_is_noop personaName schedulerWithPrimary
    [offerOf "host-b" 4 8 []] "host-a" types.PersonaMdmPrimary (by decide)

/-! ## C30: the reboot flag and the reboot command -/

/-- Counterexample to C30 as stated: on a host where environment setup succeeds
and asks for a reboot, with `Debug` false and `RebootRequired` false,
`RunStateUnknown` issues the reboot command, after signalling
`StatePrerequisitesInstalled`. -/
theorem secondaryMdm_reboot_counterexample :
    (scaleionodes.RunStateUnknown hostAskingReboot ⟨false, false, false, false⟩).2 =
      [.setup .EnvironmentSetup, .signal .StateCleanPrereqsReboot,
        .wait .WaitForCleanPrereqsReboot, .signal .StatePrerequisitesInstalled,
        .rebootCommand, .waitForReboot] ∧
    scaleionodes.Event.rebootCommand ∈
      (scaleionodes.RunStateUnknown hostAskingReboot ⟨false, false, false, false⟩).2 := by
  decide

/-- C30, amended: across the lifecycle functions of the secondary manager node,
`RebootRequired` is never reset: `RunStateInitializeCluster` and
`RunStateInstallRexRay` leave it OR-ed with the reboot result of their first
step when that step succeeds, every other case leaves it as it was. The reboot
command is issued in two places only: by `RunStateInstallRexRay` exactly when
both its steps succeed, `RebootRequired` (after the OR) is true and `Debug` is
false, and then after the clean-install-reboot barrier and the signal
`StateSystemReboot`; and by `RunStateUnknown` exactly when environment setup
succeeds and asks for a reboot and `Debug` is false. No other function issues
it. -/
theorem secondaryMdm_reboot_rule (host : scaleionodes.Host)
    (ssmn : scaleionodes.ScaleioSecondaryMdmNode) :
    (scaleionodes.RunStateUnknown host ssmn).1.RebootRequired = ssmn.RebootRequired ∧
    (scaleionodes.RunStatePrerequisitesInstalled host ssmn).1.RebootRequired =
      ssmn.RebootRequired ∧
    (scaleionodes.RunStateBasePackagedInstalled host ssmn).1.RebootRequired =
      ssmn.RebootRequired ∧
    (scaleionodes.RunStateInitializeCluster host ssmn).1.RebootRequired =
      (ssmn.RebootRequired || (!host.fails .GatewaySetup && host.reboot .GatewaySetup)) ∧
    (scaleionodes.RunStateInstallRexRay host ssmn).1.RebootRequired =
      (ssmn.RebootRequired || (!host.fails .RexraySetup && host.reboot .RexraySetup)) ∧
    (scaleionodes.RunStateSystemReboot host ssmn).1.RebootRequired = ssmn.RebootRequired ∧
    (scaleionodes.RunStateFinishInstall host ssmn).1.RebootRequired = ssmn.RebootRequired ∧
    (scaleionodes.RunStateUpgradeCluster host ssmn).1.RebootRequired = ssmn.RebootRequired ∧
    (scaleionodes.Event.rebootCommand ∈ (scaleionodes.RunStateInstallRexRay host ssmn).2 ↔
      host.fails .RexraySetup = false ∧ host.fails .SetupIsolator = false ∧
        (ssmn.RebootRequired || host.reboot .RexraySetup) = true ∧ ssmn.Debug = false) ∧
    (scaleionodes.Event.rebootCommand ∈ (scaleionodes.RunStateInstallRexRay host ssmn).2 →
      (scaleionodes.RunStateInstallRexRay host ssmn).2 =
        [.setup .RexraySetup, .setup .SetupIsolator, .signal .StateCleanInstallReboot,
          .wait .WaitForCleanInstallReboot, .signal .StateSystemReboot] ++
          scaleionodes.rebootHost host) ∧
    (scaleionodes.Event.rebootCommand ∈ (scaleionodes.RunStateUnknown host ssmn).2 ↔
      host.fails .EnvironmentSetup = false ∧ host.reboot .EnvironmentSetup = true ∧
        ssmn.Debug = false) ∧
    scaleionodes.Event.rebootCommand ∉
      (scaleionodes.RunStatePrerequisitesInstalled host ssmn).2 ∧
    scaleionodes.Event.rebootCommand ∉
      (scaleionodes.RunStateBasePackagedInstalled host ssmn).2 ∧
    scaleionodes.Event.rebootCommand ∉ (scaleionodes.RunStateInitializeCluster host ssmn).2 ∧
    scaleionodes.Event.rebootCommand ∉ (scaleionodes.RunStateSystemReboot host ssmn).2 ∧
    scaleionodes.Event.rebootCommand ∉ (scaleionodes.RunStateFinishInstall host ssmn).2 ∧
    scaleionodes.Event.rebootCommand ∉ (scaleionodes.RunStateUpgradeCluster host ssmn).2 := by
  refine ⟨?_, ?_, rfl, ?_, ?_, rfl, rfl, rfl, ?_, ?_, ?_, ?_, ?_, ?_, ?_, ?_, ?_⟩
  · cases h1 : host.fails .EnvironmentSetup <;> simp [scaleionodes.RunStateUnknown, h1]
  · cases h1 : host.fails .ManagementSetup <;> cases h2 : host.fails .NodeSetup <;>
      cases h3 : host.fails .UpdateDevices <;>
      simp [scaleionodes.RunStatePrerequisitesInstalled, h1, h2, h3]
  · cases h1 : host.fails .GatewaySetup <;>
      simp [scaleionodes.RunStateInitializeCluster, h1]
  · cases h1 : host.fails .RexraySetup <;> cases h2 : host.fails .SetupIsolator <;>
      simp [scaleionodes.RunStateInstallRexRay, h1, h2]
  · cases h1 : host.fails .RexraySetup <;> cases h2 : host.fails .SetupIsolator <;>
      cases h3 : host.reboot .RexraySetup <;> cases h4 : ssmn.RebootRequired <;>
      cases h5 : ssmn.Debug <;> cases h6 : host.runsScheduler <;>
      simp [scaleionodes.RunStateInstallRexRay, scaleionodes.rebootHost, h1, h2, h3, h4, h5, h6]
  · cases h1 : host.fails .RexraySetup <;> cases h2 : host.fails .SetupIsolator <;>
      cases h3 : host.reboot .RexraySetup <;> cases h4 : ssmn.RebootRequired <;>
      cases h5 : ssmn.Debug <;> cases h6 : host.runsScheduler <;>
      simp [scaleionodes.RunStateInstallRexRay, scaleionodes.rebootHost, h1, h2, h3, h4, h5, h6]
  · cases h1 : host.fails .EnvironmentSetup <;> cases h2 : host.reboot .EnvironmentSetup <;>
      cases h3 : ssmn.Debug <;> cases h4 : host.runsScheduler <;>
      simp [scaleionodes.RunStateUnknown, scaleionodes.rebootHost, h1, h2, h3, h4]
  · cases h1 : host.fails .ManagementSetup <;> cases h2 : host.fails .NodeSetup <;>
      cases h3 : host.fails .UpdateDevices <;>
      simp [scaleionodes.RunStatePrerequisitesInstalled, h1, h2, h3]
  · simp [scaleionodes.RunStateBasePackagedInstalled]
  · cases h1 : host.fails .GatewaySetup <;>
      simp [scaleionodes.RunStateInitializeCluster, h1]
  · simp [scaleionodes.RunStateSystemReboot]
  · cases h1 : ssmn.Declarative <;> cases h2 : ssmn.Advertised <;>
      simp [scaleionodes.RunStateFinishInstall, h1, h2]
  · simp [scaleionodes.RunStateUpgradeCluster]

/-! ## C31: the role prefix of a lookup key -/

/-- C31, evaluated on the code: the key `d1-scaleio-sds-x` contains the server
prefix without beginning with it, and `appendServerPrefix` returns it as it is,
so the result does not begin with `scaleio-sds-` and is not the prefix followed
by the key; likewise `appendClientPrefix` for the key `d1-scaleio-sdc-x`. -/
theorem appendServerPrefix_keeps_inner_prefix :
    appendServerPrefix "d1-scaleio-sds-x" = "d1-scaleio-sds-x" ∧
    stringsHasPrefix (appendServerPrefix "d1-scaleio-sds-x") "scaleio-sds-" = false ∧
    appendServerPrefix "d1-scaleio-sds-x" ≠ "scaleio-sds-" ++ "d1-scaleio-sds-x" ∧
    appendClientPrefix "d1-scaleio-sdc-x" = "d1-scaleio-sdc-x" ∧
    stringsHasPrefix (appendClientPrefix "d1-scaleio-sdc-x") "scaleio-sdc-" = false ∧
    appendClientPrefix "d1-scaleio-sdc-x" ≠ "scaleio-sdc-" ++ "d1-scaleio-sdc-x" := by
  decide

/-! ## C35: the best-fit choice depends on the order of the offers -/

/-- C35: with minimum CPU 1, minimum memory 1 and both scale factors 1 over an
empty store, the offers A (4 CPUs, memory 4) and B (3.5 CPUs, memory 6) are
both without persisted metadata and both pass the filter; from the list A, B
`obtainBestOfferForMdm` returns B, and from the list B, A it returns A. -/
theorem obtainBestOfferForMdm_depends_on_order :
    ∃ A B : mesos.Offer,
      emptyStore.Nodes.get A.Hostname = none ∧ emptyStore.Nodes.get B.Hostname = none ∧
      ¬ belowMdmMinimum (configOf 1 1) A ∧ ¬ belowMdmMinimum (configOf 1 1) B ∧
      (offerCPU A, offerMem A) = (Float64.finite 4, Float64.finite 4) ∧
      (offerCPU B, offerMem B) = (Float64.finite (7 / 2), Float64.finite 6) ∧
      obtainBestOfferForMdm (configOf 1 1) emptyStore [A, B] = some B ∧
      obtainBestOfferForMdm (configOf 1 1) emptyStore [B, A] = some A :=
  ⟨offerOf "host-a" 4 4 [], offerOf "host-b" (7 / 2) 6 [], by decide!⟩

/-! ## C33: the second round of the two passes from empty shadow metadata -/

/-- C33: for every node whose declared topology gives every domain at least
one pool and every pool at least one device (each declared map holding one
entry per key, as a Go map does), starting from empty shadow metadata: on the
shadow metadata that `processDeletions` and then `processAdditions` leave,
`processDeletions` with the same node returns false and leaves it as it is,
and so does `processAdditions` after it. -/
theorem second_round_idle_from_empty (node : types.ScaleIONode)
    (hwf : DeclaredMapsWellFormed node) (hfull : FullyDeclared node) :
    processDeletions
        (processAdditions (processDeletions { ProtectionDomains := [] } node).1 node).1 node =
      ((processAdditions (processDeletions { ProtectionDomains := [] } node).1 node).1,
        false) ∧
    processAdditions
        (processDeletions
          (processAdditions (processDeletions { ProtectionDomains := [] } node).1 node).1
          node).1 node =
      ((processAdditions (processDeletions { ProtectionDomains := [] } node).1 node).1,
        false) := by
  have hempty : processDeletions { ProtectionDomains := [] } node =
      ({ ProtectionDomains := [] }, false) := rfl
  rw [hempty]
  have hsettled : Settled (processAdditions { ProtectionDomains := [] } node).1 node :=
    processAdditions_settled _ node hwf hfull (fun domain hmem => by cases hmem)
  have hdel := processDeletions_settled _ node hsettled
  rw [hdel]
  exact ⟨rfl, processAdditions_covered _ node (processAdditions_covers _ node)⟩

/-- Witness of C33: the node of `host-a` declaring `d1`, `p1` and `/dev/sdb`. -/
theorem second_round_idle_from_empty_witness :
    processDeletions
        (processAdditions
          (processDeletions { ProtectionDomains := [] }
            (nodeHostA (declaredD1 [declaredPool "p1" ["/dev/sdb"]]))).1
          (nodeHostA (declaredD1 [declaredPool "p1" ["/dev/sdb"]]))).1
        (nodeHostA (declaredD1 [declaredPool "p1" ["/dev/sdb"]])) =
      (shadowD1 true false [shadowSds true false]
        [shadowPool "p1" true false [shadowDevice "/dev/sdb" true false]], false) :=
  ((second_round_idle_from_empty (nodeHostA (declaredD1 [declaredPool "p1" ["/dev/sdb"]]))
    (by simp [DeclaredMapsWellFormed, nodeHostA, declaredD1, declaredPool, GoMap.keys])
    (by simp [FullyDeclared, nodeHostA, declaredD1, declaredPool, sliceLen])).1).trans
    (by decide)

/-! ## C34: when best-fit selection finds an offer -/

theorem considerOffer_of_not_candidate (cfg : Config) (store : kvstore.KvStore)
    (best : BestOffer) (offer : mesos.Offer) (h : ¬ Candidate cfg store offer) :
    considerOffer cfg store best offer = best := by
  cases hget : store.Nodes.get offer.Hostname with
  | some info => simp [considerOffer, kvstore.KvStore.GetNodeInfo, hget]
  | none =>
    have hbelow : belowMdmMinimum cfg offer := by
      by_contra hnot
      exact h ⟨hget, hnot⟩
    simp [considerOffer, kvstore.KvStore.GetNodeInfo, hget, hbelow]

theorem considerOffer_cases (cfg : Config) (store : kvstore.KvStore) (best : BestOffer)
    (offer : mesos.Offer) :
    considerOffer cfg store best offer = best ∨
      (Candidate cfg store offer ∧
        considerOffer cfg store best offer = ⟨offerCPU offer, offerMem offer, some offer⟩) := by
  by_cases hcand : Candidate cfg store offer
  · rw [considerOffer_candidate cfg store best offer hcand.1 hcand.2]
    split_ifs
    · exact Or.inr ⟨hcand, rfl⟩
    · exact Or.inr ⟨hcand, rfl⟩
    · exact Or.inl rfl
  · exact Or.inl (considerOffer_of_not_candidate cfg store best offer hcand)

theorem candidate_positive (cfg : Config) (store : kvstore.KvStore) (offer : mesos.Offer)
    (fc fm : ℚ)
    (hcpu : Float64.finite 0 ≤ cfg.ExecutorMdmCPU) (hmem : Float64.finite 0 ≤ cfg.ExecutorMdmMemory)
    (hfc : cfg.ExecutorCPUFactor = Float64.finite fc) (hfcpos : 0 < fc)
    (hfm : cfg.ExecutorMemoryFactor = Float64.finite fm) (hfmpos : 0 < fm)
    (hnum : offerCPU offer ≠ Float64.nan ∧ offerMem offer ≠ Float64.nan)
    (h : Candidate cfg store offer) :
    Float64.finite 0 < offerCPU offer ∧ Float64.finite 0 < offerMem offer := by
  have hpass := h.2
  simp only [belowMdmMinimum, not_or, ge_iff_le] at hpass
  rw [hfc, hfm] at hpass
  constructor
  · exact Float64.pos_of_mul_pos _ fc hfcpos
      (Float64.pos_of_le_of_lt _ _ hcpu
        (Float64.lt_of_not_le _ _ (Float64.ne_nan_of_le _ _ hcpu)
          (Float64.mul_finite_ne_nan _ fc hfcpos hnum.1) hpass.1))
  · exact Float64.pos_of_mul_pos _ fm hfmpos
      (Float64.pos_of_le_of_lt _ _ hmem
        (Float64.lt_of_not_le _ _ (Float64.ne_nan_of_le _ _ hmem)
          (Float64.mul_finite_ne_nan _ fm hfmpos hnum.2) hpass.2))

theorem considerOffer_first (cfg : Config) (store : kvstore.KvStore) (best : BestOffer)
    (offer : mesos.Offer) (hcand : Candidate cfg store offer)
    (hpos : Float64.finite 0 < offerCPU offer) (hposMem : Float64.finite 0 < offerMem offer)
    (hc : best.highestCPU = Float64.finite 0) (hm : best.highestMem = Float64.finite 0) :
    considerOffer cfg store best offer = ⟨offerCPU offer, offerMem offer, some offer⟩ := by
  rw [considerOffer_candidate cfg store best offer hcand.1 hcand.2, hc, hm]
  have hfirst : offerCPU offer > Float64.finite 0 * Float64.ofRat (3 / 4) ∧
      offerMem offer > Float64.finite 0 * Float64.ofRat (5 / 4) := by
    rw [Float64.ofRat_three_quarters, Float64.ofRat_five_quarters, Float64.zero_mul_finite,
      Float64.zero_mul_finite]
    exact ⟨hpos, hposMem⟩
  rw [if_pos hfirst]

theorem considerOffer_tracks (cfg : Config) (store : kvstore.KvStore)
    (seen : List mesos.Offer) (best : BestOffer) (offer : mesos.Offer)
    (hpos : Candidate cfg store offer →
      Float64.finite 0 < offerCPU offer ∧ Float64.finite 0 < offerMem offer)
    (h : BestTracks cfg store seen best) :
    BestTracks cfg store (seen ++ [offer]) (considerOffer cfg store best offer) := by
  by_cases hcand : Candidate cfg store offer
  · have hpos := hpos hcand
    have hnew : ∀ other, (⟨offerCPU offer, offerMem offer, some offer⟩ : BestOffer).higherOffer =
        some other → other ∈ seen ++ [offer] ∧ Candidate cfg store other := by
      intro other hother
      simp only [Option.some.injEq] at hother
      subst hother
      exact ⟨List.mem_append_right _ (List.mem_singleton.mpr rfl), hcand⟩
    rcases considerOffer_cases cfg store best offer with hsame | ⟨-, hreplace⟩
    · rw [hsame]
      constructor
      · intro hnone
        have hzero := h.1 hnone
        rw [considerOffer_first cfg store best offer hcand hpos.1 hpos.2 hzero.1 hzero.2.1]
          at hsame
        rw [← hsame] at hnone
        cases hnone
      · intro other hother
        exact ⟨List.mem_append_left _ (h.2 other hother).1, (h.2 other hother).2⟩
    · rw [hreplace]
      exact ⟨fun hnone => (by cases hnone), hnew⟩
  · rw [considerOffer_of_not_candidate cfg store best offer hcand]
    constructor
    · intro hnone
      obtain ⟨hc, hm, hseen⟩ := h.1 hnone
      refine ⟨hc, hm, fun other hmem => ?_⟩
      rcases List.mem_append.mp hmem with hold | hlast
      · exact hseen other hold
      · rw [List.mem_singleton.mp hlast]
        exact hcand
    · intro other hother
      exact ⟨List.mem_append_left _ (h.2 other hother).1, (h.2 other hother).2⟩

theorem foldl_considerOffer_tracks (cfg : Config) (store : kvstore.KvStore)
    (offers : List mesos.Offer) :
    ∀ (seen : List mesos.Offer) (best : BestOffer),
      (∀ offer ∈ offers, Candidate cfg store offer →
        Float64.finite 0 < offerCPU offer ∧ Float64.finite 0 < offerMem offer) →
      BestTracks cfg store seen best →
      BestTracks cfg store (seen ++ offers) (offers.foldl (considerOffer cfg store) best) := by
  induction offers with
  | nil =>
    intro seen best _ h
    rw [List.append_nil]
    exact h
  | cons offer rest ih =>
    intro seen best hpos h
    have hstep := ih (seen ++ [offer]) _
      (fun other hother => hpos other (List.mem_cons_of_mem _ hother))
      (considerOffer_tracks cfg store seen best offer (hpos offer (List.mem_cons_self _ _)) h)
    rw [List.append_assoc, List.singleton_append] at hstep
    exact hstep

/-- C34 as stated fails. With minimums 1 and factors 1 over an empty store,
the offer of `host-a` whose `cpus` value is NaN is without persisted metadata
and is not discarded by the filter (a comparison with NaN is false), yet it
never exceeds the running best and `obtainBestOfferForMdm` returns nil. With
minimums 0 and the CPU scale factor the positive infinity, the same holds of
the offer of `host-a` that brings 0 CPUs and 8 of memory: its scaled CPU is
NaN. -/
theorem obtainBestOfferForMdm_finds_candidate_counterexample :
    (emptyStore.Nodes.get offerNotANumber.Hostname = none ∧
      Float64.finite 0 ≤ (configOf 1 1).ExecutorMdmCPU ∧
      Float64.finite 0 ≤ (configOf 1 1).ExecutorMdmMemory ∧
      Float64.finite 0 < (configOf 1 1).ExecutorCPUFactor ∧
      Float64.finite 0 < (configOf 1 1).ExecutorMemoryFactor ∧
      ¬ belowMdmMinimum (configOf 1 1) offerNotANumber ∧
      obtainBestOfferForMdm (configOf 1 1) emptyStore [offerNotANumber] = none) ∧
    (emptyStore.Nodes.get (offerOf "host-a" 0 8 []).Hostname = none ∧
      Float64.finite 0 ≤ configInfiniteFactor.ExecutorMdmCPU ∧
      Float64.finite 0 ≤ configInfiniteFactor.ExecutorMdmMemory ∧
      Float64.finite 0 < configInfiniteFactor.ExecutorCPUFactor ∧
      Float64.finite 0 < configInfiniteFactor.ExecutorMemoryFactor ∧
      ¬ belowMdmMinimum configInfiniteFactor (offerOf "host-a" 0 8 []) ∧
      obtainBestOfferForMdm configInfiniteFactor emptyStore [offerOf "host-a" 0 8 []] = none) := by
  decide!

/-- C34, amended: for every list of offers none of whose CPU and memory sums
is NaN and every store, with non-negative configured minimums and finite
positive scale factors: `obtainBestOfferForMdm` returns nil exactly when no
offer of the list is without persisted metadata and passes the filter; and an
offer it returns is one of the list, is without persisted metadata and passes
the filter. -/
theorem obtainBestOfferForMdm_finds_candidate (cfg : Config) (store : kvstore.KvStore)
    (offers : List mesos.Offer) (fc fm : ℚ)
    (hcpu : Float64.finite 0 ≤ cfg.ExecutorMdmCPU)
    (hmem : Float64.finite 0 ≤ cfg.ExecutorMdmMemory)
    (hfc : cfg.ExecutorCPUFactor = Float64.finite fc) (hfcpos : 0 < fc)
    (hfm : cfg.ExecutorMemoryFactor = Float64.finite fm) (hfmpos : 0 < fm)
    (hnum : ∀ offer ∈ offers, offerCPU offer ≠ Float64.nan ∧ offerMem offer ≠ Float64.nan) :
    (obtainBestOfferForMdm cfg store offers = none ↔
      ∀ offer ∈ offers,
        ¬ (store.Nodes.get offer.Hostname = none ∧ ¬ belowMdmMinimum cfg offer)) ∧
    (∀ offer, obtainBestOfferForMdm cfg store offers = some offer →
      offer ∈ offers ∧ store.Nodes.get offer.Hostname = none ∧
        ¬ belowMdmMinimum cfg offer) := by
  have htracks := foldl_considerOffer_tracks cfg store offers []
    ⟨Float64.finite 0, Float64.finite 0, none⟩
    (fun offer hoffer hcand => candidate_positive cfg store offer fc fm hcpu hmem hfc hfcpos hfm
      hfmpos (hnum offer hoffer) hcand)
    ⟨fun _ => ⟨rfl, rfl, fun offer hmem => (by cases hmem)⟩, fun offer h => (by cases h)⟩
  rw [List.nil_append] at htracks
  refine ⟨⟨fun hnone => (htracks.1 hnone).2.2, fun hno => ?_⟩, fun offer hsome => ?_⟩
  · cases hbest : obtainBestOfferForMdm cfg store offers with
    | none => rfl
    | some offer =>
      have hfound := htracks.2 offer hbest
      exact absurd hfound.2 (hno offer hfound.1)
  · exact ⟨(htracks.2 offer hsome).1, (htracks.2 offer hsome).2.1, (htracks.2 offer hsome).2.2⟩

/-- Witness of the amended C34: with minimums 1 and factors 1 over an empty
store, the offer of `host-a` below the minimum and the offer of `host-b` above
it. -/
theorem obtainBestOfferForMdm_finds_candidate_witness :
    obtainBestOfferForMdm (configOf 1 1) emptyStore
        [offerOf "host-a" (1 / 2) 8 [], offerOf "host-b" 2 2 []] =
      some (offerOf "host-b" 2 2 []) ∧
    offerOf "host-b" 2 2 [] ∈ [offerOf "host-a" (1 / 2) 8 [], offerOf "host-b" 2 2 []] ∧
    emptyStore.Nodes.get (offerOf "host-b" 2 2 []).Hostname = none ∧
    ¬ belowMdmMinimum (configOf 1 1) (offerOf "host-b" 2 2 []) :=
  ⟨by decide!,
    (obtainBestOfferForMdm_finds_candidate (configOf 1 1) emptyStore
      [offerOf "host-a" (1 / 2) 8 [], offerOf "host-b" 2 2 []] 1 1 (by decide!) (by decide!)
      (by decide!) (by norm_num) (by decide!) (by norm_num) (by decide!)).2
      (offerOf "host-b" 2 2 []) (by decide!)⟩

/-! ## C28: an offer exactly at the configured minimum -/

/-- C28 as stated fails: with minimum CPU 1, minimum memory 1 and both scale
factors 1, the offer of `host-a` bringing 1 CPU and 1 memory has no persisted
metadata and its scaled CPU and scaled memory equal the minimums, neither
being below them; the filter of `obtainBestOfferForMdm` discards it, so no
offer is returned, while the offer of `host-b` bringing 2 CPUs and 2 memory is
returned. -/
theorem obtainBestOfferForMdm_discards_at_minimum :
    emptyStore.Nodes.get (offerOf "host-a" 1 1 []).Hostname = none ∧
    offerCPU (offerOf "host-a" 1 1 []) * (configOf 1 1).ExecutorCPUFactor =
      (configOf 1 1).ExecutorMdmCPU ∧
    offerMem (offerOf "host-a" 1 1 []) * (configOf 1 1).ExecutorMemoryFactor =
      (configOf 1 1).ExecutorMdmMemory ∧
    ¬ (offerCPU (offerOf "host-a" 1 1 []) * (configOf 1 1).ExecutorCPUFactor <
      (configOf 1 1).ExecutorMdmCPU) ∧
    ¬ (offerMem (offerOf "host-a" 1 1 []) * (configOf 1 1).ExecutorMemoryFactor <
      (configOf 1 1).ExecutorMdmMemory) ∧
    belowMdmMinimum (configOf 1 1) (offerOf "host-a" 1 1 []) ∧
    obtainBestOfferForMdm (configOf 1 1) emptyStore [offerOf "host-a" 1 1 []] = none ∧
    obtainBestOfferForMdm (configOf 1 1) emptyStore [offerOf "host-b" 2 2 []] =
      some (offerOf "host-b" 2 2 []) := by
  decide!

/-- C28, amended: `obtainBestOfferForMdm` discards an offer without persisted
metadata (its loop body leaves every running best as it is) when the offer's
CPU times `ExecutorCPUFactor` is at most `ExecutorMdmCPU` or its memory times
`ExecutorMemoryFactor` is at most `ExecutorMdmMemory`, in particular when both
scaled values equal the minimums; an offer whose scaled CPU and scaled memory
both exceed the minimums, these being non-negative and the factors finite and
positive, is kept: alone in the list it is the offer returned. -/
theorem obtainBestOfferForMdm_filter_rule (cfg : Config) (store : kvstore.KvStore)
    (offer : mesos.Offer) (hNone : store.Nodes.get offer.Hostname = none) :
    (cfg.ExecutorMdmCPU ≥ offerCPU offer * cfg.ExecutorCPUFactor ∨
        cfg.ExecutorMdmMemory ≥ offerMem offer * cfg.ExecutorMemoryFactor →
      ∀ best, considerOffer cfg store best offer = best) ∧
    (offerCPU offer * cfg.ExecutorCPUFactor = cfg.ExecutorMdmCPU →
      offerMem offer * cfg.ExecutorMemoryFactor = cfg.ExecutorMdmMemory →
      cfg.ExecutorMdmCPU ≠ Float64.nan →
      ∀ best, considerOffer cfg store best offer = best) ∧
    (∀ fc fm : ℚ, cfg.ExecutorCPUFactor = Float64.finite fc → 0 < fc →
      cfg.ExecutorMemoryFactor = Float64.finite fm → 0 < fm →
      Float64.finite 0 ≤ cfg.ExecutorMdmCPU → Float64.finite 0 ≤ cfg.ExecutorMdmMemory →
      cfg.ExecutorMdmCPU < offerCPU offer * cfg.ExecutorCPUFactor →
      cfg.ExecutorMdmMemory < offerMem offer * cfg.ExecutorMemoryFactor →
      obtainBestOfferForMdm cfg store [offer] = some offer) := by
  have hdiscard : belowMdmMinimum cfg offer → ∀ best, considerOffer cfg store best offer = best :=
    fun hbelow best => considerOffer_of_not_candidate cfg store best offer (fun h => h.2 hbelow)
  refine ⟨hdiscard, ?_, ?_⟩
  · intro hc _ hnan
    apply hdiscard
    left
    rw [hc]
    show Float64.le cfg.ExecutorMdmCPU cfg.ExecutorMdmCPU = true
    cases hmin : cfg.ExecutorMdmCPU with
    | finite a => simp [Float64.le]
    | inf n => simp [Float64.le]
    | nan => exact absurd hmin hnan
  · intro fc fm hfc hfcpos hfm hfmpos hcpu hmem hltc hltm
    have hcand : Candidate cfg store offer :=
      ⟨hNone, fun hbelow => hbelow.elim (Float64.not_le_of_lt _ _ hltc)
        (Float64.not_le_of_lt _ _ hltm)⟩
    rw [hfc] at hltc
    rw [hfm] at hltm
    have hposc := Float64.pos_of_mul_pos _ fc hfcpos (Float64.pos_of_le_of_lt _ _ hcpu hltc)
    have hposm := Float64.pos_of_mul_pos _ fm hfmpos (Float64.pos_of_le_of_lt _ _ hmem hltm)
    simp only [obtainBestOfferForMdm, List.foldl_cons, List.foldl_nil]
    rw [considerOffer_first cfg store _ offer hcand hposc hposm rfl rfl]

/-- Witness of the amended C28: with minimums 1 and factors 1 over an empty
store, the offer of `host-b` bringing 2 CPUs and 2 of memory is returned. -/
theorem obtainBestOfferForMdm_filter_rule_witness :
    obtainBestOfferForMdm (configOf 1 1) emptyStore [offerOf "host-b" 2 2 []] =
      some (offerOf "host-b" 2 2 []) :=
  (obtainBestOfferForMdm_filter_rule (configOf 1 1) emptyStore (offerOf "host-b" 2 2 [])
    rfl).2.2 1 1 (by decide!) (by norm_num) (by decide!) (by norm_num) (by decide!) (by decide!)
    (by decide!) (by decide!)

/-! ## C32: Delete flags and entries are never taken back -/

theorem GoMap.keeps_refl {V : Type} (R : V → V → Prop) (hR : ∀ v, R v v) (m : GoMap V) :
    GoMap.Keeps R m m :=
  fun _ v hv => ⟨v, hv, hR v⟩

theorem GoMap.keeps_rangeUpdate {V : Type} (R : V → V → Prop) (f : String → V → V × Bool)
    (h : ∀ k v, R v (f k v).1) (m : GoMap V) : GoMap.Keeps R m (GoMap.rangeUpdate f m).1 := by
  intro k v hv
  rw [GoMap.get_rangeUpdate, hv]
  exact ⟨_, rfl, h k v⟩

theorem GoMap.keeps_of_extends {V : Type} (R R2 : V → V → Prop) (Created : String → V → Prop)
    (h : ∀ a b, R a b → R2 a b) (old new : GoMap V) (hext : GoMap.Extends R Created old new) :
    GoMap.Keeps R2 old new := by
  intro k v hv
  obtain ⟨v', hv', hr⟩ := (hext k).1 v hv
  exact ⟨v', hv', h _ _ hr⟩

theorem GoMap.keeps_of_forall₂ {V : Type} (R : V → V → Prop) (old new : GoMap V)
    (h : List.Forall₂ (fun a b => a.1 = b.1 ∧ R a.2 b.2) old new) : GoMap.Keeps R old new := by
  intro k v hv
  obtain ⟨w, hw, -, hr⟩ := get_of_forall₂ (fun _ _ hab => hab.1) h k v hv
  exact ⟨w, hw, hr⟩

theorem poolHolds_refl (pool : kvstore.StoragePool) : PoolHolds pool pool :=
  ⟨fun h => h, GoMap.keeps_refl DeviceHolds (fun _ h => h) _⟩

theorem domainHolds_refl (domain : kvstore.ProtectionDomain) : DomainHolds domain domain :=
  ⟨fun h => h, GoMap.keeps_refl SdsHolds (fun _ h => h) _,
    GoMap.keeps_refl PoolHolds poolHolds_refl _⟩

theorem deleteDevice_holds (mDomainDelete mPoolDelete : Bool) (nDevices : Option (List String))
    (mDevice : kvstore.Device) :
    DeviceHolds mDevice (deleteDevice mDomainDelete mPoolDelete nDevices mDevice).1 := by
  intro h
  unfold deleteDevice
  split
  · exact h
  · split
    · rfl
    · exact h

theorem deleteSds_holds (mDomainDelete : Bool) (mSds : kvstore.Sds) :
    SdsHolds mSds (deleteSds mDomainDelete mSds).1 := by
  intro h
  unfold deleteSds
  split
  · rfl
  · exact h

theorem deletePool_holds (mDomainDelete : Bool) (nDomain : types.ProtectionDomain)
    (keyP : String) (mPool : kvstore.StoragePool) :
    PoolHolds mPool (deletePool mDomainDelete nDomain keyP mPool).1 := by
  cases hget : nDomain.Pools.get keyP with
  | none =>
    simp only [deletePool, hget]
    exact ⟨fun _ => rfl, GoMap.keeps_refl DeviceHolds (fun _ h => h) _⟩
  | some nPool =>
    simp only [deletePool, hget]
    constructor
    · intro h
      split
      · rfl
      · exact h
    · split
      · exact GoMap.keeps_rangeUpdate DeviceHolds _
          (fun _ mDevice => deleteDevice_holds _ _ _ mDevice) _
      · exact GoMap.keeps_rangeUpdate DeviceHolds _
          (fun _ mDevice => deleteDevice_holds _ _ _ mDevice) _

theorem deleteDomain_holds (node : types.ScaleIONode) (keyD : String)
    (mDomain : kvstore.ProtectionDomain) :
    DomainHolds mDomain (deleteDomain node keyD mDomain).1 := by
  cases hget : node.ProvidesDomains.get keyD with
  | none =>
    simp only [deleteDomain, hget]
    exact ⟨fun _ => rfl, GoMap.keeps_refl SdsHolds (fun _ h => h) _,
      GoMap.keeps_refl PoolHolds poolHolds_refl _⟩
  | some nDomain =>
    simp only [deleteDomain, hget]
    refine ⟨?_, ?_, ?_⟩
    · intro h
      split
      · rfl
      · exact h
    · split
      · exact GoMap.keeps_rangeUpdate SdsHolds _ (fun _ mSds => deleteSds_holds _ mSds) _
      · exact GoMap.keeps_rangeUpdate SdsHolds _ (fun _ mSds => deleteSds_holds _ mSds) _
    · split
      · exact GoMap.keeps_rangeUpdate PoolHolds _
          (fun keyP mPool => deletePool_holds _ _ keyP mPool) _
      · exact GoMap.keeps_rangeUpdate PoolHolds _
          (fun keyP mPool => deletePool_holds _ _ keyP mPool) _

theorem processDeletions_holds (metaData : kvstore.Metadata) (node : types.ScaleIONode) :
    MetadataHolds metaData (processDeletions metaData node).1 :=
  GoMap.keeps_rangeUpdate DomainHolds _ (fun keyD mDomain => deleteDomain_holds node keyD mDomain)
    _

theorem poolHolds_of_extends (old new : kvstore.StoragePool) (h : PoolExtends old new) :
    PoolHolds old new :=
  ⟨fun hdel => by rw [h.2.2.1]; exact hdel,
    GoMap.keeps_of_extends Eq DeviceHolds DeviceCreated (fun _ _ heq hdel => heq ▸ hdel) _ _
      h.2.2.2⟩

theorem domainHolds_of_extends (ipAddress : String) (old new : kvstore.ProtectionDomain)
    (h : DomainExtends ipAddress old new) : DomainHolds old new :=
  ⟨fun hdel => by rw [h.2.2.1]; exact hdel,
    GoMap.keeps_of_extends Eq SdsHolds (SdsCreated ipAddress) (fun _ _ heq hdel => heq ▸ hdel)
      _ _ h.2.2.2.1,
    GoMap.keeps_of_extends PoolExtends PoolHolds PoolCreated poolHolds_of_extends _ _
      h.2.2.2.2⟩

theorem processAdditions_holds (metaData : kvstore.Metadata) (node : types.ScaleIONode) :
    MetadataHolds metaData (processAdditions metaData node).1 :=
  GoMap.keeps_of_extends (DomainExtends node.IPAddress) DomainHolds
    (DomainCreated node.IPAddress) (domainHolds_of_extends node.IPAddress) _ _
    (processAdditions_extends metaData node)

theorem confirmSds_delete (domain : String) (sds : kvstore.Sds) (c : ExtClient) :
    (confirmSds domain sds c).1.Delete = sds.Delete := by
  unfold confirmSds
  simp only []
  split_ifs <;> (try split) <;> rfl

theorem processSdss_holds (domain : String) (sdss : GoMap kvstore.Sds) (c : ExtClient) :
    List.Forall₂ (fun a b => a.1 = b.1 ∧ SdsHolds a.2 b.2) sdss
      (processSdss domain sdss c).1 := by
  induction sdss generalizing c with
  | nil => exact List.Forall₂.nil
  | cons e rest ih =>
    obtain ⟨keyS, sds⟩ := e
    have hhead : (keyS, sds).1 = (keyS, (confirmSds domain sds c).1).1 ∧
        SdsHolds (keyS, sds).2 (keyS, (confirmSds domain sds c).1).2 :=
      ⟨rfl, fun h => by rw [confirmSds_delete]; exact h⟩
    have hrest : List.Forall₂ (fun a b : String × kvstore.Sds => a.1 = b.1 ∧ SdsHolds a.2 b.2)
        rest rest := List.forall₂_same.mpr (fun _ _ => ⟨rfl, fun h => h⟩)
    unfold processSdss
    split
    · exact List.Forall₂.cons hhead hrest
    · exact List.Forall₂.cons hhead (ih _)

theorem processPools_holds (scaleioSds : Option SdsHandle) (domain : String)
    (pools : GoMap kvstore.StoragePool) (c : ExtClient) :
    GoMap.Keeps PoolHolds pools (processPools scaleioSds domain pools c).1 := by
  apply GoMap.keeps_of_forall₂
  refine List.Forall₂.imp ?_ (processPools_alike scaleioSds domain pools c)
  intro a b hab
  refine ⟨hab.1, fun h => by rw [← hab.2.1]; exact h, ?_⟩
  rw [← hab.2.2]
  exact GoMap.keeps_refl DeviceHolds (fun _ h => h) _

theorem processDomain_holds (domain : kvstore.ProtectionDomain) (c : ExtClient) :
    DomainHolds domain (processDomain domain c).1 := by
  unfold processDomain
  split
  · exact domainHolds_refl domain
  · simp only []
    split
    · exact ⟨fun h => h, GoMap.keeps_of_forall₂ SdsHolds _ _ (processSdss_holds _ _ _),
        GoMap.keeps_refl PoolHolds poolHolds_refl _⟩
    · exact ⟨fun h => h, GoMap.keeps_of_forall₂ SdsHolds _ _ (processSdss_holds _ _ _),
        processPools_holds _ _ _ _⟩

theorem processDomains_holds (domains : GoMap kvstore.ProtectionDomain) (c : ExtClient) :
    List.Forall₂ (fun a b => a.1 = b.1 ∧ DomainHolds a.2 b.2) domains
      (processDomains domains c).1 := by
  induction domains generalizing c with
  | nil => exact List.Forall₂.nil
  | cons e rest ih =>
    obtain ⟨keyD, domain⟩ := e
    have hhead : (keyD, domain).1 = (keyD, (processDomain domain c).1).1 ∧
        DomainHolds (keyD, domain).2 (keyD, (processDomain domain c).1).2 :=
      ⟨rfl, processDomain_holds domain c⟩
    have hrest : List.Forall₂
        (fun a b : String × kvstore.ProtectionDomain => a.1 = b.1 ∧ DomainHolds a.2 b.2)
        rest rest := List.forall₂_same.mpr (fun x _ => ⟨rfl, domainHolds_refl x.2⟩)
    unfold processDomains
    split
    · exact List.Forall₂.cons hhead (ih _)
    · exact List.Forall₂.cons hhead hrest

theorem processMetadata_holds (client : ExtClient) (metaData : kvstore.Metadata) :
    MetadataHolds metaData (processMetadata client metaData).1 := by
  unfold processMetadata
  split
  · exact GoMap.keeps_of_forall₂ DomainHolds _ _ (processDomains_holds _ _)
  · exact GoMap.keeps_refl DomainHolds domainHolds_refl _

/-- C32: for every shadow metadata, node and client, after `processDeletions`,
after `processAdditions` and after `processMetadata` (however its calls end),
every domain, storage-serving entity, pool and device that the metadata held
before is still there under its key, and is flagged Delete when it was flagged
before, whatever the node declares. -/
theorem reconciliation_keeps_delete_flags (metaData : kvstore.Metadata)
    (node : types.ScaleIONode) (client : ExtClient) :
    MetadataHolds metaData (processDeletions metaData node).1 ∧
    MetadataHolds metaData (processAdditions metaData node).1 ∧
    MetadataHolds metaData (processMetadata client metaData).1 :=
  ⟨processDeletions_holds metaData node, processAdditions_holds metaData node,
    processMetadata_holds client metaData⟩
